import Mathlib

/-!
# MultiNEAT population core

A shallow embedding of `src/Population.cpp` (the `NEAT::Population` class):
speciation, offspring allocation, the generational `Epoch` loop, the
steady-state `Tick` loop, the phased-search controller, the index accessors,
the sparseness of novelty search and the save/load envelope.

Conventions of the embedding

* `double` values are rationals (`ℚ`): exact arithmetic, no rounding, no NaN.
* `unsigned int` counters are natural numbers; they are assumed to stay below
  `2^32`, so no wrap-around is modelled.
* `std::vector` is `List`; an out-of-range access, a failed `ASSERT` and a loop
  that never leaves are all the result `none`.
* `GlobalParameters` is the record `Parameters`, passed explicitly; functions
  that assign to it return the new record.
* `Genome.h`, `Species.h`, `Parameters.h` and `Population.h` are not part of
  the source tree at hand.  The few members of `Species` the population code
  calls are modelled from the specification (each such definition says so);
  genome-level operations (`IsCompatibleWith`, reproduction) are parameters.
-/

namespace NEAT

/-! ## Data model -/

/-- Modelled from the spec: the part of a genome (`Genome.h`, not in the source
tree) that the population core reads and writes.  The default value is the
empty genome of the default constructor. -/
structure Genome where
  id : Nat := 0
  fitness : ℚ := 0
  adjFitness : ℚ := 0
  offspringAmount : ℚ := 0
  evaluated : Bool := false
  numLinks : Nat := 0
  numInputs : Nat := 0
  numOutputs : Nat := 0
deriving DecidableEq, Repr

instance : Inhabited Genome := ⟨{}⟩

/-- Modelled from the spec: the attributes of a species (`Species.h`, not in the
source tree), a cluster of genomes held by value. -/
structure Species where
  id : Int
  age : Nat := 0
  gensNoImprovement : Nat := 0
  bestFitness : ℚ := 0
  averageFitness : ℚ := 0
  representative : Genome
  bestGenome : Genome
  offspringRqd : Int := 0
  bestSpecies : Bool := false
  individuals : List Genome
deriving DecidableEq, Repr

/-- The three regimes of the phased-search controller. -/
inductive SearchMode where
  | COMPLEXIFYING
  | SIMPLIFYING
  | BLENDED
deriving DecidableEq, Repr

/-- Modelled from the spec: the fields of `GlobalParameters` (`Parameters.h`,
not in the source tree) that `Population.cpp` reads. -/
structure Parameters where
  PopulationSize : Nat := 0
  DynamicCompatibility : Bool := false
  CompatTreshold : ℚ := 0
  MinCompatTreshold : ℚ := 0
  CompatTresholdModifier : ℚ := 0
  CompatTreshChangeInterval_Generations : Nat := 1
  CompatTreshChangeInterval_Evaluations : Nat := 1
  MinSpecies : Nat := 0
  MaxSpecies : Nat := 0
  StagnationDelta : ℚ := 0
  DeltaCoding : Bool := false
  SpeciesDropoffAge : Nat := 0
  PhasedSearching : Bool := false
  SimplifyingPhaseMPCTreshold : ℚ := 0
  SimplifyingPhaseStagnationTreshold : Nat := 0
  ComplexityFloorGenerations : Nat := 0
  InnovationsForever : Bool := false
deriving DecidableEq, Repr

/-- The member variables of a `Population` object that `Population.cpp` uses
(`Population.h` is not in the source tree). -/
structure Population where
  genomes : List Genome := []
  species : List Species := []
  tempSpecies : List Species := []
  generation : Nat := 0
  numEvaluations : Nat := 0
  bestFitnessEver : ℚ := 0
  bestGenomeEver : Genome := {}
  bestGenome : Genome := {}
  nextGenomeID : Nat := 0
  nextSpeciesID : Int := 1
  searchMode : SearchMode := SearchMode.BLENDED
  baseMPC : ℚ := 0
  oldMPC : ℚ := 0
  currentMPC : ℚ := 0
  gensSinceBestFitnessLastChanged : Nat := 0
  gensSinceMPCLastChanged : Nat := 0
deriving DecidableEq, Repr

/-! ## Members of `Species` used by the population code -/

namespace Species

/-- Modelled from the spec: the constructor `Species(founder, id)` of
`Species.h`, which is not in the source tree.  The founder is the
representative, the best genome and the only member; the age and the counters
start at 0 and the best-species flag is not set. -/
def create (founder : Genome) (id : Int) : Species :=
  { id := id, representative := founder, bestGenome := founder,
    bestFitness := founder.fitness, individuals := [founder] }

/-- Modelled from the spec: `AddIndividual` of `Species.h` appends the genome
to the member sequence. -/
def addIndividual (s : Species) (g : Genome) : Species :=
  { s with individuals := s.individuals ++ [g] }

/-- Modelled from the spec: `RemoveIndividual` of `Species.h` erases the member
at the index; an index outside the member sequence is an error. -/
def removeIndividual (s : Species) (i : Nat) : Option Species :=
  if i < s.individuals.length then
    some { s with individuals := s.individuals.eraseIdx i }
  else none

/-- Modelled from the spec: `NumMembers` of `Species.h`, the number of members. -/
def numMembers (s : Species) : Nat := s.individuals.length

/-- Modelled from the spec: `ResetAge` of `Species.h` puts the age back to 0. -/
def resetAge (s : Species) : Species := { s with age := 0 }

/-- Modelled from the spec: `IncreaseAge` of `Species.h`. -/
def increaseAge (s : Species) : Species := { s with age := s.age + 1 }

/-- Modelled from the spec: `IncreaseGensNoImprovement` of `Species.h`. -/
def increaseGensNoImprovement (s : Species) : Species :=
  { s with gensNoImprovement := s.gensNoImprovement + 1 }

/-- Modelled from the spec: `SetOffspringRqd` of `Species.h`. -/
def setOffspringRqd (s : Species) (n : Int) : Species := { s with offspringRqd := n }

/-- Modelled from the spec: `SetBestSpecies` of `Species.h`. -/
def setBestSpecies (s : Species) (b : Bool) : Species := { s with bestSpecies := b }

/-- Modelled from the spec: `SetRepresentative` of `Species.h`. -/
def setRepresentative (s : Species) (g : Genome) : Species := { s with representative := g }

end Species

/-- The number of genomes held by all species together. -/
def totalMembers (sp : List Species) : Nat :=
  (sp.map fun s => s.individuals.length).sum

/-- All members, species by species (the order every index accessor uses). -/
def allMembers (sp : List Species) : List Genome :=
  sp.flatMap fun s => s.individuals

/-! ## Speciate (`Population::Speciate`) -/

/-- The inner loop of `Speciate` over `j`: the genome joins the first species
whose representative it is compatible with (`break`); `none` when the loop ends
with `t_added == false`. -/
def speciateFind (compat : Genome → Genome → Bool) (g : Genome) :
    List Species → Option (List Species)
  | [] => none
  | s :: rest =>
    if compat g s.representative then some (s.addIndividual g :: rest)
    else (speciateFind compat g rest).map fun r => s :: r

/-- One pass of the outer loop body of `Speciate` for the genome `g`. -/
def speciateStep (compat : Genome → Genome → Bool) (st : List Species × Int) (g : Genome) :
    List Species × Int :=
  match speciateFind compat g st.1 with
  | some sp => (sp, st.2)
  | none => (st.1 ++ [Species.create g st.2], st.2 + 1)

/-- The outer loop of `Speciate` over the genome list. -/
def speciateLoop (compat : Genome → Genome → Bool) :
    List Genome → List Species × Int → List Species × Int
  | [], st => st
  | g :: gs, st => speciateLoop compat gs (speciateStep compat st g)

/-- The clean-up loop at the end of `Speciate`, with the iterator `t_cs` as the
index `i`.  After an erase the iterator steps back unless it is at `begin()`,
and is then advanced; advancing an iterator that already equals `end()` is
undefined and gives `none`. -/
def speciateCleanup (i : Nat) (sp : List Species) : Option (List Species) :=
  if h : i < sp.length then
    if (sp.get ⟨i, h⟩).numMembers = 0 then
      let sp1 := sp.eraseIdx i
      if i ≠ 0 then speciateCleanup i sp1
      else if 0 < sp1.length then speciateCleanup 1 sp1
      else none
    else speciateCleanup (i + 1) sp
  else some sp
termination_by sp.length - i
decreasing_by
  all_goals simp_wf
  · rw [List.length_eraseIdx]; simp [h]; omega
  · rw [List.length_eraseIdx]; simp [h]; omega
  · omega

/-- `Population::Speciate`. -/
def speciate (compat : Genome → Genome → Bool) (p : Population) : Option Population :=
  if 0 < p.genomes.length then
    let st := speciateLoop compat p.genomes (p.species, p.nextSpeciesID)
    (speciateCleanup 0 st.1).map fun sp =>
      { p with species := sp, nextSpeciesID := st.2 }
  else none

/-! ## Index access (`AccessGenomeByIndex`) and `CalculateMPC` -/

/-- The inner loop of the index search over the members of one species:
`c` is `t_counter`, `rel` the index within the species.  Returns the member
found, if any, and the counter on leaving the loop. -/
def findInSpecies (idx : Nat) : List Genome → Nat → Nat → Option (Nat × Genome) × Nat
  | [], c, _ => (none, c)
  | g :: gs, c, rel =>
    if c = idx then (some (rel, g), c) else findInSpecies idx gs (c + 1) (rel + 1)

/-- The double loop of `AccessGenomeByIndex` (and of `ReassignSpecies`): the
species index, the index within the species and the genome at position `idx`
of the species-major order; `none` when the loops end without a hit. -/
def findGenome (idx : Nat) : List Species → Nat → Nat → Option (Nat × Nat × Genome)
  | [], _, _ => none
  | s :: rest, c, si =>
    match findInSpecies idx s.individuals c 0 with
    | (some (rel, g), _) => some (si, rel, g)
    | (none, c1) => findGenome idx rest c1 (si + 1)

/-- The global `g_dummy`, an empty genome. -/
def g_dummy : Genome := {}

/-- `Population::AccessGenomeByIndex`: `none` when the `ASSERT` fails, the dummy
genome when the index is not reached. -/
def accessGenomeByIndex (p : Population) (idx : Nat) : Option Genome :=
  if idx < p.genomes.length then
    match findGenome idx p.species 0 0 with
    | some (_, _, g) => some g
    | none => some g_dummy
  else none

/-- The accumulation loop of `CalculateMPC` from index `i` on, `n` steps. -/
def calculateMPCLoop (p : Population) : Nat → Nat → ℚ → ℚ
  | 0, _, acc => acc
  | n + 1, i, acc =>
    calculateMPCLoop p n (i + 1)
      (acc + (((accessGenomeByIndex p i).getD g_dummy).numLinks : ℚ))

/-- `Population::CalculateMPC`. -/
def calculateMPC (p : Population) : Population :=
  { p with currentMPC := calculateMPCLoop p p.genomes.length 0 0 / (p.genomes.length : ℚ) }

/-! ## `CountOffspring`, `Sort`, `UpdateSpecies` -/

/-- Modelled from the spec: `Species::CountOffspring` of `Species.h` stores the
sum of the members' offspring amounts, rounded to an integer. -/
def Species.countOffspring (s : Species) : Species :=
  { s with offspringRqd := round ((s.individuals.map fun g => g.offspringAmount).sum) }

/-- The first double loop of `CountOffspring`: the total adjusted fitness. -/
def totalAdjustedFitness (sp : List Species) : ℚ :=
  sp.foldl (fun acc s => s.individuals.foldl (fun a g => a + g.adjFitness) acc) 0

/-- Modelled from the spec: `Genome::SetOffspringAmount` of `Genome.h`. -/
def Genome.setOffspringAmount (g : Genome) (a : ℚ) : Genome := { g with offspringAmount := a }

/-- The second double loop of `CountOffspring` for one species. -/
def Species.assignOffspring (avg : ℚ) (s : Species) : Species :=
  { s with individuals := s.individuals.map fun g => g.setOffspringAmount (g.adjFitness / avg) }

/-- `Population::CountOffspring`. -/
def countOffspring (P : Parameters) (p : Population) : Option Population :=
  if 0 < p.genomes.length ∧ p.genomes.length = P.PopulationSize then
    let total := totalAdjustedFitness p.species
    if 0 < total then
      let avg := total / (P.PopulationSize : ℚ)
      some { p with species :=
        (p.species.map (Species.assignOffspring avg)).map Species.countOffspring }
    else none
  else none

/-- Modelled from the spec: `Species::SortIndividuals` of `Species.h` orders the
members by raw fitness, best first, ties in insertion order. -/
def Species.sortIndividuals (s : Species) : Species :=
  { s with individuals := s.individuals.insertionSort fun a b => a.fitness ≥ b.fitness }

/-- `std::sort` with `species_greater`: best fitness first (the order among
species of equal best fitness is not fixed by `std::sort`; insertion order is
one admissible outcome). -/
def sortSpecies (sp : List Species) : List Species :=
  sp.insertionSort fun a b => a.bestFitness ≥ b.bestFitness

/-- `Population::Sort`. -/
def sort (p : Population) : Option Population :=
  if 0 < p.species.length then
    if ∀ s ∈ p.species, 0 < s.numMembers then
      some { p with species := sortSpecies (p.species.map Species.sortIndividuals) }
    else none
  else none

/-- The first loop of `UpdateSpecies`: the id and index of the last species
flagged best, starting from `(-1, -1)`. -/
def findOldBest : List Species → Nat → Int × Int → Int × Int
  | [], _, r => r
  | s :: rest, i, r =>
    if s.bestSpecies then findOldBest rest (i + 1) (s.id, (i : Int))
    else findOldBest rest (i + 1) r

/-- The marking loop of `UpdateSpecies`: `marked` is `t_marked`, `nid` is
`t_newbestid`. -/
def updateSpeciesMark (best : ℚ) : List Species → Bool → Int → List Species × Int
  | [], _, nid => ([], nid)
  | s :: rest, marked, nid =>
    let s1 := ((s.increaseAge).increaseGensNoImprovement).setOffspringRqd 0
    if s1.bestFitness ≥ best ∧ marked = false then
      let r := updateSpeciesMark best rest true s1.id
      (s1.setBestSpecies true :: r.1, r.2)
    else
      let r := updateSpeciesMark best rest marked nid
      (s1 :: r.1, r.2)

/-- Apply `f` to the element at index `i` of a vector; `none` out of range. -/
def modifyAt (sp : List Species) (i : Nat) (f : Species → Species) : Option (List Species) :=
  if h : i < sp.length then some (sp.set i (f (sp.get ⟨i, h⟩))) else none

/-- `Population::UpdateSpecies`. -/
def updateSpecies (p : Population) : Option Population :=
  let old : Int × Int := if 0 < p.generation then findOldBest p.species 0 (-1, -1) else (-1, -1)
  if 0 < p.generation ∧ (old.1 = -1 ∨ old.2 = -1) then none
  else
    let cleared := p.species.map fun s => s.setBestSpecies false
    let r := updateSpeciesMark p.bestFitnessEver cleared false (-1)
    if old.1 ≠ r.2 ∧ old.1 ≠ -1 then
      (modifyAt r.1 old.2.toNat Species.resetAge).map fun sp => { p with species := sp }
    else some { p with species := r.1 }

/-! ## The steps of `Epoch` -/

/-- Modelled from the spec: `Genome::SetEvaluated` of `Genome.h`. -/
def Genome.setEvaluated (g : Genome) : Genome := { g with evaluated := true }

/-- Modelled from the spec: `Genome::SetFitness` of `Genome.h`. -/
def Genome.setFitness (g : Genome) (f : ℚ) : Genome := { g with fitness := f }

/-- Modelled from the spec: `Species::GetLeader` of `Species.h` is the member at
index 0; a species without members has none. -/
def Species.getLeader (s : Species) : Option Genome := s.individuals.head?

/-- The record kept by the best-fitness scan: `m_BestFitnessEver`,
`m_BestGenomeEver` and `m_GensSinceBestFitnessLastChanged`. -/
structure ScanState where
  best : ℚ
  bestGenome : Genome
  counter : Nat
deriving DecidableEq, Repr

/-- The body of the inner loop of the scan of `Epoch` for one member (whose
evaluated flag has just been set). -/
def epochScanMember (delta : ℚ) (st : ScanState) (g : Genome) : ScanState :=
  if st.best < g.fitness then
    { best := g.fitness, bestGenome := g,
      counter := if |g.fitness - st.best| ≥ delta then 0 else st.counter }
  else st

/-- The inner loop of the scan of `Epoch` over the members of one species. -/
def epochScanMembers (delta : ℚ) : List Genome → ScanState → List Genome × ScanState
  | [], st => ([], st)
  | g :: gs, st =>
    let g1 := g.setEvaluated
    let r := epochScanMembers delta gs (epochScanMember delta st g1)
    (g1 :: r.1, r.2)

/-- The outer loop of the scan of `Epoch`. -/
def epochScanSpecies (delta : ℚ) : List Species → ScanState → Option (List Species × ScanState)
  | [], st => some ([], st)
  | s :: rest, st =>
    match s.getLeader with
    | none => none
    | some leader =>
      let r := epochScanMembers delta s.individuals st
      (epochScanSpecies delta rest r.2).map fun r2 =>
        ({ s with bestGenome := leader, individuals := r.1 } :: r2.1, r2.2)

/-- The stagnation counter increment and the best-fitness scan of `Epoch`. -/
def epochScan (P : Parameters) (p : Population) : Option Population :=
  (epochScanSpecies P.StagnationDelta p.species
      { best := p.bestFitnessEver, bestGenome := p.bestGenomeEver,
        counter := p.gensSinceBestFitnessLastChanged + 1 }).map fun r =>
    { p with species := r.1, bestFitnessEver := r.2.best, bestGenomeEver := r.2.bestGenome,
             gensSinceBestFitnessLastChanged := r.2.counter }

/-- The search for the current best genome in `Epoch`, one member. -/
def epochCurrentBestMember (st : ℚ × Genome) (g : Genome) : ℚ × Genome :=
  if g.fitness > st.1 then (g.fitness, g) else st

/-- The search for the current best genome in `Epoch`, starting from `-999999`. -/
def epochCurrentBest (p : Population) : Population :=
  { p with bestGenome :=
      (p.species.foldl (fun st s => s.individuals.foldl epochCurrentBestMember st)
        ((-999999 : ℚ), p.bestGenome)).2 }

/-- The compatibility threshold update of `Epoch`; `none` is the division by a
zero interval. -/
def epochCompat (P : Parameters) (p : Population) : Option Parameters :=
  if P.DynamicCompatibility = true then
    if P.CompatTreshChangeInterval_Generations = 0 then none
    else
      let P1 : Parameters :=
        if p.generation % P.CompatTreshChangeInterval_Generations = 0 then
          if p.species.length > P.MaxSpecies then
            { P with CompatTreshold := P.CompatTreshold + P.CompatTresholdModifier }
          else if p.species.length < P.MinSpecies then
            { P with CompatTreshold := P.CompatTreshold - P.CompatTresholdModifier }
          else P
        else P
      some (if P1.CompatTreshold < P1.MinCompatTreshold then
              { P1 with CompatTreshold := P1.MinCompatTreshold } else P1)
  else some P

/-- The loop `for i = 2 ..` of the delta-coding step. -/
def deltaCodingRest (sp : List Species) : List Species :=
  sp.map fun s => s.setOffspringRqd 0

/-- The delta-coding step of `Epoch`. -/
def epochDeltaCoding (P : Parameters) (p : Population) : Population :=
  if P.DeltaCoding then
    if p.gensSinceBestFitnessLastChanged > P.SpeciesDropoffAge + 10 then
      match p.species with
      | s0 :: s1 :: s2 :: rest =>
        { p with
          species :=
            ((s0.setOffspringRqd ((P.PopulationSize / 2 : Nat) : Int)).resetAge) ::
            ((s1.setOffspringRqd ((P.PopulationSize / 2 : Nat) : Int)).resetAge) ::
            deltaCodingRest (s2 :: rest),
          gensSinceBestFitnessLastChanged := 0 }
      | _ => p
    else p
  else p

/-- The phased-search step of `Epoch` (after `CalculateMPC`). -/
def epochPhased (P : Parameters) (p : Population) : Population :=
  if P.PhasedSearching then
    let p1 : Population :=
      if p.searchMode = SearchMode.SIMPLIFYING then
        if p.currentMPC < p.oldMPC then
          { p with gensSinceMPCLastChanged := 0, oldMPC := p.currentMPC }
        else { p with gensSinceMPCLastChanged := p.gensSinceMPCLastChanged + 1 }
      else p
    if p1.searchMode = SearchMode.COMPLEXIFYING then
      if p1.currentMPC > p1.baseMPC + P.SimplifyingPhaseMPCTreshold then
        if p1.gensSinceBestFitnessLastChanged > P.SimplifyingPhaseStagnationTreshold then
          { p1 with searchMode := SearchMode.SIMPLIFYING, gensSinceMPCLastChanged := 0,
                    oldMPC := 10000000, species := p1.species.map Species.resetAge }
        else p1
      else p1
    else if p1.searchMode = SearchMode.SIMPLIFYING then
      if p1.gensSinceMPCLastChanged > P.ComplexityFloorGenerations then
        { p1 with searchMode := SearchMode.COMPLEXIFYING, baseMPC := p1.currentMPC,
                  species := p1.species.map Species.resetAge }
      else p1
    else p1
  else p

/-! ## Reproduction, clean-up and top-up in `Epoch` -/

/-- Modelled from the spec: what one call of `Species::Reproduce(*this)` leaves
behind, the temporary species list that receives the babies and the genome id
counter. -/
structure ReproduceResult where
  tempSpecies : List Species
  nextGenomeID : Nat
deriving DecidableEq, Repr

/-- The members of `Species` and `Genome` that the population code calls and
whose own code (`Species.h`, `Genome.h`) is not in the source tree.  They are
parameters of the model. -/
structure SpeciesOps where
  /-- `Genome::IsCompatibleWith`, which reads the compatibility threshold. -/
  isCompatibleWith : Parameters → Genome → Genome → Bool
  /-- `Species::AdjustFitness`. -/
  adjustFitness : Parameters → Species → Species
  /-- `Species::KillWorst`. -/
  killWorst : Parameters → Species → Species
  /-- `Species::Reproduce(*this)` for the species at the given index. -/
  reproduce : Parameters → Population → Nat → ReproduceResult
  /-- `Species::KillOldParents`. -/
  killOldParents : Species → Species
  /-- `Species::ReproduceOne(*this)` for the species at the given index: the
  baby and the genome id counter afterwards. -/
  reproduceOne : Parameters → Population → Nat → Genome × Nat

/-- `Population::AdjustFitness`. -/
def adjustFitness (ops : SpeciesOps) (P : Parameters) (p : Population) : Option Population :=
  if 0 < p.genomes.length ∧ 0 < p.species.length then
    some { p with species := p.species.map (ops.adjustFitness P) }
  else none

/-- The loop `for i: m_Species[i].Reproduce(*this)`, `n` calls from index `i`. -/
def epochReproduceLoop (ops : SpeciesOps) (P : Parameters) : Nat → Nat → Population → Population
  | 0, _, p => p
  | n + 1, i, p =>
    let r := ops.reproduce P p i
    epochReproduceLoop ops P n (i + 1)
      { p with tempSpecies := r.tempSpecies, nextGenomeID := r.nextGenomeID }

/-- `KillWorst` on every species, the copy into `m_TempSpecies`, the
reproduction loop and the copy back. -/
def epochReproduce (ops : SpeciesOps) (P : Parameters) (p : Population) : Population :=
  let killed := p.species.map (ops.killWorst P)
  let p1 := epochReproduceLoop ops P killed.length 0
    { p with species := killed, tempSpecies := killed }
  { p1 with species := p1.tempSpecies }

/-- The loop of `Epoch` that erases the species without members; `i--` followed
by the loop's `i++` leaves the index where it is. -/
def epochRemoveEmpty (i : Nat) (sp : List Species) : List Species :=
  if h : i < sp.length then
    if (sp.get ⟨i, h⟩).individuals.length = 0 then epochRemoveEmpty i (sp.eraseIdx i)
    else epochRemoveEmpty (i + 1) sp
  else sp
termination_by sp.length - i
decreasing_by
  all_goals simp_wf
  · rw [List.length_eraseIdx]; simp [h]; omega
  · omega

/-- The loop of `Epoch` that makes `m_Individuals[0]` the representative. -/
def epochSetRepresentatives : List Species → Option (List Species)
  | [] => some []
  | s :: rest =>
    match s.individuals with
    | [] => none
    | g :: _ => (epochSetRepresentatives rest).map fun r => s.setRepresentative g :: r

/-- The `while(t_nts--)` loop of the top-up: `n` clones of the leader of
species 0 are appended to species 0 (`t_nts` is an `int`; the difference is
assumed to be below `2^31`). -/
def epochTopUpLoop : Nat → List Species → Option (List Species)
  | 0, sp => some sp
  | n + 1, sp =>
    match sp with
    | [] => none
    | s :: rest =>
      match s.individuals with
      | [] => none
      | g :: _ => epochTopUpLoop n (s.addIndividual g :: rest)

/-- The top-up step of `Epoch` (`t_total_genomes` is `totalMembers`). -/
def epochTopUp (P : Parameters) (sp : List Species) : Option (List Species) :=
  if totalMembers sp < P.PopulationSize then
    epochTopUpLoop (P.PopulationSize - totalMembers sp) sp
  else some sp

/-- `Population::Epoch`.  The innovation database is not part of the model, so
the final `Flush` has no counterpart. -/
def epoch (ops : SpeciesOps) (P : Parameters) (p : Population) :
    Option (Parameters × Population) := do
  let p1 ← sort p
  let p2 ← updateSpecies p1
  let p3 ← adjustFitness ops P p2
  let p4 ← countOffspring P p3
  let p5 ← epochScan P p4
  let p6 := epochCurrentBest p5
  let P1 ← epochCompat P p6
  let p7 := epochDeltaCoding P1 p6
  let p8 := epochPhased P1 (calculateMPC p7)
  let p9 := epochReproduce ops P1 p8
  let sp1 := epochRemoveEmpty 0 (p9.species.map ops.killOldParents)
  let sp2 ← epochSetRepresentatives sp1
  let sp3 ← epochTopUp P1 sp2
  pure (P1, { p9 with species := sp3, generation := p9.generation + 1 })

/-- The state a constructor leaves before `Speciate`: `m_BestFitnessEver = 0.0`,
the counters at 0, `m_NextSpeciesID = 1`. -/
def constructorInit (genomes : List Genome) (nextGenomeID : Nat) : Population :=
  { genomes := genomes, bestFitnessEver := 0, generation := 0, numEvaluations := 0,
    nextGenomeID := nextGenomeID, nextSpeciesID := 1,
    gensSinceBestFitnessLastChanged := 0, gensSinceMPCLastChanged := 0 }

/-- Modelled from the spec: `Genome::SetID` of `Genome.h`. -/
def Genome.setID (g : Genome) (i : Nat) : Genome := { g with id := i }

/-- The part of both constructors after the genome list is filled:
`Speciate`, the leader of species 0, `Sort`, and the phased-search set-up. -/
def constructorFinish (ops : SpeciesOps) (P : Parameters) (p : Population) :
    Option Population := do
  let p1 ← speciate (ops.isCompatibleWith P) p
  let s0 ← p1.species.head?
  let leader ← s0.getLeader
  let p2 ← sort { p1 with bestGenome := leader }
  let p3 := calculateMPC p2
  pure { p3 with baseMPC := p3.currentMPC, oldMPC := p3.currentMPC,
                 searchMode := if P.PhasedSearching then SearchMode.COMPLEXIFYING
                               else SearchMode.BLENDED }

/-- The constructor `Population(a_Seed, a_RandomizeWeights, a_RandomizationRange)`;
`randomize i` stands for `Randomize_LinkWeights` on the clone with index `i`. -/
def Population.create (ops : SpeciesOps) (P : Parameters) (randomize : Nat → Genome → Genome)
    (seed : Genome) (randomizeWeights : Bool) : Option Population :=
  let clones := (List.range P.PopulationSize).map fun i => seed.setID i
  let genomes := if randomizeWeights then
      (List.range clones.length).zipWith (fun i g => randomize i g) clones
    else clones
  constructorFinish ops P (constructorInit genomes P.PopulationSize)

/-! ## The steady-state loop: `ReassignSpecies`, `RemoveWorstIndividual`,
`ChooseParentSpecies`, `Tick` -/

/-- The constant `DBL_MAX` of `<cfloat>`. -/
def DBL_MAX : ℚ := 2 ^ 1024 - 2 ^ 971

/-- The constant `DBL_MIN` of `<cfloat>`, the least positive normal double. -/
def DBL_MIN : ℚ := 1 / 2 ^ 1022

/-- The placement shared by `ReassignSpecies` and `Tick`: with no species at
all a first species is created; otherwise the genome joins the first species
whose representative it is compatible with, or founds a new species.  Returns
the species list and `m_NextSpeciesID`. -/
def insertGenome (compat : Genome → Genome → Bool) (g : Genome) (sp : List Species)
    (nid : Int) : List Species × Int :=
  match sp with
  | [] => ([Species.create g nid], nid + 1)
  | _ :: _ =>
    match speciateFind compat g sp with
    | some sp1 => (sp1, nid)
    | none => (sp ++ [Species.create g nid], nid + 1)

/-- `RemoveIndividual(rel)` on the species at index `si`, and the erase of that
species when it is left without members. -/
def removeMember (sp : List Species) (si rel : Nat) : Option (List Species) :=
  if h : si < sp.length then
    match (sp.get ⟨si, h⟩).removeIndividual rel with
    | none => none
    | some s1 =>
      if s1.individuals.length = 0 then some (sp.eraseIdx si)
      else some (sp.set si s1)
  else none

/-- `Population::ReassignSpecies`. -/
def reassignSpecies (compat : Genome → Genome → Bool) (p : Population) (idx : Nat) :
    Option Population :=
  if idx < p.genomes.length then
    match findGenome idx p.species 0 0 with
    | none => none
    | some (si, rel, g) =>
      (removeMember p.species si rel).map fun sp1 =>
        let r := insertGenome compat g sp1 p.nextSpeciesID
        { p with species := r.1, nextSpeciesID := r.2 }
  else none

/-- The loop `for i: ReassignSpecies(i)` of `Tick`, `n` calls from index `i`. -/
def reassignAll (compat : Genome → Genome → Bool) : Nat → Nat → Population → Option Population
  | 0, _, p => some p
  | n + 1, i, p => (reassignSpecies compat p i).bind fun p1 => reassignAll compat n (i + 1) p1

/-- The position of the leading binary digit of `n ≥ 1`, found by halving `n`
at most `fuel` times (`n` halvings are always enough). -/
def log2Fuel : Nat → Nat → Nat
  | 0, _ => 0
  | f + 1, n => if n < 2 then 0 else log2Fuel f (n / 2) + 1

/-- The binary exponent of a rational `x ≠ 0`: the `e` with
`2^e ≤ |x| < 2^(e+1)`. -/
def binaryExponent (x : ℚ) : ℤ :=
  let e0 : ℤ := (log2Fuel x.num.natAbs x.num.natAbs : ℤ) - (log2Fuel x.den x.den : ℤ)
  if |x| < 2 ^ e0 then e0 - 1 else e0

/-- Rounding to the nearest integer, a tie to the even one. -/
def roundHalfEven (y : ℚ) : ℤ :=
  if y - ⌊y⌋ < 1 / 2 then ⌊y⌋
  else if 1 / 2 < y - ⌊y⌋ then ⌊y⌋ + 1
  else if ⌊y⌋ % 2 = 0 then ⌊y⌋ else ⌊y⌋ + 1

/-- The `double` nearest to `x` (IEEE 754 binary64, round to nearest, ties to
even): 53 significant binary digits, and below `2^-1022` the fixed spacing
`2^-1074` of the subnormal numbers.  A `double` is a fixed point.  Beyond the
largest `double` the machine result is an infinity, which `ℚ` does not hold;
the quotients of `RemoveWorstIndividual`, a finite `double` over a count of at
least 1, never get there. -/
def roundDouble (x : ℚ) : ℚ :=
  let ulp : ℚ := 2 ^ (max (binaryExponent x) (-1022) - 52)
  roundHalfEven (x / ulp) * ulp

/-- The operator `/` on two `double`s: the exact quotient, rounded. -/
def doubleDiv (a b : ℚ) : ℚ := roundDouble (a / b)

/-- The record of the search in `RemoveWorstIndividual`: `t_worst_idx` starts
as `(unsigned)-1`, `t_worst_fitness` as `DBL_MAX`, `t_genome` as an empty
genome.  (`t_worst_absolute_idx` is written and never read.) -/
structure WorstState where
  worstIdx : Nat := 4294967295
  worstSpecies : Nat := 0
  worstFitness : ℚ := DBL_MAX
  genome : Genome := {}
deriving DecidableEq, Repr

/-- The inner loop of `RemoveWorstIndividual` over the members of species `i`,
which has `size` members; `j` is the member index.  The adjusted fitness is
`GetFitness() / static_cast<double>(size)`, a division of `double`s. -/
def removeWorstMembers (size i : Nat) : List Genome → Nat → WorstState → WorstState
  | [], _, st => st
  | g :: gs, j, st =>
    let adj := doubleDiv g.fitness (size : ℚ)
    removeWorstMembers size i gs (j + 1)
      (if adj < st.worstFitness ∧ g.evaluated = true then
        { worstIdx := j, worstSpecies := i, worstFitness := adj, genome := g }
       else st)

/-- The outer loop of `RemoveWorstIndividual`. -/
def removeWorstSpecies : List Species → Nat → WorstState → WorstState
  | [], _, st => st
  | s :: rest, i, st =>
    removeWorstSpecies rest (i + 1) (removeWorstMembers s.individuals.length i s.individuals 0 st)

/-- `Population::RemoveWorstIndividual`: the population afterwards and the
genome returned. -/
def removeWorstIndividual (p : Population) : Option (Population × Genome) :=
  let st := removeWorstSpecies p.species 0 {}
  (removeMember p.species st.worstSpecies st.worstIdx).map fun sp =>
    ({ p with species := sp }, st.genome)

/-- The search record of `RemoveWorstIndividual` points at an evaluated member. -/
def WorstState.Valid (sp : List Species) (st : WorstState) : Prop :=
  ∃ s g, sp[st.worstSpecies]? = some s ∧ s.individuals[st.worstIdx]? = some g ∧
    g.evaluated = true

/-- Modelled from the spec: `Species::CalculateAverageFitness` of `Species.h`
is the mean raw fitness of the evaluated members, and 0 when there is none. -/
def Species.calculateAverageFitness (s : Species) : Species :=
  let ev := s.individuals.filter fun g => g.evaluated
  { s with averageFitness :=
      if ev.length = 0 then 0 else (ev.map fun g => g.fitness).sum / (ev.length : ℚ) }

/-- The inner `while(t_spin < t_marble)` loop of `ChooseParentSpecies`; reading
past the last species gives `none`. -/
def chooseWalk (sp : List Species) (marble : ℚ) (cur : Nat) (spin : ℚ) : Option Nat :=
  if spin < marble then
    if h : cur + 1 < sp.length then
      chooseWalk sp marble (cur + 1) (spin + (sp.get ⟨cur + 1, h⟩).averageFitness)
    else none
  else some cur
termination_by sp.length - cur
decreasing_by
  simp_wf
  omega

/-- The `do ... while` loop of `ChooseParentSpecies`.  Each pass takes the next
value of `RandFloat()` from `spins`; `cur` is `t_curspecies` as the previous
pass left it.  When the values run out the loop has not ended: `none`. -/
def chooseLoop (sp : List Species) (total : ℚ) : List ℚ → Nat → Option Nat
  | [], _ => none
  | r :: rs, cur =>
    if h : cur < sp.length then
      match chooseWalk sp (r * total) 0 (sp.get ⟨cur, h⟩).averageFitness with
      | none => none
      | some c =>
        if hc : c < sp.length then
          if (sp.get ⟨c, hc⟩).averageFitness = 0 then chooseLoop sp total rs c
          else some c
        else none
    else none

/-- `Population::ChooseParentSpecies` with the values `RandFloat()` returns. -/
def chooseParentSpecies (sp : List Species) (spins : List ℚ) : Option Nat :=
  if 0 < sp.length then
    chooseLoop sp (sp.foldl (fun t s => t + s.averageFitness) 0) spins 0
  else none

/-- The inner loop of the first scan of `Tick`: a fitness `<= 0` is replaced
by `0.00001`, then the record is updated as in `Epoch`. -/
def tickScanMembers (delta : ℚ) : List Genome → ScanState → List Genome × ScanState
  | [], st => ([], st)
  | g :: gs, st =>
    let g1 := if g.fitness ≤ 0 then g.setFitness (1 / 100000) else g
    let r := tickScanMembers delta gs (epochScanMember delta st g1)
    (g1 :: r.1, r.2)

/-- The outer loop of the first scan of `Tick`. -/
def tickScanSpecies (delta : ℚ) : List Species → ScanState → List Species × ScanState
  | [], st => ([], st)
  | s :: rest, st =>
    let r := tickScanMembers delta s.individuals st
    let r2 := tickScanSpecies delta rest r.2
    ({ s.increaseGensNoImprovement with individuals := r.1 } :: r2.1, r2.2)

/-- The inner loop of the second scan of `Tick`: `st` is `(t_f, m_BestGenome)`,
`sb` is the species' `(m_BestFitness, m_GensNoImprovement)`. -/
def tickBestMembers : List Genome → ℚ × Genome → ℚ × Nat → (ℚ × Genome) × (ℚ × Nat)
  | [], st, sb => (st, sb)
  | g :: gs, st, sb =>
    tickBestMembers gs (if g.fitness > st.1 then (g.fitness, g) else st)
      (if g.fitness ≥ sb.1 then (g.fitness, 0) else sb)

/-- The outer loop of the second scan of `Tick`. -/
def tickBestSpecies : List Species → ℚ × Genome → List Species × (ℚ × Genome)
  | [], st => ([], st)
  | s :: rest, st =>
    let r := tickBestMembers s.individuals st (s.bestFitness, s.gensNoImprovement)
    let r2 := tickBestSpecies rest r.1
    ({ s with bestFitness := r.2.1, gensNoImprovement := r.2.2 } :: r2.1, r2.2)

/-- The compatibility threshold update of `Tick`: the parameters afterwards and
`t_changed`; `none` is the division by a zero interval. -/
def tickCompat (P : Parameters) (p : Population) : Option (Parameters × Bool) :=
  if P.DynamicCompatibility = true then
    if P.CompatTreshChangeInterval_Evaluations = 0 then none
    else if p.numEvaluations % P.CompatTreshChangeInterval_Evaluations = 0 then
      let r : Parameters × Bool :=
        if p.species.length > P.MaxSpecies then
          ({ P with CompatTreshold := P.CompatTreshold + P.CompatTresholdModifier }, true)
        else if p.species.length < P.MinSpecies then
          ({ P with CompatTreshold := P.CompatTreshold - P.CompatTresholdModifier }, true)
        else (P, false)
      some (if r.1.CompatTreshold < r.1.MinCompatTreshold then
              { r.1 with CompatTreshold := r.1.MinCompatTreshold } else r.1, r.2)
    else some (P, false)
  else some (P, false)

/-- What `Tick` leaves: the parameters, the population, the genome handed back
in `a_deleted_genome` and the baby (the last member of the species it joined,
to which the returned pointer refers). -/
structure TickResult where
  params : Parameters
  pop : Population
  deleted : Genome
  baby : Genome
deriving DecidableEq, Repr

/-- The first part of `Tick`: the evaluation counter, the best-fitness scan
and the scan for the current best genome and the species records. -/
def tickScan (P : Parameters) (p : Population) : Population :=
  let r1 := tickScanSpecies P.StagnationDelta p.species
    { best := p.bestFitnessEver, bestGenome := p.bestGenomeEver,
      counter := p.gensSinceBestFitnessLastChanged }
  let r2 := tickBestSpecies r1.1 (DBL_MIN, p.bestGenome)
  { p with numEvaluations := p.numEvaluations + 1, species := r2.1,
           bestFitnessEver := r1.2.best, bestGenomeEver := r1.2.bestGenome,
           gensSinceBestFitnessLastChanged := r1.2.counter, bestGenome := r2.2.2 }

/-- The reassignment of `Tick`: `ReassignSpecies(i)` for every index of the
genome list when the threshold was changed. -/
def tickReassign (ops : SpeciesOps) (c : Parameters × Bool) (p : Population) :
    Option Population :=
  if c.2 then reassignAll (ops.isCompatibleWith c.1) p.genomes.length 0 p else some p

/-- The last part of `Tick`: `ReproduceOne` on the parent species, the two
`ASSERT`s on the baby, and its placement. -/
def tickBirth (ops : SpeciesOps) (P : Parameters) (p : Population) (deleted : Genome)
    (parent : Nat) : Option TickResult :=
  let b := ops.reproduceOne P p parent
  if 0 < b.1.numInputs ∧ 0 < b.1.numOutputs then
    let r := insertGenome (ops.isCompatibleWith P) b.1 p.species p.nextSpeciesID
    some { params := P,
           pop := { p with species := r.1, nextSpeciesID := r.2, nextGenomeID := b.2 },
           deleted := deleted, baby := b.1 }
  else none

/-- `Population::Tick`, with the values `RandFloat()` returns in
`ChooseParentSpecies`. -/
def tick (ops : SpeciesOps) (P : Parameters) (p : Population) (spins : List ℚ) :
    Option TickResult :=
  (tickCompat P (tickScan P p)).bind fun c =>
  (tickReassign ops c (tickScan P p)).bind fun p3 =>
  (sort p3).bind fun p4 =>
  (removeWorstIndividual p4).bind fun w =>
  (chooseParentSpecies (w.1.species.map Species.calculateAverageFitness) spins).bind
    fun parent =>
  tickBirth ops c.1 { w.1 with species := w.1.species.map Species.calculateAverageFitness }
    w.2 parent

/-! ## Which genomes the reassignment loop of `Tick` picks -/

/-- The ids of the genomes that the calls `ReassignSpecies(i)`, `ReassignSpecies(i+1)`,
... (`n` calls) pick in their search loop (`t_genome`), in call order, along
the run of `reassignAll`. -/
def reassignPicked (compat : Genome → Genome → Bool) :
    Nat → Nat → Population → Option (List Nat)
  | 0, _, _ => some []
  | n + 1, i, p =>
    match findGenome i p.species 0 0 with
    | none => none
    | some (_, _, g) =>
      (reassignSpecies compat p i).bind fun p1 =>
        (reassignPicked compat n (i + 1) p1).map fun ids => g.id :: ids

/-! ## Consecutive Epochs -/

/-- The loop invariant of the search in `RemoveWorstIndividual` when the loops
stand at member `j` of species `i`: the recorded value is at most the adjusted
fitness of every evaluated member already visited, no visited member of that
same value comes before the recorded position, and a recorded value below
`DBL_MAX` belongs to a visited evaluated member, which the record holds. -/
def WorstState.Good (sp : List Species) (i j : Nat) (st : WorstState) : Prop :=
  (∀ i1 j1 t h, (i1 < i ∨ (i1 = i ∧ j1 < j)) → sp[i1]? = some t →
      t.individuals[j1]? = some h → h.evaluated = true →
      st.worstFitness ≤ doubleDiv h.fitness (t.individuals.length : ℚ) ∧
      (doubleDiv h.fitness (t.individuals.length : ℚ) = st.worstFitness →
        st.worstFitness < DBL_MAX →
        st.worstSpecies < i1 ∨ (st.worstSpecies = i1 ∧ st.worstIdx ≤ j1))) ∧
  (st.worstFitness < DBL_MAX →
    (st.worstSpecies < i ∨ (st.worstSpecies = i ∧ st.worstIdx < j)) ∧
    ∃ s g, sp[st.worstSpecies]? = some s ∧ s.individuals[st.worstIdx]? = some g ∧
      g.evaluated = true ∧ st.genome = g ∧
      st.worstFitness = doubleDiv g.fitness (s.individuals.length : ℚ)) ∧
  st.worstFitness ≤ DBL_MAX

/-! ## The outcomes of `ChooseParentSpecies` -/

/-- How a run of `ChooseParentSpecies` on a given sequence of `RandFloat()`
values ends: an index is returned (with the value of the accepted pass), an
index outside the species list is read, or every value was rejected and the
loop asks for another one. -/
inductive ChooseOutcome where
  | chosen (index : Nat) (spin : ℚ)
  | outOfRange
  | moreSpins
deriving DecidableEq, Repr

/-- The `do ... while` loop of `ChooseParentSpecies` as in `chooseLoop`, with
the way it ends told apart. -/
def chooseLoopOutcome (sp : List Species) (total : ℚ) : List ℚ → Nat → ChooseOutcome
  | [], _ => ChooseOutcome.moreSpins
  | r :: rs, cur =>
    if h : cur < sp.length then
      match chooseWalk sp (r * total) 0 (sp.get ⟨cur, h⟩).averageFitness with
      | none => ChooseOutcome.outOfRange
      | some c =>
        if hc : c < sp.length then
          if (sp.get ⟨c, hc⟩).averageFitness = 0 then chooseLoopOutcome sp total rs c
          else ChooseOutcome.chosen c r
        else ChooseOutcome.outOfRange
    else ChooseOutcome.outOfRange

/-! ## Where `CountOffspring` stops -/

/-- The inner loop of `GetGenomeByIndex` over the members of one species: the
values of `t_genome` and `t_counter` on leaving the loop.  At a hit the genome
is copied and `break` leaves this loop with the counter unchanged. -/
def getGenomeInSpecies (idx : Nat) : List Genome → Nat → Genome → Genome × Nat
  | [], c, t => (t, c)
  | g :: gs, c, t => if c = idx then (g, c) else getGenomeInSpecies idx gs (c + 1) t

/-- The outer loop of `GetGenomeByIndex`, which goes on to the next species
after the inner loop, also after a hit. -/
def getGenomeLoop (idx : Nat) : List Species → Nat → Genome → Genome
  | [], _, t => t
  | s :: rest, c, t =>
    let r := getGenomeInSpecies idx s.individuals c t
    getGenomeLoop idx rest r.2 r.1

/-- `Population::GetGenomeByIndex`; `none` when the `ASSERT` fails. -/
def getGenomeByIndex (P : Parameters) (p : Population) (idx : Nat) : Option Genome :=
  if idx < P.PopulationSize then some (getGenomeLoop idx p.species 0 {}) else none

/-! ## `GetMaxMinGenomeFitness` -/

/-- The body of the inner loop of `GetMaxMinGenomeFitness` for one member: the
values of `a_Max` and `a_Min` afterwards. -/
def maxMinMember (st : ℚ × ℚ) (g : Genome) : ℚ × ℚ :=
  (if st.1 < g.fitness then g.fitness else st.1, if st.2 > g.fitness then g.fitness else st.2)

/-- `Population::GetMaxMinGenomeFitness`: the values left in `a_Max` and
`a_Min`, which start as `DBL_MIN` and `DBL_MAX`. -/
def getMaxMinGenomeFitness (p : Population) : ℚ × ℚ :=
  p.species.foldl (fun st s => s.individuals.foldl maxMinMember st) (DBL_MIN, DBL_MAX)

/-! ## Novelty search -/

/-- Modelled from the spec: the novelty-search fields of `GlobalParameters`
(`Parameters.h`, not in the source tree) that `Population.cpp` reads. -/
structure NoveltyParameters where
  NoveltySearch_K : Nat := 1
  NoveltySearch_P_min : ℚ := 0
  NoveltySearch_Dynamic_Pmin : Bool := false
  NoveltySearch_Pmin_min : ℚ := 0
  NoveltySearch_No_Archiving_Stagnation_Treshold : Nat := 0
  NoveltySearch_Quick_Archiving_Min_Evaluations : Nat := 0
  NoveltySearch_Pmin_lowering_multiplier : ℚ := 1
  NoveltySearch_Pmin_raising_multiplier : ℚ := 1
  NoveltySearch_Recompute_Sparseness_Each : Nat := 1
deriving DecidableEq, Repr

/-- The novelty-search members of a `Population` object: the behaviours held by
`*m_BehaviorArchive`, `m_GensSinceLastArchiving` and `m_QuickAddCounter`.  The
type `β` stands for `PhenotypeBehavior` (`PhenotypeBehavior.h`, not in the
source tree). -/
structure NoveltyState (β : Type) where
  archive : List β := []
  gensSinceLastArchiving : Nat := 0
  quickAddCounter : Nat := 0

/-- The list `t_distances_list` of `ComputeSparseness` before it is sorted: the
distances from the behaviour of `g` to the behaviour of every member, species
by species, then to every archive entry.  `distanceTo` is `Distance_To` and
`behaviorOf` follows the pointer `m_PhenotypeBehavior` of a genome. -/
def sparsenessDistances {β : Type} (distanceTo : β → β → ℚ) (behaviorOf : Genome → β)
    (sp : List Species) (archive : List β) (g : Genome) : List ℚ :=
  (sp.flatMap fun s => s.individuals.map fun m => distanceTo (behaviorOf g) (behaviorOf m))
    ++ archive.map fun b => distanceTo (behaviorOf g) b

/-- The summation loop of `ComputeSparseness`: `n` passes from index `i`, each
reading `t_distances_list[i]`; `none` when an index is outside the list. -/
def sparsenessSum (d : List ℚ) : Nat → Nat → ℚ → Option ℚ
  | 0, _, acc => some acc
  | n + 1, i, acc =>
    match d[i]? with
    | none => none
    | some x => sparsenessSum d n (i + 1) (acc + x)

/-- `Population::ComputeSparseness` with `NoveltySearch_K = K`.  `std::sort` on
the distances is the ascending sort; for `K = 0` the loop is empty and the
result `0.0 / 0` is not a number: `none`. -/
def computeSparseness {β : Type} (distanceTo : β → β → ℚ) (behaviorOf : Genome → β)
    (K : Nat) (sp : List Species) (archive : List β) (g : Genome) : Option ℚ :=
  let sorted := (sparsenessDistances distanceTo behaviorOf sp archive g).insertionSort
    fun a b => a ≤ b
  if K = 0 then none
  else (sparsenessSum sorted K 1 0).map fun s => s / (K : ℚ)

/-- The archive bookkeeping of `NoveltySearchTick`, from the early return on
`t_success` to the end of the `if (t_sparseness > NoveltySearch_P_min)`
statement.  `success` is what `Acquire` returned, `sparseness` the value of
`ComputeSparseness(*t_new_baby)` and `b` the behaviour `*(t_new_baby->m_PhenotypeBehavior)`.
The search for an entry already present is commented out in the source, so
`present` is always `false`. -/
def noveltyArchiveStep {β : Type} (NP : NoveltyParameters) (success : Bool) (sparseness : ℚ)
    (b : β) (st : NoveltyState β) : NoveltyState β :=
  if success then st
  else
    let st1 : NoveltyState β := { st with gensSinceLastArchiving := st.gensSinceLastArchiving + 1 }
    if sparseness > NP.NoveltySearch_P_min then
      let present := false
      if ¬ present then
        { archive := st1.archive ++ [b], gensSinceLastArchiving := 0,
          quickAddCounter := st1.quickAddCounter + 1 }
      else st1
    else { st1 with quickAddCounter := 0 }

/-! ## Saving and loading a population -/

/-- What `Population::Save` writes, line by line: the number after `Genomes:`,
the number after `Compatibility:` as the text shows it, the block of the
innovation database, and the genome blocks in file order.  `InnovationDatabase`
and the `Save` method and stream constructor of `Genome` are not in the source
tree: the innovation block is a value of an arbitrary type `ι`, and a genome
block stands for the genome it was written from, which the stream constructor
of `Genome` reads back. -/
structure SavedPopulation (ι : Type) where
  genomes : Nat
  compatibility : ℚ
  innovations : ι
  blocks : List Genome

/-- The number a `%3.5f` conversion shows: the value rounded to five decimals. -/
def printf35 (x : ℚ) : ℚ := (round (x * 100000) : ℚ) / 100000

/-- `Population::Save`; `innov` is the innovation database of the population. -/
def Population.save {ι : Type} (P : Parameters) (innov : ι) (p : Population) :
    SavedPopulation ι :=
  { genomes := p.genomes.length, compatibility := printf35 P.CompatTreshold,
    innovations := innov, blocks := allMembers p.species }

/-- The loop of the file constructor that finds the greatest genome id, and the
increment after it. -/
def loadNextGenomeID (genomes : List Genome) : Nat :=
  genomes.foldl (fun n g => if g.id > n then g.id else n) 0 + 1

/-- The constructor `Population(char* a_FileName)` on the content of the file:
`PopulationSize` and `CompatTreshold` are read into the parameters `P`, then
the innovation database and `PopulationSize` genomes (`none` when the file
holds fewer blocks); the rest is as in the other constructor, and at the end
`GlobalParameters.Reset()` puts every parameter back to its default.  Modelled
from the spec: `Reset` of `Parameters.h` restores the field defaults, here the
record `defaults`.  Returns the parameters, the innovation database and the
population. -/
def Population.fromFile {ι : Type} (ops : SpeciesOps) (defaults P : Parameters)
    (f : SavedPopulation ι) : Option (Parameters × ι × Population) :=
  let P1 : Parameters := { P with PopulationSize := f.genomes, CompatTreshold := f.compatibility }
  if f.blocks.length < f.genomes then none
  else
    let genomes := f.blocks.take f.genomes
    (constructorFinish ops P1 (constructorInit genomes (loadNextGenomeID genomes))).map
      fun p => (defaults, f.innovations, p)

/-! ## Concrete inputs -/

/-- An evaluated genome with the given id and raw fitness. -/
def exGenome (i : Nat) (f : ℚ) : Genome := { id := i, fitness := f, evaluated := true }

/-- Two single-member species with best fitness 1 and 2, record 2, generation 0. -/
def exPopTwoSpecies : Population :=
  { species := [Species.create (exGenome 0 1) 1, Species.create (exGenome 1 2) 2],
    bestFitnessEver := 2 }

/-- A complexifying population past both phased-search thresholds of
`exPhasedParams`: two genomes with 4 links each, base MPC 1, stagnation 3. -/
def exPopComplexifying : Population :=
  { genomes := [{ id := 0, numLinks := 4 }, { id := 1, numLinks := 4 }],
    species := [{ id := 1, age := 7, representative := { id := 0, numLinks := 4 },
                  bestGenome := { id := 0, numLinks := 4 },
                  individuals := [{ id := 0, numLinks := 4 }, { id := 1, numLinks := 4 }] }],
    searchMode := SearchMode.COMPLEXIFYING, baseMPC := 1,
    gensSinceBestFitnessLastChanged := 3, gensSinceMPCLastChanged := 2 }

/-- The same population in the simplifying phase, with `old_mpc = 4`. -/
def exPopSimplifying : Population :=
  { exPopComplexifying with searchMode := SearchMode.SIMPLIFYING, oldMPC := 4 }

/-- Phased searching on, MPC threshold 2, stagnation threshold 2, floor 2. -/
def exPhasedParams : Parameters :=
  { PopulationSize := 2, PhasedSearching := true, SimplifyingPhaseMPCTreshold := 2,
    SimplifyingPhaseStagnationTreshold := 2, ComplexityFloorGenerations := 2 }

/-- A genome with the given id and adjusted fitness. -/
def exAdjGenome (i : Nat) (a : ℚ) : Genome := { id := i, adjFitness := a, evaluated := true }

/-- A species with the given id and members (representative: a default genome). -/
def exSpecies (id : Int) (members : List Genome) : Species :=
  { id := id, representative := {}, bestGenome := {}, individuals := members }

/-- Five genomes in three species whose adjusted fitnesses add up to 8/5, 17/10
and 17/10, 5 in total. -/
def exPopRounding : Population :=
  { genomes := [exAdjGenome 0 (4 / 5), exAdjGenome 1 (4 / 5), exAdjGenome 2 (9 / 10),
                exAdjGenome 3 (4 / 5), exAdjGenome 4 (17 / 10)],
    species := [exSpecies 1 [exAdjGenome 0 (4 / 5), exAdjGenome 1 (4 / 5)],
                exSpecies 2 [exAdjGenome 2 (9 / 10), exAdjGenome 3 (4 / 5)],
                exSpecies 3 [exAdjGenome 4 (17 / 10)]] }

/-- Three species of two babies each: the quotas 2, 2, 2 of `exPopRounding`
after reproduction and parent culling. -/
def exSpeciesSix : List Species :=
  [exSpecies 1 [{ id := 5 }, { id := 6 }], exSpecies 2 [{ id := 7 }, { id := 8 }],
   exSpecies 3 [{ id := 9 }, { id := 10 }]]

/-- Two species with three babies in total. -/
def exSpeciesThree : List Species :=
  [exSpecies 1 [{ id := 5 }, { id := 6 }], exSpecies 2 [{ id := 7 }]]

/-- Species-level operations for the concrete runs: every pair of genomes is
compatible, the adjusted fitness is the raw fitness (0.0001 for a raw fitness
that is not positive), nobody is killed, `Reproduce` emits nothing and
`ReproduceOne` returns a fresh genome with one input and one output. -/
def exOps : SpeciesOps :=
  { isCompatibleWith := fun _ _ _ => true,
    adjustFitness := fun _ s =>
      { s with individuals := s.individuals.map fun g =>
          { g with adjFitness := if g.fitness ≤ 0 then 1 / 10000 else g.fitness } },
    killWorst := fun _ s => s,
    reproduce := fun _ p _ => { tempSpecies := p.tempSpecies, nextGenomeID := p.nextGenomeID },
    killOldParents := fun s => s,
    reproduceOne := fun _ p _ =>
      ({ id := p.nextGenomeID, numInputs := 1, numOutputs := 1 }, p.nextGenomeID + 1) }

/-- One species with two evaluated members of fitness 2 and 1. -/
def exPopPair : Population :=
  { genomes := [exGenome 0 2, exGenome 1 1],
    species := [{ id := 1, representative := exGenome 0 2, bestGenome := exGenome 0 2,
                  bestFitness := 2, individuals := [exGenome 0 2, exGenome 1 1] }],
    nextGenomeID := 2, nextSpeciesID := 2 }

/-- Population size 2, every optional mechanism off. -/
def exParamsPair : Parameters := { PopulationSize := 2 }

/-- The evaluation loop of `main` in `Main.cpp`: every member of every species
gets the fitness `f` computes for it and is marked evaluated. -/
def evaluateAll (f : Genome → ℚ) (p : Population) : Population :=
  { p with species := p.species.map fun s =>
      { s with individuals := s.individuals.map fun g =>
          (g.setFitness (f g)).setEvaluated } }

/-- Species-level operations as the specification describes them, for a
concrete run of `Epoch`: explicit fitness sharing (`fitness / size`), no
culling before reproduction, `Reproduce` emitting `offspring_required` new
genomes with fresh ids into its entry of the temporary species list, and
`KillOldParents` removing the evaluated members (the parents). -/
def exOpsQuota : SpeciesOps :=
  { isCompatibleWith := fun _ _ _ => true,
    adjustFitness := fun _ s =>
      { s with individuals := s.individuals.map fun g =>
          { g with adjFitness := g.fitness / (s.individuals.length : ℚ) } },
    killWorst := fun _ s => s,
    reproduce := fun _ p i =>
      let n := ((p.species.map fun s => s.offspringRqd.toNat).getD i 0)
      { tempSpecies := p.tempSpecies.enum.map fun t =>
          if t.1 = i then
            { t.2 with individuals := t.2.individuals ++
                (List.range n).map fun k => ({ id := p.nextGenomeID + k } : Genome) }
          else t.2,
        nextGenomeID := p.nextGenomeID + n },
    killOldParents := fun s =>
      { s with individuals := s.individuals.filter fun g => !g.evaluated },
    reproduceOne := fun _ p _ =>
      ({ id := p.nextGenomeID, numInputs := 1, numOutputs := 1 }, p.nextGenomeID + 1) }

/-- A fresh population of two clones of an empty seed genome, evaluated with
the negative fitnesses `-1` and `-2`. -/
def exFreshNegative : Option Population :=
  (Population.create exOpsQuota exParamsPair (fun _ g => g) {} false).map
    (evaluateAll fun g => -1 - (g.id : ℚ))

/-- The population the constructor makes of two clones of an empty seed
genome. -/
def exFresh : Population :=
  (Population.create exOpsQuota exParamsPair (fun _ g => g) {} false).getD {}

/-- The fresh population evaluated with the fitnesses 1 and 2. -/
def exFreshPositive : Population := evaluateAll (fun g => 1 + (g.id : ℚ)) exFresh

/-- Population size 5, every optional mechanism off. -/
def exParamsFive : Parameters := { PopulationSize := 5 }

/-- Five evaluated genomes in three species; with fitness sharing the adjusted
fitnesses add up to 17/10, 17/10 and 8/5 per species, 5 in total. -/
def exPopQuota : Population :=
  { genomes := [exGenome 0 (17 / 10), exGenome 1 (17 / 10), exGenome 2 (17 / 10),
                exGenome 3 (8 / 5), exGenome 4 (8 / 5)],
    species := [{ exSpecies 1 [exGenome 0 (17 / 10)] with bestFitness := 17 / 10 },
                { exSpecies 2 [exGenome 1 (17 / 10), exGenome 2 (17 / 10)] with
                  bestFitness := 17 / 10 },
                { exSpecies 3 [exGenome 3 (8 / 5), exGenome 4 (8 / 5)] with
                  bestFitness := 8 / 5 }],
    nextGenomeID := 5, nextSpeciesID := 4 }

/-- One species with two members of fitness 2 and 1, only the first of them
evaluated. -/
def exPopOneEvaluated : Population :=
  { genomes := [exGenome 0 2, { id := 1, fitness := 1 }],
    species := [{ id := 1, representative := exGenome 0 2, bestGenome := exGenome 0 2,
                  bestFitness := 2, individuals := [exGenome 0 2, { id := 1, fitness := 1 }] }],
    nextGenomeID := 2, nextSpeciesID := 2 }

/-- Delta coding on, `SpeciesDropoffAge = 0`, population size 3. -/
def exDeltaParams : Parameters := { PopulationSize := 3, DeltaCoding := true }

/-- Three single-member species, every member with fitness 1, the record at 1
and the stagnation counter at `n`. -/
def exPopStagnant (n : Nat) : Population :=
  { genomes := [exGenome 0 1, exGenome 1 1, exGenome 2 1],
    species := [{ Species.create (exGenome 0 1) 1 with bestSpecies := true },
                Species.create (exGenome 1 1) 2, Species.create (exGenome 2 1) 3],
    bestFitnessEver := 1, nextGenomeID := 3, nextSpeciesID := 4,
    gensSinceBestFitnessLastChanged := n }

/-- Dynamic compatibility on: threshold 2, modifier 1/2, minimum 1, interval 2,
species band [2, 10]. -/
def exCompatParams : Parameters :=
  { PopulationSize := 2, DynamicCompatibility := true, CompatTreshold := 2,
    MinCompatTreshold := 1, CompatTresholdModifier := 1 / 2,
    CompatTreshChangeInterval_Generations := 2,
    CompatTreshChangeInterval_Evaluations := 2, MinSpecies := 2, MaxSpecies := 10 }

/-- Dynamic compatibility on with a threshold (1) below the minimum (2),
interval 2 for both counters, species band [0, 10]. -/
def exClampParams : Parameters :=
  { PopulationSize := 2, DynamicCompatibility := true, CompatTreshold := 1,
    MinCompatTreshold := 2, CompatTresholdModifier := 1 / 2,
    CompatTreshChangeInterval_Generations := 2,
    CompatTreshChangeInterval_Evaluations := 2, MinSpecies := 0, MaxSpecies := 10 }

/-- The population `exPopPair` with both counters at 1. -/
def exPopCounterOne : Population := { exPopPair with generation := 1, numEvaluations := 1 }

/-- A compatibility test: two genomes are compatible when they have the same
number of inputs. -/
def exCompatInputs (g r : Genome) : Bool := decide (g.numInputs = r.numInputs)

/-- A species without members whose representative has `n` inputs. -/
def exEmptySpecies (id : Int) (n : Nat) : Species :=
  { id := id, representative := { numInputs := n }, bestGenome := {}, individuals := [] }

/-- One genome (no inputs) and a species list that starts with two species
without members, whose representatives (7 and 8 inputs) the genome is not
compatible with. -/
def exPopTwoEmpty : Population :=
  { genomes := [exGenome 0 1], species := [exEmptySpecies 1 7, exEmptySpecies 2 8],
    nextGenomeID := 1, nextSpeciesID := 3 }

/-- One species with the three members 0, 1, 2. -/
def exPopTriple : Population :=
  { genomes := [exGenome 0 1, exGenome 1 1, exGenome 2 1],
    species := [{ id := 1, representative := exGenome 0 1, bestGenome := exGenome 0 1,
                  bestFitness := 1,
                  individuals := [exGenome 0 1, exGenome 1 1, exGenome 2 1] }],
    nextGenomeID := 3, nextSpeciesID := 2 }

/-- One species whose only member is evaluated and has the fitness `DBL_MAX`. -/
def exPopHuge : Population :=
  { genomes := [exGenome 0 DBL_MAX],
    species := [{ id := 1, representative := exGenome 0 DBL_MAX,
                  bestGenome := exGenome 0 DBL_MAX, individuals := [exGenome 0 DBL_MAX] }],
    nextGenomeID := 1, nextSpeciesID := 2 }

/-- Two species: members of fitness 4 and 1 (adjusted 2 and 1/2), and one
member of fitness 1/2 (adjusted 1/2). -/
def exPopTie : Population :=
  { genomes := [exGenome 0 4, exGenome 1 1, exGenome 2 (1 / 2)],
    species := [{ id := 1, representative := exGenome 0 4, bestGenome := exGenome 0 4,
                  individuals := [exGenome 0 4, exGenome 1 1] },
                { id := 2, representative := exGenome 2 (1 / 2),
                  bestGenome := exGenome 2 (1 / 2), individuals := [exGenome 2 (1 / 2)] }],
    nextGenomeID := 3, nextSpeciesID := 3 }

/-- Two species: three members of fitness 1, and one member whose fitness is
the `double` nearest to 1/3, which is below 1/3. -/
def exPopThirds : Population :=
  { genomes := [exGenome 0 1, exGenome 1 1, exGenome 2 1,
                exGenome 3 (6004799503160661 / 2 ^ 54)],
    species := [{ id := 1, representative := exGenome 0 1, bestGenome := exGenome 0 1,
                  individuals := [exGenome 0 1, exGenome 1 1, exGenome 2 1] },
                { id := 2, representative := exGenome 3 (6004799503160661 / 2 ^ 54),
                  bestGenome := exGenome 3 (6004799503160661 / 2 ^ 54),
                  individuals := [exGenome 3 (6004799503160661 / 2 ^ 54)] }],
    nextGenomeID := 4, nextSpeciesID := 3 }

/-- Three species with the average fitnesses 0, 1 and 1. -/
def exSpeciesAverages : List Species :=
  [{ exSpecies 1 [] with averageFitness := 0 }, { exSpecies 2 [] with averageFitness := 1 },
   { exSpecies 3 [] with averageFitness := 1 }]

/-- Two species with best fitness 1 and 2 under a record of 3. -/
def exPopRecordAbove : Population := { exPopTwoSpecies with bestFitnessEver := 3 }

/-- A distance between behaviours that are rationals. -/
def exDistance (a b : ℚ) : ℚ := |a - b|

/-- A behaviour map: the behaviour of a genome is its fitness value. -/
def exBehaviorOf (g : Genome) : ℚ := g.fitness

/-- Species-level operations as `exOps`, with two genomes compatible when their
numbers of inputs differ by at most one. -/
def exOpsNear : SpeciesOps :=
  { exOps with
    isCompatibleWith := (fun _ g r =>
      decide (g.numInputs ≤ r.numInputs + 1 ∧ r.numInputs ≤ g.numInputs + 1)) }

/-- Species 1 (representative with 2 inputs) holds the genomes 0 and 1 with 1
and 3 inputs, species 2 the genome 2 with no input. -/
def exPopRegroup : Population :=
  { genomes := [{ id := 0, numInputs := 1 }, { id := 1, numInputs := 3 }, { id := 2 }],
    species := [{ id := 1, representative := { id := 9, numInputs := 2 },
                  bestGenome := { id := 0, numInputs := 1 },
                  individuals := [{ id := 0, numInputs := 1 }, { id := 1, numInputs := 3 }] },
                { id := 2, representative := { id := 2 }, bestGenome := { id := 2 },
                  individuals := [{ id := 2 }] }],
    nextGenomeID := 3, nextSpeciesID := 3 }

/-- Parameters with population size 2 and the compatibility threshold `t`. -/
def exParamsTreshold (t : ℚ) : Parameters := { PopulationSize := 2, CompatTreshold := t }

/-- One species with two evaluated members of fitness -1 and -2. -/
def exPopNegativePair : Population :=
  { genomes := [exGenome 0 (-1), exGenome 1 (-2)],
    species := [{ id := 1, representative := exGenome 0 (-1), bestGenome := exGenome 0 (-1),
                  individuals := [exGenome 0 (-1), exGenome 1 (-2)] }],
    nextGenomeID := 2, nextSpeciesID := 2 }

theorem totalMembers_nil : totalMembers [] = 0 := rfl

theorem totalMembers_cons (s : Species) (sp : List Species) :
    totalMembers (s :: sp) = s.individuals.length + totalMembers sp := by
  simp [totalMembers]

theorem totalMembers_append (a b : List Species) :
    totalMembers (a ++ b) = totalMembers a + totalMembers b := by
  simp [totalMembers]

theorem totalMembers_eq_length (sp : List Species) :
    totalMembers sp = (allMembers sp).length := by
  induction sp with
  | nil => rfl
  | cons s sp ih => simp [totalMembers_cons, allMembers, List.flatMap_cons] at *; omega

theorem allMembers_cons (s : Species) (sp : List Species) :
    allMembers (s :: sp) = s.individuals ++ allMembers sp := by
  simp [allMembers]

theorem allMembers_append (a b : List Species) :
    allMembers (a ++ b) = allMembers a ++ allMembers b := by
  simp [allMembers]

theorem allMembers_eraseIdx_empty (sp : List Species) (i : Nat) (h : i < sp.length)
    (he : (sp.get ⟨i, h⟩).individuals = []) :
    allMembers (sp.eraseIdx i) = allMembers sp := by
  induction sp generalizing i with
  | nil => simp at h
  | cons s sp ih =>
    cases i with
    | zero =>
      simp at he
      simp [allMembers_cons, he]
    | succ i =>
      simp at he h
      simp [allMembers_cons, ih i h (by simpa using he)]

/-! ## Speciate -/

theorem speciateFind_none (compat : Genome → Genome → Bool) (g : Genome) (sp : List Species) :
    speciateFind compat g sp = none ↔ ∀ s ∈ sp, compat g s.representative = false := by
  induction sp with
  | nil => simp [speciateFind]
  | cons s sp ih =>
    by_cases hc : compat g s.representative = true
    · simp [speciateFind, hc]
    · simp [speciateFind, hc, ih]

theorem speciateFind_first (compat : Genome → Genome → Bool) (g : Genome) (sp : List Species)
    (j : Nat) (hj : j < sp.length)
    (hc : compat g (sp.get ⟨j, hj⟩).representative = true)
    (hlt : ∀ k (hk : k < j), compat g (sp.get ⟨k, Nat.lt_trans hk hj⟩).representative = false) :
    speciateFind compat g sp = some (sp.set j ((sp.get ⟨j, hj⟩).addIndividual g)) := by
  induction sp generalizing j with
  | nil => simp at hj
  | cons s sp ih =>
    cases j with
    | zero =>
      simp at hc
      simp [speciateFind, hc]
    | succ j =>
      have h0 := hlt 0 (Nat.succ_pos j)
      simp at h0 hc hj
      have := ih j hj (by simpa using hc) (fun k hk => by
        have := hlt (k + 1) (Nat.succ_lt_succ hk)
        simpa using this)
      simp [speciateFind, h0, this]

theorem speciateFind_perm (compat : Genome → Genome → Bool) (g : Genome) (sp sp1 : List Species)
    (h : speciateFind compat g sp = some sp1) :
    (allMembers sp1).Perm (allMembers sp ++ [g]) := by
  induction sp generalizing sp1 with
  | nil => simp [speciateFind] at h
  | cons s sp ih =>
    by_cases hc : compat g s.representative = true
    · simp [speciateFind, hc] at h
      subst h
      simp only [allMembers_cons, Species.addIndividual, List.append_assoc]
      exact List.Perm.append_left _ List.perm_append_comm
    · simp [speciateFind, hc] at h
      obtain ⟨r, hr, rfl⟩ := h
      simp only [allMembers_cons, List.append_assoc]
      exact List.Perm.append_left _ (ih r hr)

theorem speciateStep_perm (compat : Genome → Genome → Bool) (st : List Species × Int) (g : Genome) :
    (allMembers (speciateStep compat st g).1).Perm (allMembers st.1 ++ [g]) := by
  unfold speciateStep
  cases h : speciateFind compat g st.1 with
  | none => simp [allMembers_append, allMembers_cons, Species.create, allMembers]
  | some sp1 => simpa using speciateFind_perm compat g st.1 sp1 h

theorem speciateLoop_eq_foldl (compat : Genome → Genome → Bool) (gs : List Genome)
    (st : List Species × Int) :
    speciateLoop compat gs st = gs.foldl (speciateStep compat) st := by
  induction gs generalizing st with
  | nil => rfl
  | cons g gs ih => simp [speciateLoop, ih]

theorem speciateLoop_perm (compat : Genome → Genome → Bool) (gs : List Genome)
    (st : List Species × Int) :
    (allMembers (speciateLoop compat gs st).1).Perm (allMembers st.1 ++ gs) := by
  induction gs generalizing st with
  | nil => simp [speciateLoop]
  | cons g gs ih =>
    simp only [speciateLoop]
    refine (ih _).trans ?_
    have := (speciateStep_perm compat st g).append_right gs
    simpa using this

theorem speciateCleanup_pos (n : Nat) : ∀ (i : Nat) (sp : List Species), sp.length - i ≤ n → 1 ≤ i →
    ∃ sp1, speciateCleanup i sp = some sp1 ∧ allMembers sp1 = allMembers sp ∧
      sp1.length ≤ sp.length := by
  induction n with
  | zero =>
    intro i sp hn hi
    rw [speciateCleanup]
    have : ¬ i < sp.length := by omega
    simp [this]
  | succ n ih =>
    intro i sp hn hi
    rw [speciateCleanup]
    by_cases h : i < sp.length
    · simp only [h, dite_true]
      by_cases he : (sp.get ⟨i, h⟩).numMembers = 0
      · have hi0 : i ≠ 0 := by omega
        simp only [he, if_true, hi0, ne_eq, not_false_eq_true]
        have hlen : (sp.eraseIdx i).length = sp.length - 1 := by
          rw [List.length_eraseIdx]; simp [h]
        obtain ⟨sp1, h1, h2, h3⟩ := ih i (sp.eraseIdx i) (by omega) hi
        refine ⟨sp1, h1, ?_, by omega⟩
        rw [h2]
        apply allMembers_eraseIdx_empty sp i h
        simpa [Species.numMembers] using he
      · simp only [he, if_false]
        obtain ⟨sp1, h1, h2, h3⟩ := ih (i + 1) sp (by omega) (by omega)
        exact ⟨sp1, h1, h2, h3⟩
    · simp [h]

theorem speciateCleanup_zero (sp : List Species) (hm : allMembers sp ≠ []) :
    ∃ sp1, speciateCleanup 0 sp = some sp1 ∧ allMembers sp1 = allMembers sp ∧
      sp1.length ≤ sp.length := by
  rw [speciateCleanup]
  by_cases h : 0 < sp.length
  · simp only [h, dite_true]
    by_cases he : (sp.get ⟨0, h⟩).numMembers = 0
    · have hall : allMembers (sp.eraseIdx 0) = allMembers sp :=
        allMembers_eraseIdx_empty sp 0 h (by simpa [Species.numMembers] using he)
      have hpos : 0 < (sp.eraseIdx 0).length := by
        rcases hs : sp.eraseIdx 0 with _ | ⟨a, l⟩
        · rw [hs] at hall; exact absurd hall.symm hm
        · simp
      have hlen : (sp.eraseIdx 0).length = sp.length - 1 := by
        rw [List.length_eraseIdx]; simp [h]
      simp only [he, if_true, ne_eq, not_true_eq_false, if_false, hpos]
      obtain ⟨sp1, h1, h2, h3⟩ :=
        speciateCleanup_pos _ 1 (sp.eraseIdx 0) (le_refl _) (le_refl _)
      exact ⟨sp1, h1, h2.trans hall, by omega⟩
    · simp only [he, if_false]
      obtain ⟨sp1, h1, h2, h3⟩ := speciateCleanup_pos _ 1 sp (le_refl _) (le_refl _)
      exact ⟨sp1, h1, h2, h3⟩
  · have : sp = [] := by
      cases sp with
      | nil => rfl
      | cons a l => simp at h
    subst this
    simp [allMembers] at hm

theorem speciateStep_length (compat : Genome → Genome → Bool) (sp : List Species) (nid : Int)
    (g : Genome) :
    (speciateStep compat (sp, nid) g).1.length = sp.length + 1 ↔
      ∀ s ∈ sp, compat g s.representative = false := by
  constructor
  · intro h
    by_contra hcon
    have hsome : speciateFind compat g sp ≠ none := fun hn =>
      hcon ((speciateFind_none compat g sp).1 hn)
    obtain ⟨sp1, h1⟩ := Option.ne_none_iff_exists'.1 hsome
    have hlen : ∀ (l l1 : List Species), speciateFind compat g l = some l1 →
        l1.length = l.length := by
      intro l
      induction l with
      | nil => intro l1 hl; simp [speciateFind] at hl
      | cons s l ih =>
        intro l1 hl
        by_cases hc : compat g s.representative = true
        · simp [speciateFind, hc] at hl
          subst hl; simp
        · simp [speciateFind, hc] at hl
          obtain ⟨r, hr, rfl⟩ := hl
          simp [ih r hr]
    have := hlen sp sp1 h1
    simp [speciateStep, h1] at h
    omega
  · intro h
    have := (speciateFind_none compat g sp).2 h
    simp [speciateStep, this]

/-- C1: `Speciate` handles the genomes in list order; a genome is appended to
the lowest-index species whose representative it is compatible with (the
species list of that moment, new species of the same pass included), and founds
a new species with the id `next_species_id`, which is then incremented, exactly
when no species is compatible.  With a non-empty genome list `Speciate`
returns, the members afterwards are the old members together with the genomes,
and the member count grows by the number of genomes. -/
theorem speciate_places_every_genome (compat : Genome → Genome → Bool) (p : Population)
    (hne : p.genomes ≠ []) :
    (∀ (sp : List Species) (nid : Int) (g : Genome),
      (∀ (j : Nat) (hj : j < sp.length),
        compat g (sp.get ⟨j, hj⟩).representative = true →
        (∀ (k : Nat) (hk : k < j),
          compat g (sp.get ⟨k, Nat.lt_trans hk hj⟩).representative = false) →
        speciateStep compat (sp, nid) g
          = (sp.set j ((sp.get ⟨j, hj⟩).addIndividual g), nid)) ∧
      ((∀ s ∈ sp, compat g s.representative = false) →
        speciateStep compat (sp, nid) g = (sp ++ [Species.create g nid], nid + 1)) ∧
      ((speciateStep compat (sp, nid) g).1.length = sp.length + 1 ↔
        ∀ s ∈ sp, compat g s.representative = false)) ∧
    ∃ p1, speciate compat p = some p1 ∧
      speciateCleanup 0
        (p.genomes.foldl (speciateStep compat) (p.species, p.nextSpeciesID)).1
          = some p1.species ∧
      p1.nextSpeciesID
        = (p.genomes.foldl (speciateStep compat) (p.species, p.nextSpeciesID)).2 ∧
      (allMembers p1.species).Perm (allMembers p.species ++ p.genomes) ∧
      totalMembers p1.species = totalMembers p.species + p.genomes.length := by
  refine ⟨fun sp nid g => ⟨?_, ?_, speciateStep_length compat sp nid g⟩, ?_⟩
  · intro j hj hc hlt
    simp [speciateStep, speciateFind_first compat g sp j hj hc hlt]
  · intro h
    simp [speciateStep, (speciateFind_none compat g sp).2 h]
  · have hpos : 0 < p.genomes.length := List.length_pos.2 hne
    have hperm := speciateLoop_perm compat p.genomes (p.species, p.nextSpeciesID)
    have hmem : allMembers (speciateLoop compat p.genomes (p.species, p.nextSpeciesID)).1 ≠ [] := by
      intro h0
      rw [h0] at hperm
      have := hperm.length_eq
      simp at this
      omega
    obtain ⟨sp1, h1, h2, _⟩ := speciateCleanup_zero _ hmem
    refine ⟨{ p with species := sp1,
                     nextSpeciesID := (speciateLoop compat p.genomes (p.species, p.nextSpeciesID)).2 },
      ?_, ?_, ?_, ?_, ?_⟩
    · simp [speciate, hpos, h1]
    · simpa [speciateLoop_eq_foldl] using h1
    · simp [speciateLoop_eq_foldl]
    · simpa [h2] using hperm
    · have := hperm.length_eq
      simp only [totalMembers_eq_length, h2, this, List.length_append]

theorem speciate_places_every_genome_witness :
    ({ genomes := [exGenome 0 1, exGenome 1 2] } : Population).genomes ≠ [] ∧
    ∃ p1, speciate (fun a b => a.id % 2 == b.id % 2)
        { genomes := [exGenome 0 1, exGenome 1 2] } = some p1 ∧
      totalMembers p1.species = 0 + 2 :=
  ⟨by simp, by
    obtain ⟨p1, h1, -, -, -, h5⟩ :=
      (speciate_places_every_genome (fun a b => a.id % 2 == b.id % 2)
        { genomes := [exGenome 0 1, exGenome 1 2] } (by simp)).2
    exact ⟨p1, h1, by simpa [totalMembers] using h5⟩⟩

/-! ## CountOffspring -/

theorem foldl_add_adjFitness (l : List Genome) (acc : ℚ) :
    l.foldl (fun a g => a + g.adjFitness) acc = acc + (l.map fun g => g.adjFitness).sum := by
  induction l generalizing acc with
  | nil => simp
  | cons g l ih => simp [ih, add_assoc]

theorem totalAdjustedFitness_foldl (sp : List Species) (acc : ℚ) :
    sp.foldl (fun acc s => s.individuals.foldl (fun a g => a + g.adjFitness) acc) acc
      = acc + ((allMembers sp).map fun g => g.adjFitness).sum := by
  induction sp generalizing acc with
  | nil => simp [allMembers]
  | cons s sp ih =>
    simp only [List.foldl_cons]
    rw [ih, foldl_add_adjFitness]
    simp [allMembers_cons, add_assoc]

theorem totalAdjustedFitness_eq_sum (sp : List Species) :
    totalAdjustedFitness sp = ((allMembers sp).map fun g => g.adjFitness).sum := by
  simp [totalAdjustedFitness, totalAdjustedFitness_foldl]

theorem allMembers_assignOffspring (avg : ℚ) (sp : List Species) :
    allMembers ((sp.map (Species.assignOffspring avg)).map Species.countOffspring)
      = (allMembers sp).map fun g => g.setOffspringAmount (g.adjFitness / avg) := by
  induction sp with
  | nil => simp [allMembers]
  | cons s sp ih =>
    simp only [List.map_cons, allMembers_cons, ih, List.map_append]
    simp [Species.countOffspring, Species.assignOffspring]

theorem sum_map_div_const (l : List Genome) (c : ℚ) :
    (l.map fun g => g.adjFitness / c).sum = (l.map fun g => g.adjFitness).sum / c := by
  induction l with
  | nil => simp
  | cons g l ih => simp [ih, add_div]

/-- C4: under the preconditions of `CountOffspring` (the genome list has
`PopulationSize > 0` entries and the total adjusted fitness is positive) the
call returns, every member's offspring amount is
`adj_fitness * PopulationSize / total_adjusted_fitness` with nothing else of
the member changed, and the offspring amounts of all members add up to
`PopulationSize` exactly. -/
theorem countOffspring_amounts_sum (P : Parameters) (p : Population)
    (hlen : p.genomes.length = P.PopulationSize) (hpos : 0 < P.PopulationSize)
    (htot : 0 < totalAdjustedFitness p.species) :
    ∃ p1, countOffspring P p = some p1 ∧
      allMembers p1.species = (allMembers p.species).map (fun g =>
        g.setOffspringAmount
          (g.adjFitness * (P.PopulationSize : ℚ) / totalAdjustedFitness p.species)) ∧
      ((allMembers p1.species).map fun g => g.offspringAmount).sum = (P.PopulationSize : ℚ) := by
  have hP : (P.PopulationSize : ℚ) ≠ 0 := by exact_mod_cast hpos.ne'
  have hT : totalAdjustedFitness p.species ≠ 0 := htot.ne'
  have h1 : countOffspring P p = some { p with species :=
      (List.map Species.countOffspring (p.species.map (Species.assignOffspring
        (totalAdjustedFitness p.species / (P.PopulationSize : ℚ))))) } := by
    simp only [countOffspring, hlen, hpos, and_self, if_true, htot]
  refine ⟨_, h1, ?_, ?_⟩
  · rw [allMembers_assignOffspring]
    apply List.map_congr_left
    intro g _
    congr 1
    field_simp
  · rw [allMembers_assignOffspring, List.map_map]
    have : ((fun g : Genome => g.offspringAmount) ∘ fun g : Genome =>
        g.setOffspringAmount
          (g.adjFitness / (totalAdjustedFitness p.species / (P.PopulationSize : ℚ))))
        = fun g => g.adjFitness / (totalAdjustedFitness p.species / (P.PopulationSize : ℚ)) := by
      funext g; simp [Genome.setOffspringAmount]
    rw [this, sum_map_div_const, ← totalAdjustedFitness_eq_sum]
    field_simp

theorem countOffspring_amounts_sum_witness :
    ∃ p1, countOffspring { PopulationSize := 2 }
        { genomes := [exGenome 0 1, exGenome 1 3],
          species := [{ id := 1, representative := exGenome 0 1, bestGenome := exGenome 0 1,
                        individuals := [{ adjFitness := 1 }, { adjFitness := 3 }] }] } = some p1 ∧
      ((allMembers p1.species).map fun g => g.offspringAmount).sum = ((2 : Nat) : ℚ) := by
  obtain ⟨p1, h1, -, h3⟩ := countOffspring_amounts_sum { PopulationSize := 2 }
    { genomes := [exGenome 0 1, exGenome 1 3],
      species := [{ id := 1, representative := exGenome 0 1, bestGenome := exGenome 0 1,
                    individuals := [{ adjFitness := 1 }, { adjFitness := 3 }] }] }
    (by simp) (by simp) (by simp [totalAdjustedFitness]; norm_num)
  exact ⟨p1, h1, h3⟩

/-! ## UpdateSpecies -/

theorem updateSpeciesMark_length (best : ℚ) (sp : List Species) (m : Bool) (nid : Int) :
    (updateSpeciesMark best sp m nid).1.length = sp.length := by
  induction sp generalizing m nid with
  | nil => simp [updateSpeciesMark]
  | cons s sp ih =>
    simp only [updateSpeciesMark]
    split <;> simp [ih]

theorem updateSpeciesMark_spec (best : ℚ) (sp : List Species) (m : Bool) (nid : Int)
    (i : Nat) (s : Species) (h : (updateSpeciesMark best sp m nid).1[i]? = some s) :
    ∃ s0, sp[i]? = some s0 ∧ s.bestFitness = s0.bestFitness ∧
      (s.bestSpecies = true ↔ (s0.bestSpecies = true ∨
        (m = false ∧ s0.bestFitness ≥ best ∧
          ∀ k, k < i → ∀ t, sp[k]? = some t → t.bestFitness < best))) := by
  induction sp generalizing m nid i with
  | nil => simp [updateSpeciesMark] at h
  | cons a sp ih =>
    simp only [updateSpeciesMark] at h
    by_cases hc : (((a.increaseAge).increaseGensNoImprovement).setOffspringRqd 0).bestFitness ≥ best
        ∧ m = false
    · rw [if_pos hc] at h
      have hc1 : a.bestFitness ≥ best := hc.1
      cases i with
      | zero =>
        simp at h
        subst h
        refine ⟨a, by simp, rfl, ?_⟩
        simp [Species.setBestSpecies, hc.2]
        right
        exact hc1
      | succ i =>
        simp only [List.getElem?_cons_succ] at h
        obtain ⟨s0, h0, hf, hb⟩ := ih true _ i h
        refine ⟨s0, by simpa using h0, hf, ?_⟩
        rw [hb]
        constructor
        · intro hh
          rcases hh with hh | hh
          · exact Or.inl hh
          · simp at hh
        · intro hh
          rcases hh with hh | ⟨_, _, hh⟩
          · exact Or.inl hh
          · have := hh 0 (Nat.succ_pos i) a (by simp)
            exact absurd hc1 (not_le.2 this)
    · rw [if_neg hc] at h
      cases i with
      | zero =>
        simp at h
        subst h
        refine ⟨a, by simp, rfl, ?_⟩
        simp only [Species.setOffspringRqd, Species.increaseGensNoImprovement,
          Species.increaseAge]
        constructor
        · intro hh; exact Or.inl hh
        · intro hh
          rcases hh with hh | ⟨hm, hb, _⟩
          · exact hh
          · exact absurd ⟨hb, hm⟩ hc
      | succ i =>
        simp only [List.getElem?_cons_succ] at h
        obtain ⟨s0, h0, hf, hb⟩ := ih m nid i h
        refine ⟨s0, by simpa using h0, hf, ?_⟩
        rw [hb]
        have hlt : m = false → a.bestFitness < best := by
          intro hm
          by_contra hcon
          exact hc ⟨not_lt.1 hcon, hm⟩
        constructor
        · intro hh
          rcases hh with hh | ⟨hm, hb1, hk⟩
          · exact Or.inl hh
          · refine Or.inr ⟨hm, hb1, ?_⟩
            intro k hk1 t ht
            cases k with
            | zero =>
              simp at ht
              subst ht
              exact hlt hm
            | succ k =>
              exact hk k (by omega) t (by simpa using ht)
        · intro hh
          rcases hh with hh | ⟨hm, hb1, hk⟩
          · exact Or.inl hh
          · refine Or.inr ⟨hm, hb1, ?_⟩
            intro k hk1 t ht
            exact hk (k + 1) (by omega) t (by simpa using ht)

theorem modifyAt_resetAge_get (sp sp1 : List Species) (j : Nat)
    (h : modifyAt sp j Species.resetAge = some sp1) (i : Nat) (s : Species)
    (hs : sp1[i]? = some s) :
    ∃ s0, sp[i]? = some s0 ∧ s.bestFitness = s0.bestFitness ∧ s.bestSpecies = s0.bestSpecies := by
  unfold modifyAt at h
  split at h
  · rename_i hj
    simp at h
    subst h
    by_cases hij : j = i
    · subst hij
      simp [List.getElem?_set, hj] at hs
      subst hs
      exact ⟨sp[j], by simp [hj], rfl, rfl⟩
    · rw [List.getElem?_set_ne hij] at hs
      exact ⟨s, hs, rfl, rfl⟩
  · simp at h

theorem updateSpecies_spec (p p1 : Population) (h : updateSpecies p = some p1)
    (i : Nat) (s : Species) (hs : p1.species[i]? = some s) :
    p1.bestFitnessEver = p.bestFitnessEver ∧
    ∃ s0, p.species[i]? = some s0 ∧ s.bestFitness = s0.bestFitness ∧
      (s.bestSpecies = true ↔ (s0.bestFitness ≥ p.bestFitnessEver ∧
          ∀ k, k < i → ∀ t, p.species[k]? = some t → t.bestFitness < p.bestFitnessEver)) := by
  have key : ∀ (t : Species),
      (updateSpeciesMark p.bestFitnessEver (p.species.map fun s => s.setBestSpecies false)
        false (-1)).1[i]? = some t →
      ∃ s0, p.species[i]? = some s0 ∧ t.bestFitness = s0.bestFitness ∧
      (t.bestSpecies = true ↔ (s0.bestFitness ≥ p.bestFitnessEver ∧
          ∀ k, k < i → ∀ t, p.species[k]? = some t → t.bestFitness < p.bestFitnessEver)) := by
    intro t ht
    obtain ⟨s0, h0, hf, hb⟩ := updateSpeciesMark_spec _ _ _ _ i t ht
    simp only [List.getElem?_map] at h0
    cases hp : p.species[i]? with
    | none => simp [hp] at h0
    | some a =>
      simp [hp] at h0
      subst h0
      refine ⟨a, rfl, hf, ?_⟩
      rw [hb]
      have e1 : (a.setBestSpecies false).bestSpecies = false := rfl
      have e2 : (a.setBestSpecies false).bestFitness = a.bestFitness := rfl
      simp only [e1, e2, Bool.false_eq_true, false_or, true_and]
      constructor
      · rintro ⟨hb1, hk⟩
        refine ⟨hb1, fun k hk1 t ht => ?_⟩
        have := hk k hk1 (t.setBestSpecies false) (by rw [List.getElem?_map, ht]; rfl)
        exact this
      · rintro ⟨hb1, hk⟩
        refine ⟨hb1, fun k hk1 t ht => ?_⟩
        simp only [List.getElem?_map] at ht
        cases hq : p.species[k]? with
        | none => simp [hq] at ht
        | some b =>
          simp [hq] at ht
          subst ht
          exact hk k hk1 b hq
  rw [updateSpecies] at h
  dsimp only at h
  generalize (if 0 < p.generation then findOldBest p.species 0 (-1, -1) else (-1, -1)) = old at h
  by_cases c1 : 0 < p.generation ∧ (old.1 = -1 ∨ old.2 = -1)
  · rw [if_pos c1] at h
    simp at h
  · rw [if_neg c1] at h
    split at h
    · simp only [Option.map_eq_some'] at h
      obtain ⟨sp1, hm, rfl⟩ := h
      obtain ⟨s1, h1, hf1, hb1⟩ := modifyAt_resetAge_get _ _ _ hm i s hs
      obtain ⟨s0, h0, hf0, hb0⟩ := key s1 h1
      exact ⟨rfl, s0, h0, hf1.trans hf0, by rw [hb1]; exact hb0⟩
    · simp only [Option.some.injEq] at h
      subst h
      exact ⟨rfl, key s hs⟩

theorem findOldBest_spec (sp : List Species) (i : Nat) (r : Int × Int) :
    (findOldBest sp i r = r ∧ ∀ s ∈ sp, s.bestSpecies = false) ∨
    (∃ k, k < sp.length ∧ ∃ s ∈ sp, s.bestSpecies = true ∧
      findOldBest sp i r = (s.id, ((i + k : Nat) : Int))) := by
  induction sp generalizing i r with
  | nil => left; simp [findOldBest]
  | cons a sp ih =>
    by_cases ha : a.bestSpecies = true
    · right
      simp only [findOldBest, ha, if_true]
      rcases ih (i + 1) (a.id, (i : Int)) with ⟨h1, _⟩ | ⟨k, hk, s, hs, hb, h1⟩
      · exact ⟨0, by simp, a, by simp, ha, by simpa using h1⟩
      · refine ⟨k + 1, by simpa using hk, s, by simp [hs], hb, ?_⟩
        rw [h1]
        congr 2
        omega
    · simp only [findOldBest, ha]
      rcases ih (i + 1) r with ⟨h1, h2⟩ | ⟨k, hk, s, hs, hb, h1⟩
      · left
        refine ⟨by simpa using h1, ?_⟩
        intro s hs
        rcases List.mem_cons.1 hs with rfl | hs
        · simpa using ha
        · exact h2 s hs
      · right
        refine ⟨k + 1, by simpa using hk, s, by simp [hs], hb, ?_⟩
        simp only [Bool.false_eq_true, if_false]
        rw [h1]
        congr 2
        omega

theorem updateSpecies_returns (p : Population)
    (h : p.generation = 0 ∨
      ((∃ s ∈ p.species, s.bestSpecies = true) ∧ ∀ s ∈ p.species, s.id ≠ -1)) :
    ∃ p1, updateSpecies p = some p1 := by
  rw [updateSpecies]
  dsimp only
  rcases Nat.eq_zero_or_pos p.generation with h0 | h0
  · simp [h0]
  · rcases h with h | ⟨⟨s, hs, hb⟩, hid⟩
    · omega
    · simp only [h0, if_true, true_and]
      rcases findOldBest_spec p.species 0 (-1, -1) with ⟨_, h2⟩ | ⟨k, hk, t, ht, htb, h1⟩
      · rw [h2 s hs] at hb
        simp at hb
      · rw [h1]
        have hne : ¬ (t.id = -1 ∨ ((0 + k : Nat) : Int) = -1) := by
          intro hcon
          rcases hcon with hcon | hcon
          · exact hid t ht hcon
          · omega
        simp only [hne, if_false]
        split
        · have hk2 : k < (updateSpeciesMark p.bestFitnessEver
              (p.species.map fun s => s.setBestSpecies false) false (-1)).1.length := by
            rw [updateSpeciesMark_length]; simpa using hk
          simp [modifyAt, hk2]
        · exact ⟨_, rfl⟩

theorem updateSpecies_flags (p p1 : Population)
    (h : updateSpecies p = some p1) :
    (∀ (i : Nat) (s : Species), p1.species[i]? = some s →
      (s.bestSpecies = true ↔ (s.bestFitness ≥ p.bestFitnessEver ∧
        ∀ k, k < i → ∀ t, p1.species[k]? = some t → t.bestFitness < p.bestFitnessEver))) ∧
    (∀ (i j : Nat) (s t : Species), p1.species[i]? = some s → p1.species[j]? = some t →
      s.bestSpecies = true → t.bestSpecies = true → i = j) := by
  have hlen : p1.species.length ≤ p.species.length := by
    by_contra hcon
    have hlt : p.species.length < p1.species.length := by omega
    obtain ⟨-, s0, h0, -⟩ := updateSpecies_spec p p1 h p.species.length
      (p1.species.get ⟨_, hlt⟩) (by simp [List.getElem?_eq_getElem hlt])
    simp at h0
  have first : ∀ (i : Nat) (s : Species), p1.species[i]? = some s →
      (s.bestSpecies = true ↔ (s.bestFitness ≥ p.bestFitnessEver ∧
        ∀ k, k < i → ∀ t, p1.species[k]? = some t → t.bestFitness < p.bestFitnessEver)) := by
    intro i s hs
    obtain ⟨-, s0, h0, hf, hb⟩ := updateSpecies_spec p p1 h i s hs
    rw [hb, hf]
    constructor
    · rintro ⟨hb1, hk⟩
      refine ⟨hb1, fun k hk1 t ht => ?_⟩
      obtain ⟨-, t0, ht0, htf, -⟩ := updateSpecies_spec p p1 h k t ht
      rw [htf]
      exact hk k hk1 t0 ht0
    · rintro ⟨hb1, hk⟩
      refine ⟨hb1, fun k hk1 t ht => ?_⟩
      have hi : i < p1.species.length := by
        by_contra hcon
        rw [List.getElem?_eq_none (by omega)] at hs
        simp at hs
      have hk2 : k < p1.species.length := by omega
      obtain ⟨-, t0, ht0, htf, -⟩ := updateSpecies_spec p p1 h k
        (p1.species.get ⟨k, hk2⟩) (by simp [List.getElem?_eq_getElem hk2])
      rw [ht] at ht0
      simp at ht0
      subst ht0
      rw [← htf]
      exact hk k hk1 _ (by simp [List.getElem?_eq_getElem hk2])
  refine ⟨first, ?_⟩
  intro i j s t hs ht hsb htb
  have h1 := (first i s hs).1 hsb
  have h2 := (first j t ht).1 htb
  rcases Nat.lt_trichotomy i j with hij | hij | hij
  · exact absurd h1.1 (not_le.2 (h2.2 i hij s hs))
  · exact hij
  · exact absurd h2.1 (not_le.2 (h1.2 j hij t ht))

/-- C5: when `UpdateSpecies` returns, the species at index `i` is flagged as
best species exactly if its best fitness is `>= best_fitness_ever` and no
species at a lower index has such a best fitness; so two flagged species are
the same one.  This holds for every species list and every flag assignment
before the call.  The call returns at generation 0, and later whenever some
species is flagged and no species id is `-1` (the value the search uses for
"not found"). -/
theorem updateSpecies_flags_first_best (p : Population) :
    (∀ p1, updateSpecies p = some p1 →
      (∀ (i : Nat) (s : Species), p1.species[i]? = some s →
        (s.bestSpecies = true ↔ (s.bestFitness ≥ p.bestFitnessEver ∧
          ∀ k, k < i → ∀ t, p1.species[k]? = some t → t.bestFitness < p.bestFitnessEver))) ∧
      (∀ (i j : Nat) (s t : Species), p1.species[i]? = some s → p1.species[j]? = some t →
        s.bestSpecies = true → t.bestSpecies = true → i = j)) ∧
    ((p.generation = 0 ∨
        ((∃ s ∈ p.species, s.bestSpecies = true) ∧ ∀ s ∈ p.species, s.id ≠ -1)) →
      ∃ p1, updateSpecies p = some p1) :=
  ⟨fun p1 h => updateSpecies_flags p p1 h, updateSpecies_returns p⟩

theorem updateSpecies_flags_first_best_witness :
    ∃ p1, updateSpecies exPopTwoSpecies = some p1 ∧
      (∀ (i j : Nat) (s t : Species), p1.species[i]? = some s → p1.species[j]? = some t →
        s.bestSpecies = true → t.bestSpecies = true → i = j) := by
  obtain ⟨p1, h1⟩ := (updateSpecies_flags_first_best exPopTwoSpecies).2 (Or.inl rfl)
  exact ⟨p1, h1, ((updateSpecies_flags_first_best exPopTwoSpecies).1 p1 h1).2⟩

/-! ## The best-fitness scan of Epoch -/

theorem epochScanMembers_fold (delta : ℚ) (l : List Genome) (st : ScanState) :
    epochScanMembers delta l st
      = (l.map Genome.setEvaluated,
         (l.map Genome.setEvaluated).foldl (epochScanMember delta) st) := by
  induction l generalizing st with
  | nil => rfl
  | cons g l ih => simp [epochScanMembers, ih]

theorem epochScanSpecies_fold (delta : ℚ) (sp sp1 : List Species) (st st1 : ScanState)
    (h : epochScanSpecies delta sp st = some (sp1, st1)) :
    st1 = ((allMembers sp).map Genome.setEvaluated).foldl (epochScanMember delta) st ∧
    allMembers sp1 = (allMembers sp).map Genome.setEvaluated := by
  induction sp generalizing st sp1 with
  | nil =>
    simp [epochScanSpecies] at h
    simp [allMembers, h.1, h.2]
  | cons s sp ih =>
    simp only [epochScanSpecies] at h
    cases hl : s.getLeader with
    | none => simp [hl] at h
    | some leader =>
      simp only [hl, Option.map_eq_some'] at h
      obtain ⟨⟨sp2, st2⟩, h2, h3⟩ := h
      simp only [Prod.mk.injEq] at h3
      obtain ⟨h3, h4⟩ := h3
      subst h3 h4
      obtain ⟨i1, i2⟩ := ih _ _ h2
      simp [epochScanMembers_fold] at i1 i2 ⊢
      simp [allMembers_cons, i1, i2, epochScanMembers_fold]

/-- C10: in `Epoch` with `PhasedSearching` on and the mode SIMPLIFYING on entry,
first `old_mpc` becomes `current_mpc` and `gens_since_mpc_last_changed` becomes
0 if `current_mpc < old_mpc`, and otherwise the counter grows by one and
`old_mpc` stays; then the mode becomes COMPLEXIFYING exactly if the updated
counter is `> ComplexityFloorGenerations`, in which case `base_mpc` becomes
`current_mpc` and every species has had `ResetAge`; otherwise the mode,
`base_mpc` and the species are unchanged. -/
theorem epochPhased_simplifying (P : Parameters) (p : Population)
    (hP : P.PhasedSearching = true) (hm : p.searchMode = SearchMode.SIMPLIFYING) :
    (epochPhased P (calculateMPC p)).oldMPC
      = (if (calculateMPC p).currentMPC < p.oldMPC then (calculateMPC p).currentMPC
         else p.oldMPC) ∧
    (epochPhased P (calculateMPC p)).gensSinceMPCLastChanged
      = (if (calculateMPC p).currentMPC < p.oldMPC then 0
         else p.gensSinceMPCLastChanged + 1) ∧
    ((epochPhased P (calculateMPC p)).searchMode = SearchMode.COMPLEXIFYING ↔
      (epochPhased P (calculateMPC p)).gensSinceMPCLastChanged
        > P.ComplexityFloorGenerations) ∧
    ((epochPhased P (calculateMPC p)).searchMode = SearchMode.COMPLEXIFYING →
      (epochPhased P (calculateMPC p)).baseMPC = (calculateMPC p).currentMPC ∧
      (epochPhased P (calculateMPC p)).species = p.species.map Species.resetAge ∧
      ∀ s ∈ (epochPhased P (calculateMPC p)).species, s.age = 0) ∧
    ((epochPhased P (calculateMPC p)).searchMode ≠ SearchMode.COMPLEXIFYING →
      (epochPhased P (calculateMPC p)).searchMode = SearchMode.SIMPLIFYING ∧
      (epochPhased P (calculateMPC p)).baseMPC = p.baseMPC ∧
      (epochPhased P (calculateMPC p)).species = p.species) := by
  have e1 : (calculateMPC p).searchMode = SearchMode.SIMPLIFYING := hm
  have e2 : (calculateMPC p).baseMPC = p.baseMPC := rfl
  have e4 : (calculateMPC p).species = p.species := rfl
  have e5 : (calculateMPC p).oldMPC = p.oldMPC := rfl
  have e6 : (calculateMPC p).gensSinceMPCLastChanged = p.gensSinceMPCLastChanged := rfl
  generalize calculateMPC p = q at *
  rw [← e5, ← e6, ← e2, ← e4]
  by_cases c1 : q.currentMPC < q.oldMPC
  · by_cases c2 : 0 > P.ComplexityFloorGenerations
    · have hq : epochPhased P q =
          { q with gensSinceMPCLastChanged := 0, oldMPC := q.currentMPC,
                   searchMode := SearchMode.COMPLEXIFYING, baseMPC := q.currentMPC,
                   species := q.species.map Species.resetAge } := by
        simp [epochPhased, hP, e1, c1, c2]
      rw [hq]
      simp [c1, c2]
      exact fun a _ => rfl
    · have hq : epochPhased P q =
          { q with gensSinceMPCLastChanged := 0, oldMPC := q.currentMPC } := by
        simp [epochPhased, hP, e1, c1, c2]
      rw [hq]
      simp [c1, c2, e1]
  · by_cases c2 : q.gensSinceMPCLastChanged + 1 > P.ComplexityFloorGenerations
    · have hq : epochPhased P q =
          { q with gensSinceMPCLastChanged := q.gensSinceMPCLastChanged + 1,
                   searchMode := SearchMode.COMPLEXIFYING, baseMPC := q.currentMPC,
                   species := q.species.map Species.resetAge } := by
        simp [epochPhased, hP, e1, c1, c2]
      rw [hq]
      simp [c1, c2]
      exact fun a _ => rfl
    · have hq : epochPhased P q =
          { q with gensSinceMPCLastChanged := q.gensSinceMPCLastChanged + 1 } := by
        simp [epochPhased, hP, e1, c1, c2]
      rw [hq]
      simp [c1, c2, e1]

theorem epochPhased_simplifying_witness :
    exPhasedParams.PhasedSearching = true ∧
    exPopSimplifying.searchMode = SearchMode.SIMPLIFYING ∧
    (epochPhased exPhasedParams (calculateMPC exPopSimplifying)).gensSinceMPCLastChanged
      = (if (calculateMPC exPopSimplifying).currentMPC < exPopSimplifying.oldMPC then 0
         else exPopSimplifying.gensSinceMPCLastChanged + 1) :=
  ⟨rfl, rfl, (epochPhased_simplifying exPhasedParams exPopSimplifying rfl rfl).2.1⟩

/-! ## The top-up step of Epoch -/

theorem epochTopUpLoop_spec (n : Nat) (s : Species) (rest : List Species) (g : Genome)
    (tl : List Genome) (hs : s.individuals = g :: tl) :
    epochTopUpLoop n (s :: rest)
      = some ({ s with individuals := s.individuals ++ List.replicate n g } :: rest) := by
  induction n generalizing s tl with
  | zero => simp [epochTopUpLoop]
  | succ n ih =>
    have h1 : (s.addIndividual g).individuals = g :: (tl ++ [g]) := by
      simp [Species.addIndividual, hs]
    simp only [epochTopUpLoop, hs]
    rw [ih (s.addIndividual g) (tl ++ [g]) h1]
    have h2 : g :: List.replicate n g = List.replicate n g ++ [g] := by
      rw [← List.replicate_succ, List.replicate_succ']
    simp [Species.addIndividual, hs, List.replicate_succ', h2]

/-- The offspring quotas of `CountOffspring` can add up to more than
`PopulationSize`: with the sums 8/5, 17/10, 17/10 and `PopulationSize = 5` the
rounded quotas are 2, 2, 2. -/
theorem countOffspring_quota_exceeds :
    (countOffspring { PopulationSize := 5 } exPopRounding).map
        (fun p => p.species.map fun s => s.offspringRqd) = some [2, 2, 2] := by
  have ht : totalAdjustedFitness exPopRounding.species = 5 := by
    simp [totalAdjustedFitness, exPopRounding, exSpecies, exAdjGenome]
    norm_num
  simp only [countOffspring, ht]
  simp [exPopRounding, exSpecies, exAdjGenome, Species.assignOffspring,
    Species.countOffspring, Genome.setOffspringAmount]
  refine ⟨?_, ?_, ?_⟩ <;> · rw [round_eq, Int.floor_eq_iff]; norm_num

/-- C2 (as stated, refuted): with `PopulationSize = 5` and species-level
operations that follow the specification, `Epoch` on five genomes whose
per-species offspring sums are 17/10, 17/10 and 8/5 reproduces 2 + 2 + 2
babies and ends with 6 members; the top-up step, given six genomes in three
non-empty species, adds nothing and the total stays 6. -/
theorem epochTopUp_total_above_population_size :
    exParamsFive.PopulationSize = 5 ∧
    (epoch exOpsQuota exParamsFive exPopQuota).map (fun r => totalMembers r.2.species)
      = some 6 ∧
    (∀ s ∈ exSpeciesSix, s.individuals ≠ []) ∧
    epochTopUp exParamsFive exSpeciesSix = some exSpeciesSix ∧
    totalMembers exSpeciesSix ≠ exParamsFive.PopulationSize := by
  refine ⟨rfl, by decide!, ?_, ?_, ?_⟩
  · simp [exSpeciesSix, exSpecies]
  · simp [epochTopUp, totalMembers, exSpeciesSix, exSpecies, exParamsFive]
  · simp [totalMembers, exSpeciesSix, exSpecies, exParamsFive]

/-- C2 (amended): if after reproduction, parent culling and empty-species
removal at least one species is left, species 0 has a member and the total
number of members is at most `PopulationSize`, then after the top-up the total
equals `PopulationSize`; the top-up appends `PopulationSize - total` copies of
the leader of species 0 to species 0 and leaves every other species unchanged.
If the total exceeds `PopulationSize` the top-up changes nothing. -/
theorem epochTopUp_fills_to_population_size (P : Parameters) (s : Species)
    (rest : List Species) (g : Genome) (tl : List Genome) (hs : s.individuals = g :: tl) :
    (totalMembers (s :: rest) ≤ P.PopulationSize →
      epochTopUp P (s :: rest)
        = some ({ s with individuals := s.individuals ++
                    List.replicate (P.PopulationSize - totalMembers (s :: rest)) g } :: rest) ∧
      ∀ sp1, epochTopUp P (s :: rest) = some sp1 → totalMembers sp1 = P.PopulationSize) ∧
    (P.PopulationSize < totalMembers (s :: rest) →
      epochTopUp P (s :: rest) = some (s :: rest)) := by
  constructor
  · intro hle
    have h1 : epochTopUp P (s :: rest)
        = some ({ s with individuals := s.individuals ++
            List.replicate (P.PopulationSize - totalMembers (s :: rest)) g } :: rest) := by
      unfold epochTopUp
      split
      · exact epochTopUpLoop_spec _ s rest g tl hs
      · have : P.PopulationSize - totalMembers (s :: rest) = 0 := by omega
        simp [this]
    refine ⟨h1, ?_⟩
    intro sp1 h2
    rw [h1] at h2
    simp only [Option.some.injEq] at h2
    subst h2
    simp only [totalMembers_cons, List.length_append, List.length_replicate] at hle ⊢
    omega
  · intro hlt
    unfold epochTopUp
    rw [if_neg (by omega)]

theorem epochTopUp_fills_to_population_size_witness :
    totalMembers exSpeciesThree ≤ 5 ∧
    ∀ sp1, epochTopUp { PopulationSize := 5 } exSpeciesThree = some sp1 →
      totalMembers sp1 = 5 :=
  ⟨by simp [totalMembers, exSpeciesThree, exSpecies],
   ((epochTopUp_fills_to_population_size { PopulationSize := 5 }
      (exSpecies 1 [{ id := 5 }, { id := 6 }]) [exSpecies 2 [{ id := 7 }]]
      { id := 5 } [{ id := 6 }] rfl).1
      (by simp [totalMembers, exSpecies])).2⟩

/-! ## `best_fitness_ever` across Epoch and Tick -/

theorem epochScanMember_best_le (delta : ℚ) (st : ScanState) (g : Genome) :
    st.best ≤ (epochScanMember delta st g).best := by
  unfold epochScanMember
  split
  · rename_i h; exact le_of_lt h
  · exact le_refl _

theorem foldl_epochScanMember_best_le (delta : ℚ) (l : List Genome) (st : ScanState) :
    st.best ≤ (l.foldl (epochScanMember delta) st).best := by
  induction l generalizing st with
  | nil => exact le_refl _
  | cons g l ih =>
    exact le_trans (epochScanMember_best_le delta st g) (ih _)

theorem sort_frame (p p1 : Population) (h : sort p = some p1) :
    p1 = { p with species := sortSpecies (p.species.map Species.sortIndividuals) } := by
  unfold sort at h
  split at h
  · split at h
    · simp only [Option.some.injEq] at h
      exact h.symm
    · simp at h
  · simp at h

theorem updateSpecies_frame (p p1 : Population) (h : updateSpecies p = some p1) :
    p1 = { p with species := p1.species } := by
  rw [updateSpecies] at h
  dsimp only at h
  generalize (if 0 < p.generation then findOldBest p.species 0 (-1, -1) else (-1, -1)) = old at h
  by_cases c1 : 0 < p.generation ∧ (old.1 = -1 ∨ old.2 = -1)
  · rw [if_pos c1] at h
    simp at h
  · rw [if_neg c1] at h
    split at h
    · simp only [Option.map_eq_some'] at h
      obtain ⟨sp1, _, rfl⟩ := h
      rfl
    · simp only [Option.some.injEq] at h
      subst h
      rfl

theorem adjustFitness_frame (ops : SpeciesOps) (P : Parameters) (p p1 : Population)
    (h : adjustFitness ops P p = some p1) :
    p1 = { p with species := p.species.map (ops.adjustFitness P) } := by
  unfold adjustFitness at h
  split at h
  · simp only [Option.some.injEq] at h
    exact h.symm
  · simp at h

theorem countOffspring_frame (P : Parameters) (p p1 : Population)
    (h : countOffspring P p = some p1) :
    p1 = { p with species := p1.species } := by
  unfold countOffspring at h
  split at h
  · dsimp only at h
    split at h
    · simp only [Option.some.injEq] at h
      subst h
      rfl
    · simp at h
  · simp at h

theorem epochScan_best_le (P : Parameters) (p p1 : Population) (h : epochScan P p = some p1) :
    p.bestFitnessEver ≤ p1.bestFitnessEver := by
  unfold epochScan at h
  simp only [Option.map_eq_some'] at h
  obtain ⟨⟨sp1, st1⟩, h1, rfl⟩ := h
  have := (epochScanSpecies_fold _ _ _ _ _ h1).1
  subst this
  exact foldl_epochScanMember_best_le _ _ _

theorem epochDeltaCoding_best (P : Parameters) (p : Population) :
    (epochDeltaCoding P p).bestFitnessEver = p.bestFitnessEver := by
  unfold epochDeltaCoding
  split
  · split
    · split <;> rfl
    · rfl
  · rfl

theorem epochPhased_best (P : Parameters) (p : Population) :
    (epochPhased P p).bestFitnessEver = p.bestFitnessEver := by
  unfold epochPhased
  dsimp only
  repeat' split
  all_goals rfl

theorem epochReproduceLoop_best (ops : SpeciesOps) (P : Parameters) (n i : Nat)
    (p : Population) :
    (epochReproduceLoop ops P n i p).bestFitnessEver = p.bestFitnessEver ∧
    (epochReproduceLoop ops P n i p).generation = p.generation := by
  induction n generalizing i p with
  | zero => exact ⟨rfl, rfl⟩
  | succ n ih =>
    simp only [epochReproduceLoop]
    rw [(ih _ _).1, (ih _ _).2]
    exact ⟨rfl, rfl⟩

theorem epochReproduce_best (ops : SpeciesOps) (P : Parameters) (p : Population) :
    (epochReproduce ops P p).bestFitnessEver = p.bestFitnessEver := by
  simp only [epochReproduce]
  rw [(epochReproduceLoop_best _ _ _ _ _).1]

theorem epoch_best_le (ops : SpeciesOps) (P : Parameters) (p : Population)
    (r : Parameters × Population) (h : epoch ops P p = some r) :
    p.bestFitnessEver ≤ r.2.bestFitnessEver := by
  simp only [epoch, bind, Option.bind_eq_some, pure, Option.some.injEq] at h
  obtain ⟨p1, h1, p2, h2, p3, h3, p4, h4, p5, h5, P1, h6, sp2, h7, sp3, h8, rfl⟩ := h
  have e1 := sort_frame _ _ h1
  have e2 := updateSpecies_frame _ _ h2
  have e3 := adjustFitness_frame _ _ _ _ h3
  have e4 := countOffspring_frame _ _ _ h4
  have e5 := epochScan_best_le _ _ _ h5
  have a1 : p1.bestFitnessEver = p.bestFitnessEver := by rw [e1]
  have a2 : p2.bestFitnessEver = p1.bestFitnessEver := by rw [e2]
  have a3 : p3.bestFitnessEver = p2.bestFitnessEver := by rw [e3]
  have a4 : p4.bestFitnessEver = p3.bestFitnessEver := by rw [e4]
  show p.bestFitnessEver ≤ (epochReproduce ops P1 _).bestFitnessEver
  rw [epochReproduce_best, epochPhased_best]
  show p.bestFitnessEver ≤ (epochDeltaCoding P1 (epochCurrentBest p5)).bestFitnessEver
  rw [epochDeltaCoding_best]
  show p.bestFitnessEver ≤ p5.bestFitnessEver
  rw [← a1, ← a2, ← a3, ← a4]
  exact e5

theorem tickScanMembers_best_le (delta : ℚ) (l : List Genome) (st : ScanState) :
    st.best ≤ (tickScanMembers delta l st).2.best := by
  induction l generalizing st with
  | nil => exact le_refl _
  | cons g l ih =>
    simp only [tickScanMembers]
    exact le_trans (epochScanMember_best_le delta st _) (ih _)

theorem tickScanSpecies_best_le (delta : ℚ) (sp : List Species) (st : ScanState) :
    st.best ≤ (tickScanSpecies delta sp st).2.best := by
  induction sp generalizing st with
  | nil => exact le_refl _
  | cons s sp ih =>
    simp only [tickScanSpecies]
    exact le_trans (tickScanMembers_best_le delta _ st) (ih _)

theorem reassignSpecies_frame (compat : Genome → Genome → Bool) (p p1 : Population) (i : Nat)
    (h : reassignSpecies compat p i = some p1) :
    p1 = { p with species := p1.species, nextSpeciesID := p1.nextSpeciesID } := by
  unfold reassignSpecies at h
  split at h
  · split at h
    · simp at h
    · simp only [Option.map_eq_some'] at h
      obtain ⟨sp1, _, rfl⟩ := h
      rfl
  · simp at h

theorem reassignAll_frame (compat : Genome → Genome → Bool) (n i : Nat) (p p1 : Population)
    (h : reassignAll compat n i p = some p1) :
    p1 = { p with species := p1.species, nextSpeciesID := p1.nextSpeciesID } := by
  induction n generalizing i p with
  | zero =>
    simp only [reassignAll, Option.some.injEq] at h
    subst h
    rfl
  | succ n ih =>
    simp only [reassignAll, Option.bind_eq_some] at h
    obtain ⟨p2, h2, h3⟩ := h
    have e2 := reassignSpecies_frame compat p p2 i h2
    have e3 := ih _ _ h3
    rw [e3, e2]

theorem removeWorstIndividual_frame (p : Population) (w : Population × Genome)
    (h : removeWorstIndividual p = some w) :
    w.1 = { p with species := w.1.species } := by
  unfold removeWorstIndividual at h
  simp only [Option.map_eq_some'] at h
  obtain ⟨sp1, _, rfl⟩ := h
  rfl

theorem tickReassign_frame (ops : SpeciesOps) (c : Parameters × Bool) (p p1 : Population)
    (h : tickReassign ops c p = some p1) :
    p1 = { p with species := p1.species, nextSpeciesID := p1.nextSpeciesID } := by
  unfold tickReassign at h
  split at h
  · exact reassignAll_frame _ _ _ _ _ h
  · simp only [Option.some.injEq] at h
    subst h
    rfl

theorem tickBirth_frame (ops : SpeciesOps) (P : Parameters) (p : Population) (d : Genome)
    (parent : Nat) (r : TickResult) (h : tickBirth ops P p d parent = some r) :
    r.pop = { p with species := r.pop.species, nextSpeciesID := r.pop.nextSpeciesID,
                     nextGenomeID := r.pop.nextGenomeID } := by
  unfold tickBirth at h
  dsimp only at h
  split at h
  · simp only [Option.some.injEq] at h
    subst h
    rfl
  · simp at h

theorem tick_best_le (ops : SpeciesOps) (P : Parameters) (p : Population) (spins : List ℚ)
    (r : TickResult) (h : tick ops P p spins = some r) :
    p.bestFitnessEver ≤ r.pop.bestFitnessEver := by
  simp only [tick, Option.bind_eq_some] at h
  obtain ⟨c, _, p3, h3, p4, h4, w, h5, parent, _, h7⟩ := h
  have e3 := tickReassign_frame _ _ _ _ h3
  have e4 := sort_frame _ _ h4
  have e5 := removeWorstIndividual_frame _ _ h5
  have e7 := tickBirth_frame _ _ _ _ _ _ h7
  have a7 : r.pop.bestFitnessEver = w.1.bestFitnessEver := by rw [e7]
  have a5 : w.1.bestFitnessEver = p4.bestFitnessEver := by rw [e5]
  have a4 : p4.bestFitnessEver = p3.bestFitnessEver := by rw [e4]
  have a3 : p3.bestFitnessEver = (tickScan P p).bestFitnessEver := by rw [e3]
  rw [a7, a5, a4, a3]
  exact tickScanSpecies_best_le _ _ _

/-- C6: `best_fitness_ever` never decreases: whenever `Epoch` returns, its
value afterwards is at least its value before, and the same holds for `Tick`,
for every population state, every fitness assignment, every behaviour of the
species-level operations and every sequence of random spins. -/
theorem bestFitnessEver_never_decreases (ops : SpeciesOps) (P : Parameters) (p : Population)
    (spins : List ℚ) :
    (∀ r, epoch ops P p = some r → p.bestFitnessEver ≤ r.2.bestFitnessEver) ∧
    (∀ r, tick ops P p spins = some r → p.bestFitnessEver ≤ r.pop.bestFitnessEver) :=
  ⟨fun r h => epoch_best_le ops P p r h, fun r h => tick_best_le ops P p spins r h⟩

theorem bestFitnessEver_never_decreases_witness :
    (∃ r, epoch exOps exParamsPair exPopPair = some r ∧
      exPopPair.bestFitnessEver ≤ r.2.bestFitnessEver) ∧
    (∃ r, tick exOps exParamsPair exPopPair [1] = some r ∧
      exPopPair.bestFitnessEver ≤ r.pop.bestFitnessEver) := by
  have h1 : (epoch exOps exParamsPair exPopPair).isSome = true := by decide!
  have h2 : (tick exOps exParamsPair exPopPair [1]).isSome = true := by decide!
  obtain ⟨r1, e1⟩ := Option.isSome_iff_exists.1 h1
  obtain ⟨r2, e2⟩ := Option.isSome_iff_exists.1 h2
  exact ⟨⟨r1, e1, (bestFitnessEver_never_decreases exOps exParamsPair exPopPair [1]).1 r1 e1⟩,
    ⟨r2, e2, (bestFitnessEver_never_decreases exOps exParamsPair exPopPair [1]).2 r2 e2⟩⟩

/-! ## Tick: the member count -/

/-- The fitness floor of `Tick`. -/
theorem tickScanMembers_fst (delta : ℚ) (l : List Genome) (st : ScanState) :
    (tickScanMembers delta l st).1
      = l.map fun g => if g.fitness ≤ 0 then g.setFitness (1 / 100000) else g := by
  induction l generalizing st with
  | nil => rfl
  | cons g l ih => simp [tickScanMembers, ih]

theorem tickScanSpecies_allMembers (delta : ℚ) (sp : List Species) (st : ScanState) :
    allMembers (tickScanSpecies delta sp st).1
      = (allMembers sp).map fun g => if g.fitness ≤ 0 then g.setFitness (1 / 100000) else g := by
  induction sp generalizing st with
  | nil => rfl
  | cons s sp ih =>
    simp only [tickScanSpecies, allMembers_cons, List.map_append, ih, tickScanMembers_fst]

theorem tickScanSpecies_individuals (delta : ℚ) (sp : List Species) (st : ScanState) :
    (tickScanSpecies delta sp st).1.map (fun s => s.individuals)
      = sp.map fun s => s.individuals.map fun g =>
          if g.fitness ≤ 0 then g.setFitness (1 / 100000) else g := by
  induction sp generalizing st with
  | nil => rfl
  | cons s sp ih =>
    simp only [tickScanSpecies, List.map_cons, ih, tickScanMembers_fst]

theorem tickBestSpecies_individuals (sp : List Species) (st : ℚ × Genome) :
    (tickBestSpecies sp st).1.map (fun s => s.individuals) = sp.map fun s => s.individuals := by
  induction sp generalizing st with
  | nil => rfl
  | cons s sp ih => simp only [tickBestSpecies, List.map_cons, ih]

theorem allMembers_eq_of_individuals (a b : List Species)
    (h : a.map (fun s => s.individuals) = b.map fun s => s.individuals) :
    allMembers a = allMembers b := by
  have : ∀ l : List Species, allMembers l = (l.map fun s => s.individuals).flatten := by
    intro l
    induction l with
    | nil => rfl
    | cons s l ih => simp [allMembers_cons, ih]
  rw [this a, this b, h]

theorem tickScan_individuals (P : Parameters) (p : Population) :
    (tickScan P p).species.map (fun s => s.individuals)
      = p.species.map fun s => s.individuals.map fun g =>
          if g.fitness ≤ 0 then g.setFitness (1 / 100000) else g := by
  simp only [tickScan]
  rw [tickBestSpecies_individuals, tickScanSpecies_individuals]

theorem tickScan_allMembers (P : Parameters) (p : Population) :
    allMembers (tickScan P p).species
      = (allMembers p.species).map fun g =>
          if g.fitness ≤ 0 then g.setFitness (1 / 100000) else g := by
  have h := tickScan_individuals P p
  have e := allMembers_eq_of_individuals (tickScan P p).species
    (p.species.map fun s => { s with individuals := s.individuals.map fun g =>
      if g.fitness ≤ 0 then g.setFitness (1 / 100000) else g })
    (by rw [h]; simp)
  rw [e]
  generalize p.species = sp
  induction sp with
  | nil => rfl
  | cons s sp ih => simp only [List.map_cons, allMembers_cons, List.map_append, ih]

theorem perm_eraseIdx (l : List Genome) (i : Nat) (g : Genome) (h : l[i]? = some g) :
    l.Perm (g :: l.eraseIdx i) := by
  induction l generalizing i with
  | nil => simp at h
  | cons a l ih =>
    cases i with
    | zero =>
      simp at h
      subst h
      simp
    | succ i =>
      simp only [List.getElem?_cons_succ] at h
      simp only [List.eraseIdx_cons_succ]
      exact ((ih i h).cons a).trans (List.Perm.swap g a _)

theorem allMembers_perm_eraseIdx (sp : List Species) (si : Nat) (s : Species)
    (hs : sp[si]? = some s) :
    (allMembers sp).Perm (s.individuals ++ allMembers (sp.eraseIdx si)) := by
  induction sp generalizing si with
  | nil => simp at hs
  | cons a sp ih =>
    cases si with
    | zero =>
      simp at hs
      subst hs
      simp [allMembers_cons]
    | succ si =>
      simp only [List.getElem?_cons_succ] at hs
      simp only [List.eraseIdx_cons_succ, allMembers_cons]
      exact ((ih si hs).append_left _).trans (List.perm_append_comm_assoc _ _ _)

theorem eraseIdx_set_same (sp : List Species) (si : Nat) (s1 : Species) :
    (sp.set si s1).eraseIdx si = sp.eraseIdx si := by
  induction sp generalizing si with
  | nil => rfl
  | cons a sp ih =>
    cases si with
    | zero => rfl
    | succ si => simp [ih]

theorem allMembers_perm_set (sp : List Species) (si : Nat) (s s1 : Species)
    (hs : sp[si]? = some s) :
    (allMembers sp).Perm (s.individuals ++ allMembers (sp.eraseIdx si)) ∧
    (allMembers (sp.set si s1)).Perm (s1.individuals ++ allMembers (sp.eraseIdx si)) := by
  refine ⟨allMembers_perm_eraseIdx sp si s hs, ?_⟩
  have hlt : si < sp.length := by
    by_contra hcon
    rw [List.getElem?_eq_none (by omega)] at hs
    simp at hs
  have h1 : (sp.set si s1)[si]? = some s1 := by simp [hlt]
  have h2 := allMembers_perm_eraseIdx (sp.set si s1) si s1 h1
  rwa [eraseIdx_set_same] at h2

theorem removeMember_spec (sp sp1 : List Species) (si rel : Nat)
    (h : removeMember sp si rel = some sp1) :
    ∃ s g, sp[si]? = some s ∧ s.individuals[rel]? = some g ∧
      (allMembers sp).Perm (g :: allMembers sp1) ∧
      ((∀ t ∈ sp, t.individuals ≠ []) → ∀ t ∈ sp1, t.individuals ≠ []) := by
  by_cases hsi : si < sp.length
  · simp only [removeMember, hsi, dite_true, Species.removeIndividual, List.get_eq_getElem] at h
    by_cases hrel : rel < sp[si].individuals.length
    · simp only [hrel, if_true] at h
      have hs : sp[si]? = some sp[si] := by simp [hsi]
      have hg : sp[si].individuals[rel]? = some (sp[si].individuals[rel]) :=
        List.getElem?_eq_getElem hrel
      have hp := perm_eraseIdx _ _ _ hg
      refine ⟨_, _, hs, hg, ?_⟩
      split at h
      · rename_i he
        simp only [Option.some.injEq] at h
        subst h
        have he2 : sp[si].individuals.eraseIdx rel = [] := List.length_eq_zero.1 he
        rw [he2] at hp
        refine ⟨?_, fun hall t ht => hall t (List.mem_of_mem_eraseIdx ht)⟩
        exact (allMembers_perm_eraseIdx sp si _ hs).trans (hp.append_right _)
      · rename_i he
        simp only [Option.some.injEq] at h
        subst h
        obtain ⟨h1, h2⟩ := allMembers_perm_set sp si _
          { sp[si] with individuals := sp[si].individuals.eraseIdx rel } hs
        refine ⟨?_, ?_⟩
        · refine (h1.trans (hp.append_right _)).trans ?_
          exact (h2.symm.cons _)
        · intro hall t ht
          rcases List.mem_or_eq_of_mem_set ht with ht | rfl
          · exact hall t ht
          · intro h0
            simp only at h0
            rw [h0] at he
            simp at he
    · simp [hrel] at h
  · simp [removeMember, hsi] at h

theorem findInSpecies_spec (idx : Nat) (l : List Genome) (c rel : Nat) (hc : c ≤ idx) :
    (∀ g, l[idx - c]? = some g →
      (findInSpecies idx l c rel).1 = some (rel + (idx - c), g)) ∧
    (l.length ≤ idx - c →
      findInSpecies idx l c rel = (none, c + l.length)) := by
  induction l generalizing c rel with
  | nil => simp [findInSpecies]
  | cons a l ih =>
    by_cases h : c = idx
    · subst h
      simp [findInSpecies]
    · have hc1 : c + 1 ≤ idx := by omega
      have e : idx - c = (idx - (c + 1)) + 1 := by omega
      obtain ⟨i1, i2⟩ := ih (c + 1) (rel + 1) hc1
      simp only [findInSpecies, h, if_false]
      constructor
      · intro g hg
        rw [e, List.getElem?_cons_succ] at hg
        rw [i1 g hg]
        congr 2
        omega
      · intro hlen
        simp only [List.length_cons] at hlen
        rw [i2 (by omega)]
        simp only [List.length_cons]
        congr 1
        omega

theorem findGenome_spec (idx : Nat) (sp : List Species) (c si : Nat) (hc : c ≤ idx) :
    (idx - c < totalMembers sp →
      ∃ k rel s g, findGenome idx sp c si = some (si + k, rel, g) ∧
        sp[k]? = some s ∧ s.individuals[rel]? = some g) ∧
    (totalMembers sp ≤ idx - c → findGenome idx sp c si = none) := by
  induction sp generalizing c si with
  | nil => simp [findGenome, totalMembers]
  | cons a sp ih =>
    obtain ⟨f1, f2⟩ := findInSpecies_spec idx a.individuals c 0 hc
    by_cases h : idx - c < a.individuals.length
    · have hg : a.individuals[idx - c]? = some (a.individuals[idx - c]) :=
        List.getElem?_eq_getElem h
      have e1 := f1 _ hg
      constructor
      · intro _
        refine ⟨0, idx - c, a, _, ?_, by simp, hg⟩
        simp only [findGenome, Nat.zero_add] at e1 ⊢
        generalize findInSpecies idx a.individuals c 0 = r at e1
        obtain ⟨r1, r2⟩ := r
        simp only at e1
        subst e1
        simp
      · intro hle
        simp only [totalMembers_cons] at hle
        omega
    · have e2 := f2 (by omega)
      have hc2 : c + a.individuals.length ≤ idx := by omega
      obtain ⟨i1, i2⟩ := ih (c + a.individuals.length) (si + 1) hc2
      simp only [findGenome, e2, totalMembers_cons]
      constructor
      · intro hlt
        obtain ⟨k, rel, s, g, h1, h2, h3⟩ := i1 (by omega)
        refine ⟨k + 1, rel, s, g, ?_, by simpa using h2, h3⟩
        rw [h1]
        congr 2
        omega
      · intro hle
        exact i2 (by omega)

theorem insertGenome_spec (compat : Genome → Genome → Bool) (g : Genome) (sp : List Species)
    (nid : Int) :
    (allMembers (insertGenome compat g sp nid).1).Perm (allMembers sp ++ [g]) ∧
    ((∀ t ∈ sp, t.individuals ≠ []) →
      ∀ t ∈ (insertGenome compat g sp nid).1, t.individuals ≠ []) ∧
    (insertGenome compat g sp nid).1 ≠ [] := by
  have hfind : ∀ (l l1 : List Species), speciateFind compat g l = some l1 →
      ((∀ t ∈ l, t.individuals ≠ []) → ∀ t ∈ l1, t.individuals ≠ []) ∧ l1 ≠ [] := by
    intro l
    induction l with
    | nil => intro l1 h; simp [speciateFind] at h
    | cons a l ih =>
      intro l1 h
      by_cases hc : compat g a.representative = true
      · simp [speciateFind, hc] at h
        subst h
        refine ⟨?_, by simp⟩
        intro hall t ht
        rcases List.mem_cons.1 ht with rfl | ht
        · simp [Species.addIndividual]
        · exact hall t (by simp [ht])
      · simp [speciateFind, hc] at h
        obtain ⟨r, hr, rfl⟩ := h
        refine ⟨?_, by simp⟩
        intro hall t ht
        rcases List.mem_cons.1 ht with rfl | ht
        · exact hall _ (by simp)
        · exact (ih r hr).1 (fun u hu => hall u (by simp [hu])) t ht
  cases sp with
  | nil =>
    simp [insertGenome, allMembers, Species.create]
  | cons a l =>
    simp only [insertGenome]
    cases h : speciateFind compat g (a :: l) with
    | none =>
      refine ⟨?_, ?_, by simp⟩
      · simp [allMembers_append, allMembers_cons, Species.create, allMembers]
      · intro hall t ht
        rcases List.mem_append.1 ht with ht | ht
        · exact hall t ht
        · simp at ht
          subst ht
          simp [Species.create]
    | some l1 =>
      exact ⟨speciateFind_perm compat g _ l1 h, (hfind _ l1 h).1, (hfind _ l1 h).2⟩

theorem reassignSpecies_spec (compat : Genome → Genome → Bool) (p : Population) (i : Nat) :
    (∀ p1, reassignSpecies compat p i = some p1 →
      (allMembers p1.species).Perm (allMembers p.species) ∧
      ((∀ t ∈ p.species, t.individuals ≠ []) → ∀ t ∈ p1.species, t.individuals ≠ []) ∧
      p1.species ≠ [] ∧ p1.genomes = p.genomes) ∧
    (i < p.genomes.length → i < totalMembers p.species →
      ∃ p1, reassignSpecies compat p i = some p1) := by
  constructor
  · intro p1 h
    unfold reassignSpecies at h
    split at h
    · split at h
      · simp at h
      · rename_i si rel g hf
        simp only [Option.map_eq_some'] at h
        obtain ⟨sp1, hr, rfl⟩ := h
        obtain ⟨s, g1, hs, hg, hperm, hne⟩ := removeMember_spec _ _ _ _ hr
        obtain ⟨i1, i2, i3⟩ := insertGenome_spec compat g sp1 p.nextSpeciesID
        have hgg : g1 = g := by
          by_cases hlt : i - 0 < totalMembers p.species
          · obtain ⟨k, rel2, s2, g2, h1, h2, h3⟩ :=
              (findGenome_spec i p.species 0 0 (Nat.zero_le _)).1 hlt
            rw [hf] at h1
            simp only [Option.some.injEq, Prod.mk.injEq, Nat.zero_add] at h1
            obtain ⟨rfl, rfl, rfl⟩ := h1
            rw [hs] at h2
            simp only [Option.some.injEq] at h2
            subst h2
            rw [hg] at h3
            simpa using h3
          · have := (findGenome_spec i p.species 0 0 (Nat.zero_le _)).2 (by omega)
            rw [hf] at this
            simp at this
        subst hgg
        refine ⟨?_, fun hall => i2 (hne hall), i3, rfl⟩
        exact i1.trans ((List.perm_append_comm.trans (List.Perm.refl _)).trans hperm.symm)
    · simp at h
  · intro h1 h2
    obtain ⟨k, rel, s, g, hf, hs, hg⟩ :=
      (findGenome_spec i p.species 0 0 (Nat.zero_le _)).1 (by simpa using h2)
    simp only [Nat.zero_add] at hf
    have hk : k < p.species.length := by
      by_contra hcon
      rw [List.getElem?_eq_none (by omega)] at hs
      simp at hs
    have hs2 : p.species[k] = s := by
      rw [List.getElem?_eq_getElem hk] at hs
      simpa using hs
    have hrel : rel < s.individuals.length := by
      by_contra hcon
      rw [List.getElem?_eq_none (by omega)] at hg
      simp at hg
    simp only [reassignSpecies, h1, if_true, hf, removeMember, hk, dite_true,
      Species.removeIndividual, List.get_eq_getElem, hs2, hrel]
    split <;> simp

theorem reassignAll_spec (compat : Genome → Genome → Bool) (n : Nat) :
    ∀ (i : Nat) (p : Population),
    (∀ p1, reassignAll compat n i p = some p1 →
      (allMembers p1.species).Perm (allMembers p.species) ∧
      ((∀ t ∈ p.species, t.individuals ≠ []) → ∀ t ∈ p1.species, t.individuals ≠ []) ∧
      (p.species ≠ [] → p1.species ≠ [])) ∧
    (i + n ≤ p.genomes.length → p.genomes.length ≤ totalMembers p.species →
      ∃ p1, reassignAll compat n i p = some p1) := by
  induction n with
  | zero =>
    intro i p
    refine ⟨?_, fun _ _ => ⟨p, rfl⟩⟩
    intro p1 h
    simp only [reassignAll, Option.some.injEq] at h
    subst h
    exact ⟨List.Perm.refl _, fun h => h, fun h => h⟩
  | succ n ih =>
    intro i p
    obtain ⟨r1, r2⟩ := reassignSpecies_spec compat p i
    constructor
    · intro p1 h
      simp only [reassignAll, Option.bind_eq_some] at h
      obtain ⟨p2, h2, h3⟩ := h
      obtain ⟨a1, a2, a3, _⟩ := r1 p2 h2
      obtain ⟨b1, b2, b3⟩ := (ih (i + 1) p2).1 p1 h3
      exact ⟨b1.trans a1, fun h => b2 (a2 h), fun _ => b3 a3⟩
    · intro h1 h2
      obtain ⟨p2, h3⟩ := r2 (by omega) (by omega)
      obtain ⟨a1, _, _, a4⟩ := r1 p2 h3
      have hlen : totalMembers p2.species = totalMembers p.species := by
        rw [totalMembers_eq_length, totalMembers_eq_length, a1.length_eq]
      obtain ⟨p1, h4⟩ := (ih (i + 1) p2).2 (by rw [a4]; omega) (by rw [a4, hlen]; exact h2)
      exact ⟨p1, by simp [reassignAll, h3, h4]⟩

theorem allMembers_perm_of_perm (a b : List Species) (h : a.Perm b) :
    (allMembers a).Perm (allMembers b) := by
  unfold allMembers
  exact h.flatMap_right _

theorem allMembers_sortIndividuals (sp : List Species) :
    (allMembers (sp.map Species.sortIndividuals)).Perm (allMembers sp) := by
  induction sp with
  | nil => exact List.Perm.refl _
  | cons s sp ih =>
    simp only [List.map_cons, allMembers_cons]
    exact (List.perm_insertionSort _ _).append ih

theorem sort_spec (p : Population) :
    (∀ p1, sort p = some p1 →
      (allMembers p1.species).Perm (allMembers p.species) ∧
      (∀ t ∈ p1.species, t.individuals ≠ []) ∧ p1.species ≠ []) ∧
    (p.species ≠ [] → (∀ t ∈ p.species, t.individuals ≠ []) → ∃ p1, sort p = some p1) := by
  have hperm : (sortSpecies (p.species.map Species.sortIndividuals)).Perm
      (p.species.map Species.sortIndividuals) := List.perm_insertionSort _ _
  constructor
  · intro p1 h
    have hpos : 0 < p.species.length ∧ ∀ s ∈ p.species, 0 < s.numMembers := by
      unfold sort at h
      split at h
      · split at h
        · exact ⟨by assumption, by assumption⟩
        · simp at h
      · simp at h
    rw [sort_frame p p1 h]
    refine ⟨(allMembers_perm_of_perm _ _ hperm).trans (allMembers_sortIndividuals _), ?_, ?_⟩
    · intro t ht
      have ht2 := hperm.mem_iff.1 ht
      simp only [List.mem_map] at ht2
      obtain ⟨s, hs, rfl⟩ := ht2
      have := hpos.2 s hs
      intro h0
      have hl : (s.sortIndividuals).individuals.length = s.individuals.length := by
        simp [Species.sortIndividuals, List.length_insertionSort]
      rw [h0] at hl
      simp only [Species.numMembers] at this
      simp at hl
      omega
    · intro h0
      have := hperm.length_eq
      simp only at h0
      rw [h0] at this
      simp at this
      omega
  · intro h1 h2
    have hpos : 0 < p.species.length := List.length_pos.2 h1
    have hall : ∀ s ∈ p.species, 0 < s.numMembers := fun s hs =>
      List.length_pos.2 (h2 s hs)
    refine ⟨{ p with species := sortSpecies (p.species.map Species.sortIndividuals) }, ?_⟩
    unfold sort
    rw [if_pos hpos, if_pos hall]

/-! ## The division of `double`s -/

theorem log2Fuel_spec : ∀ (f n : Nat), n ≤ f → 1 ≤ n →
    2 ^ log2Fuel f n ≤ n ∧ n < 2 ^ (log2Fuel f n + 1) := by
  intro f
  induction f with
  | zero => intro n h1 h2; omega
  | succ f ih =>
    intro n h1 h2
    simp only [log2Fuel]
    by_cases h : n < 2
    · rw [if_pos h]
      simp only [pow_zero, zero_add, pow_one]
      omega
    · rw [if_neg h]
      obtain ⟨a, b⟩ := ih (n / 2) (by omega) (by omega)
      rw [pow_succ, pow_succ]
      constructor <;> omega

theorem binaryExponent_spec (x : ℚ) (hx : 0 < x) :
    (2 : ℚ) ^ binaryExponent x ≤ x ∧ x < (2 : ℚ) ^ (binaryExponent x + 1) := by
  have hnum : 0 < x.num := Rat.num_pos.2 hx
  have hp0 : 1 ≤ x.num.natAbs := by omega
  have hq0 : 1 ≤ x.den := x.den_pos
  have habs : |x| = x := abs_of_pos hx
  obtain ⟨p1, p2⟩ := log2Fuel_spec x.num.natAbs x.num.natAbs (le_refl _) hp0
  obtain ⟨q1, q2⟩ := log2Fuel_spec x.den x.den (le_refl _) hq0
  simp only [binaryExponent, habs]
  generalize log2Fuel x.num.natAbs x.num.natAbs = lp at p1 p2 ⊢
  generalize log2Fuel x.den x.den = lq at q1 q2 ⊢
  have hxe : x = (x.num.natAbs : ℚ) / (x.den : ℚ) := by
    have h1 : ((x.num.natAbs : ℤ) : ℚ) = (x.num : ℚ) := by
      rw [Int.natAbs_of_nonneg (le_of_lt hnum)]
    have h2 : ((x.num.natAbs : ℤ) : ℚ) = (x.num.natAbs : ℚ) := Int.cast_natCast _
    rw [← h2, h1]
    exact (Rat.num_div_den x).symm
  have hq : (0 : ℚ) < (x.den : ℚ) := by exact_mod_cast hq0
  have P1 : ((2 : ℚ) ^ lp) ≤ (x.num.natAbs : ℚ) := by exact_mod_cast p1
  have P2 : (x.num.natAbs : ℚ) < (2 : ℚ) ^ (lp + 1) := by exact_mod_cast p2
  have Q1 : ((2 : ℚ) ^ lq) ≤ (x.den : ℚ) := by exact_mod_cast q1
  have Q2 : (x.den : ℚ) < (2 : ℚ) ^ (lq + 1) := by exact_mod_cast q2
  have h2 : (0 : ℚ) < 2 := by norm_num
  have h2ne : (2 : ℚ) ≠ 0 := by norm_num
  by_cases hlt : x < (2 : ℚ) ^ ((lp : ℤ) - (lq : ℤ))
  · rw [if_pos hlt]
    refine ⟨?_, by simpa using hlt⟩
    -- 2 ^ (lp - lq - 1) * den ≤ 2 ^ lp ≤ num
    have e : (2 : ℚ) ^ ((lp : ℤ) - (lq : ℤ) - 1) * (2 : ℚ) ^ (lq + 1) = (2 : ℚ) ^ lp := by
      rw [← zpow_natCast, ← zpow_natCast, ← zpow_add₀ h2ne]
      congr 1
      push_cast
      ring
    rw [hxe, le_div_iff₀ hq]
    calc (2 : ℚ) ^ ((lp : ℤ) - (lq : ℤ) - 1) * (x.den : ℚ)
        ≤ (2 : ℚ) ^ ((lp : ℤ) - (lq : ℤ) - 1) * (2 : ℚ) ^ (lq + 1) :=
          mul_le_mul_of_nonneg_left (le_of_lt Q2) (le_of_lt (zpow_pos h2 _))
      _ = (2 : ℚ) ^ lp := e
      _ ≤ _ := P1
  · rw [if_neg hlt]
    refine ⟨not_lt.1 hlt, ?_⟩
    have e : (2 : ℚ) ^ ((lp : ℤ) - (lq : ℤ) + 1) * (2 : ℚ) ^ lq = (2 : ℚ) ^ (lp + 1) := by
      rw [← zpow_natCast, ← zpow_natCast, ← zpow_add₀ h2ne]
      congr 1
      push_cast
      ring
    rw [hxe, div_lt_iff₀ hq]
    calc (x.num.natAbs : ℚ) < (2 : ℚ) ^ (lp + 1) := P2
      _ = (2 : ℚ) ^ ((lp : ℤ) - (lq : ℤ) + 1) * (2 : ℚ) ^ lq := e.symm
      _ ≤ _ := mul_le_mul_of_nonneg_left Q1 (le_of_lt (zpow_pos h2 _))

theorem roundHalfEven_le (y : ℚ) : roundHalfEven y ≤ ⌊y⌋ + 1 := by
  unfold roundHalfEven
  split
  · omega
  · split
    · omega
    · split <;> omega

theorem roundDouble_le (x : ℚ) (hx : 0 < x) (e : ℤ) (he : -1021 ≤ e) (hlt : x < (2 : ℚ) ^ e) :
    roundDouble x ≤ (2 : ℚ) ^ e := by
  obtain ⟨b1, b2⟩ := binaryExponent_spec x hx
  have h2 : (0 : ℚ) < 2 := by norm_num
  have h2ne : (2 : ℚ) ≠ 0 := by norm_num
  have hbe : binaryExponent x + 1 ≤ e := by
    have : (2 : ℚ) ^ binaryExponent x < (2 : ℚ) ^ e := lt_of_le_of_lt b1 hlt
    have := (zpow_lt_zpow_iff_right₀ (by norm_num : (1 : ℚ) < 2)).1 this
    omega
  have hm : max (binaryExponent x) (-1022) + 1 ≤ e := by
    rcases max_cases (binaryExponent x) (-1022) with ⟨h, _⟩ | ⟨h, _⟩ <;> rw [h] <;> omega
  simp only [roundDouble]
  generalize max (binaryExponent x) (-1022) = k at hm
  have hu : (0 : ℚ) < (2 : ℚ) ^ (k - 52) := zpow_pos h2 _
  -- the scaled value is below 2 ^ (e - k + 52)
  have hy : x / (2 : ℚ) ^ (k - 52) < (2 : ℚ) ^ (e - k + 52) := by
    rw [div_lt_iff₀ hu, ← zpow_add₀ h2ne]
    have : e - k + 52 + (k - 52) = e := by ring
    rw [this]
    exact hlt
  obtain ⟨n, hn⟩ : ∃ n : ℕ, e - k + 52 = (n : ℤ) := ⟨(e - k + 52).toNat, by omega⟩
  rw [hn, zpow_natCast] at hy
  have hfl : ⌊x / (2 : ℚ) ^ (k - 52)⌋ < (2 : ℤ) ^ n := by
    rw [Int.floor_lt]
    push_cast
    exact hy
  have hr : roundHalfEven (x / (2 : ℚ) ^ (k - 52)) ≤ (2 : ℤ) ^ n :=
    le_trans (roundHalfEven_le _) (by omega)
  have hr2 : ((roundHalfEven (x / (2 : ℚ) ^ (k - 52)) : ℤ) : ℚ) ≤ (2 : ℚ) ^ n := by
    exact_mod_cast hr
  calc ((roundHalfEven (x / (2 : ℚ) ^ (k - 52)) : ℤ) : ℚ) * (2 : ℚ) ^ (k - 52)
      ≤ (2 : ℚ) ^ n * (2 : ℚ) ^ (k - 52) := mul_le_mul_of_nonneg_right hr2 (le_of_lt hu)
    _ = (2 : ℚ) ^ e := by
        rw [← zpow_natCast, ← hn, ← zpow_add₀ h2ne]
        congr 1
        ring

theorem doubleDiv_lt_DBL_MAX (a : ℚ) (n : ℕ) (ha : 0 < a) (hlt : a < 2 ^ 1023) (hn : 1 ≤ n) :
    doubleDiv a (n : ℚ) < DBL_MAX := by
  have hn1 : (1 : ℚ) ≤ (n : ℚ) := by exact_mod_cast hn
  have hpos : 0 < a / (n : ℚ) := div_pos ha (by linarith)
  have hle : a / (n : ℚ) ≤ a := div_le_self (le_of_lt ha) hn1
  have h := roundDouble_le (a / (n : ℚ)) hpos ((1023 : ℕ) : ℤ) (by omega)
    (by rw [zpow_natCast]; exact lt_of_le_of_lt hle hlt)
  rw [zpow_natCast] at h
  have : (2 : ℚ) ^ 1023 < DBL_MAX := by decide!
  exact lt_of_le_of_lt h this

theorem removeWorstMembers_spec (sp : List Species) (size i : Nat) (s : Species)
    (hs : sp[i]? = some s) (l : List Genome) :
    ∀ (j : Nat) (st : WorstState),
      (∀ k g, l[k]? = some g → s.individuals[j + k]? = some g) →
      (removeWorstMembers size i l j st).worstFitness ≤ st.worstFitness ∧
      (∀ g ∈ l, g.evaluated = true →
        (removeWorstMembers size i l j st).worstFitness ≤ doubleDiv g.fitness (size : ℚ)) ∧
      ((st.worstFitness < DBL_MAX → st.Valid sp) →
        (removeWorstMembers size i l j st).worstFitness < DBL_MAX →
        (removeWorstMembers size i l j st).Valid sp) := by
  induction l with
  | nil =>
    intro j st _
    exact ⟨le_refl _, by simp, fun h => h⟩
  | cons a l ih =>
    intro j st hsuf
    have hsuf2 : ∀ k g, l[k]? = some g → s.individuals[j + 1 + k]? = some g := by
      intro k g hk
      have := hsuf (k + 1) g (by simpa using hk)
      rwa [show j + 1 + k = j + (k + 1) by omega]
    have ha : s.individuals[j]? = some a := by simpa using hsuf 0 a (by simp)
    simp only [removeWorstMembers]
    by_cases hc : doubleDiv a.fitness (size : ℚ) < st.worstFitness ∧ a.evaluated = true
    · rw [if_pos hc]
      obtain ⟨i1, i2, i3⟩ := ih (j + 1)
        { worstIdx := j, worstSpecies := i, worstFitness := doubleDiv a.fitness (size : ℚ),
          genome := a } hsuf2
      refine ⟨le_trans i1 (le_of_lt hc.1), ?_, ?_⟩
      · intro g hg hev
        rcases List.mem_cons.1 hg with rfl | hg
        · exact i1
        · exact i2 g hg hev
      · intro _ hlt
        exact i3 (fun _ => ⟨s, a, hs, ha, hc.2⟩) hlt
    · rw [if_neg hc]
      obtain ⟨i1, i2, i3⟩ := ih (j + 1) st hsuf2
      refine ⟨i1, ?_, i3⟩
      intro g hg hev
      rcases List.mem_cons.1 hg with rfl | hg
      · have : ¬ doubleDiv g.fitness (size : ℚ) < st.worstFitness := fun h => hc ⟨h, hev⟩
        exact le_trans i1 (not_lt.1 this)
      · exact i2 g hg hev

theorem removeWorstSpecies_spec (sp : List Species) (rest : List Species) :
    ∀ (i : Nat) (st : WorstState),
      (∀ k s, rest[k]? = some s → sp[i + k]? = some s) →
      (removeWorstSpecies rest i st).worstFitness ≤ st.worstFitness ∧
      (∀ s ∈ rest, ∀ g ∈ s.individuals, g.evaluated = true →
        (removeWorstSpecies rest i st).worstFitness
          ≤ doubleDiv g.fitness (s.individuals.length : ℚ)) ∧
      ((st.worstFitness < DBL_MAX → st.Valid sp) →
        (removeWorstSpecies rest i st).worstFitness < DBL_MAX →
        (removeWorstSpecies rest i st).Valid sp) := by
  induction rest with
  | nil =>
    intro i st _
    exact ⟨le_refl _, by simp, fun h => h⟩
  | cons a rest ih =>
    intro i st hsuf
    have hsuf2 : ∀ k s, rest[k]? = some s → sp[i + 1 + k]? = some s := by
      intro k s hk
      have := hsuf (k + 1) s (by simpa using hk)
      rwa [show i + 1 + k = i + (k + 1) by omega]
    have ha : sp[i]? = some a := by simpa using hsuf 0 a (by simp)
    obtain ⟨m1, m2, m3⟩ := removeWorstMembers_spec sp a.individuals.length i a ha
      a.individuals 0 st (by intro k g hk; simpa using hk)
    obtain ⟨i1, i2, i3⟩ := ih (i + 1)
      (removeWorstMembers a.individuals.length i a.individuals 0 st) hsuf2
    simp only [removeWorstSpecies]
    refine ⟨le_trans i1 m1, ?_, fun h => i3 (m3 h)⟩
    intro s hs g hg hev
    rcases List.mem_cons.1 hs with rfl | hs
    · exact le_trans i1 (m2 g hg hev)
    · exact i2 s hs g hg hev

theorem removeWorstIndividual_spec (p : Population) :
    (∀ w, removeWorstIndividual p = some w →
      ∃ g, (allMembers p.species).Perm (g :: allMembers w.1.species) ∧
        ((∀ t ∈ p.species, t.individuals ≠ []) → ∀ t ∈ w.1.species, t.individuals ≠ [])) ∧
    ((∃ s ∈ p.species, ∃ g ∈ s.individuals, g.evaluated = true ∧
        doubleDiv g.fitness (s.individuals.length : ℚ) < DBL_MAX) →
      ∃ w g, removeWorstIndividual p = some w ∧ g.evaluated = true ∧
        (allMembers p.species).Perm (g :: allMembers w.1.species)) := by
  constructor
  · intro w h
    unfold removeWorstIndividual at h
    simp only [Option.map_eq_some'] at h
    obtain ⟨sp1, h1, rfl⟩ := h
    obtain ⟨s, g, _, _, hp, hne⟩ := removeMember_spec _ _ _ _ h1
    exact ⟨g, hp, hne⟩
  · rintro ⟨s, hs, g, hg, hev, hlt⟩
    obtain ⟨_, i2, i3⟩ := removeWorstSpecies_spec p.species p.species 0 {}
      (by intro k s hk; simpa using hk)
    have hw : (removeWorstSpecies p.species 0 {}).worstFitness < DBL_MAX :=
      lt_of_le_of_lt (i2 s hs g hg hev) hlt
    obtain ⟨s1, g1, h1, h2, h3⟩ := i3 (fun h => absurd h (lt_irrefl _)) hw
    have hk : (removeWorstSpecies p.species 0 {}).worstSpecies < p.species.length := by
      by_contra hcon
      rw [List.getElem?_eq_none (by omega)] at h1
      simp at h1
    have hs2 : p.species[(removeWorstSpecies p.species 0 {}).worstSpecies] = s1 := by
      rw [List.getElem?_eq_getElem hk] at h1
      simpa using h1
    have hrel : (removeWorstSpecies p.species 0 {}).worstIdx < s1.individuals.length := by
      by_contra hcon
      rw [List.getElem?_eq_none (by omega)] at h2
      simp at h2
    have hsome : ∃ sp1, removeMember p.species
        (removeWorstSpecies p.species 0 {}).worstSpecies
        (removeWorstSpecies p.species 0 {}).worstIdx = some sp1 := by
      simp only [removeMember, hk, dite_true, Species.removeIndividual, List.get_eq_getElem,
        hs2, hrel, if_true]
      split <;> simp
    obtain ⟨sp1, h4⟩ := hsome
    obtain ⟨s2, g2, e1, e2, hp, _⟩ := removeMember_spec _ _ _ _ h4
    rw [h1] at e1
    simp only [Option.some.injEq] at e1
    subst e1
    rw [h2] at e2
    simp only [Option.some.injEq] at e2
    subst e2
    refine ⟨({ p with species := sp1 }, (removeWorstSpecies p.species 0 {}).genome), g1,
      ?_, h3, hp⟩
    simp [removeWorstIndividual, h4]

theorem foldl_add_averageFitness (sp : List Species) (acc : ℚ) :
    sp.foldl (fun t s => t + s.averageFitness) acc
      = acc + (sp.map fun s => s.averageFitness).sum := by
  induction sp generalizing acc with
  | nil => simp
  | cons s sp ih => simp [ih, add_assoc]

theorem chooseWalk_spec (sp : List Species) (marble : ℚ) (n : Nat) :
    ∀ (cur : Nat) (spin : ℚ), sp.length - cur ≤ n → cur < sp.length →
      marble ≤ spin + ((sp.drop (cur + 1)).map fun s => s.averageFitness).sum →
      ∃ c, chooseWalk sp marble cur spin = some c ∧ cur ≤ c ∧ c < sp.length ∧
        (c = cur → marble ≤ spin) ∧
        (cur < c → ∃ s, sp[c]? = some s ∧ 0 < s.averageFitness) := by
  induction n with
  | zero =>
    intro cur spin h1 h2
    omega
  | succ n ih =>
    intro cur spin h1 h2 hb
    rw [chooseWalk]
    by_cases hlt : spin < marble
    · rw [if_pos hlt]
      have hnext : cur + 1 < sp.length := by
        by_contra hcon
        rw [List.drop_eq_nil_of_le (by omega)] at hb
        simp at hb
        exact absurd hlt (not_lt.2 hb)
      rw [dif_pos hnext]
      have hdrop : sp.drop (cur + 1) = sp[cur + 1] :: sp.drop (cur + 1 + 1) :=
        List.drop_eq_getElem_cons hnext
      rw [hdrop] at hb
      simp only [List.map_cons, List.sum_cons] at hb
      obtain ⟨c, h3, h4, h5, h6, h7⟩ := ih (cur + 1)
        (spin + (sp.get ⟨cur + 1, hnext⟩).averageFitness) (by omega) hnext
        (by simp only [List.get_eq_getElem]; linarith)
      refine ⟨c, h3, by omega, h5, fun hc => by omega, ?_⟩
      intro _
      rcases Nat.eq_or_lt_of_le h4 with he | hl
      · have := h6 he.symm
        simp only [List.get_eq_getElem] at this
        refine ⟨sp[cur + 1], ?_, by linarith⟩
        rw [← he]
        exact List.getElem?_eq_getElem hnext
      · exact h7 hl
    · rw [if_neg hlt]
      exact ⟨cur, rfl, le_refl _, h2, fun _ => not_lt.1 hlt, fun h => absurd h (lt_irrefl _)⟩

theorem chooseLoop_returns (sp : List Species) (hpos : 0 < sp.length)
    (hsum : 0 < (sp.map fun s => s.averageFitness).sum) (spins : List ℚ)
    (h1 : ∀ r ∈ spins, r ≤ 1) (h2 : ∃ r ∈ spins, 0 < r) :
    ∃ c, chooseLoop sp ((sp.map fun s => s.averageFitness).sum) spins 0 = some c ∧
      c < sp.length := by
  induction spins with
  | nil => simp at h2
  | cons r rs ih =>
    have hr1 : r ≤ 1 := h1 r (by simp)
    have hm : r * (sp.map fun s => s.averageFitness).sum
        ≤ (sp.map fun s => s.averageFitness).sum := by nlinarith
    have hsplit : (sp.map fun s => s.averageFitness).sum
        = (sp.get ⟨0, hpos⟩).averageFitness
          + ((sp.drop (0 + 1)).map fun s => s.averageFitness).sum := by
      cases sp with
      | nil => simp at hpos
      | cons a l => simp
    obtain ⟨c, w1, _, w3, w4, w5⟩ := chooseWalk_spec sp
      (r * (sp.map fun s => s.averageFitness).sum) _ 0
      (sp.get ⟨0, hpos⟩).averageFitness (le_refl _) hpos (by rw [← hsplit]; exact hm)
    simp only [chooseLoop, hpos, dite_true, w1, w3]
    by_cases hz : (sp.get ⟨c, w3⟩).averageFitness = 0
    · rw [if_pos hz]
      have hc0 : c = 0 := by
        rcases Nat.eq_zero_or_pos c with h0 | hp
        · exact h0
        · obtain ⟨s, hs, hsp⟩ := w5 hp
          rw [List.getElem?_eq_getElem w3] at hs
          simp only [Option.some.injEq] at hs
          simp only [List.get_eq_getElem, hs] at hz
          exact absurd hz hsp.ne'
      subst hc0
      have hle := w4 rfl
      rw [hz] at hle
      have hr0 : ¬ 0 < r := by
        intro hr
        have := mul_pos hr hsum
        linarith
      apply ih (fun x hx => h1 x (by simp [hx]))
      obtain ⟨x, hx, hxp⟩ := h2
      rcases List.mem_cons.1 hx with rfl | hx
      · exact absurd hxp hr0
      · exact ⟨x, hx, hxp⟩
    · rw [if_neg hz]
      exact ⟨c, rfl, w3⟩

theorem chooseParentSpecies_returns (sp : List Species) (spins : List ℚ)
    (hsum : 0 < (sp.map fun s => s.averageFitness).sum)
    (h1 : ∀ r ∈ spins, r ≤ 1) (h2 : ∃ r ∈ spins, 0 < r) :
    ∃ c, chooseParentSpecies sp spins = some c ∧ c < sp.length := by
  have hpos : 0 < sp.length := by
    cases sp with
    | nil => simp at hsum
    | cons a l => simp
  have htot : sp.foldl (fun t s => t + s.averageFitness) 0
      = (sp.map fun s => s.averageFitness).sum := by
    rw [foldl_add_averageFitness]
    simp
  simp only [chooseParentSpecies, hpos, if_true, htot]
  exact chooseLoop_returns sp hpos hsum spins h1 h2

theorem averageFitness_nonneg (s : Species) (h : ∀ g ∈ s.individuals, 0 < g.fitness) :
    0 ≤ (s.calculateAverageFitness).averageFitness ∧
    ((∃ g ∈ s.individuals, g.evaluated = true) →
      0 < (s.calculateAverageFitness).averageFitness) := by
  have hsum : ∀ l : List Genome, (∀ g ∈ l, 0 < g.fitness) →
      0 ≤ (l.map fun g => g.fitness).sum ∧ (l ≠ [] → 0 < (l.map fun g => g.fitness).sum) := by
    intro l
    induction l with
    | nil => intro _; simp
    | cons a l ih =>
      intro hl
      have ha := hl a (by simp)
      have := (ih fun g hg => hl g (by simp [hg])).1
      simp only [List.map_cons, List.sum_cons]
      exact ⟨by linarith, fun _ => by linarith⟩
  have hev : ∀ g ∈ s.individuals.filter (fun g => g.evaluated), 0 < g.fitness :=
    fun g hg => h g (List.mem_filter.1 hg).1
  obtain ⟨s1, s2⟩ := hsum _ hev
  simp only [Species.calculateAverageFitness]
  constructor
  · split
    · exact le_refl _
    · exact div_nonneg s1 (by positivity)
  · rintro ⟨g, hg, hge⟩
    have hmem : g ∈ s.individuals.filter (fun g => g.evaluated) :=
      List.mem_filter.2 ⟨hg, hge⟩
    have hne : s.individuals.filter (fun g => g.evaluated) ≠ [] :=
      List.ne_nil_of_mem hmem
    have hlen : (s.individuals.filter (fun g => g.evaluated)).length ≠ 0 := by
      simpa using hne
    rw [if_neg hlen]
    have : (0 : ℚ) < ((s.individuals.filter (fun g => g.evaluated)).length : ℚ) := by
      exact_mod_cast Nat.pos_of_ne_zero hlen
    exact div_pos (s2 hne) this

theorem allMembers_calculateAverageFitness (sp : List Species) :
    allMembers (sp.map Species.calculateAverageFitness) = allMembers sp :=
  allMembers_eq_of_individuals _ _ (by simp [Species.calculateAverageFitness])

theorem tickReassign_spec (ops : SpeciesOps) (c : Parameters × Bool) (p : Population) :
    (∀ p1, tickReassign ops c p = some p1 →
      (allMembers p1.species).Perm (allMembers p.species) ∧
      ((∀ t ∈ p.species, t.individuals ≠ []) → ∀ t ∈ p1.species, t.individuals ≠ []) ∧
      (p.species ≠ [] → p1.species ≠ [])) ∧
    (p.genomes.length ≤ totalMembers p.species → ∃ p1, tickReassign ops c p = some p1) := by
  unfold tickReassign
  split
  · obtain ⟨h1, h2⟩ := reassignAll_spec (ops.isCompatibleWith c.1) p.genomes.length 0 p
    exact ⟨h1, fun h => h2 (by omega) h⟩
  · refine ⟨?_, fun _ => ⟨p, rfl⟩⟩
    intro p1 h
    simp only [Option.some.injEq] at h
    subst h
    exact ⟨List.Perm.refl _, fun h => h, fun h => h⟩

theorem tickBirth_spec (ops : SpeciesOps) (P : Parameters) (p : Population) (d : Genome)
    (parent : Nat) :
    (∀ r, tickBirth ops P p d parent = some r →
      totalMembers r.pop.species = totalMembers p.species + 1) ∧
    ((0 < (ops.reproduceOne P p parent).1.numInputs ∧
        0 < (ops.reproduceOne P p parent).1.numOutputs) →
      ∃ r, tickBirth ops P p d parent = some r) := by
  unfold tickBirth
  dsimp only
  constructor
  · intro r h
    split at h
    · simp only [Option.some.injEq] at h
      subst h
      have := (insertGenome_spec (ops.isCompatibleWith P) (ops.reproduceOne P p parent).1
        p.species p.nextSpeciesID).1.length_eq
      simp only [totalMembers_eq_length, this, List.length_append, List.length_singleton]
    · simp at h
  · intro h
    rw [if_pos h]
    exact ⟨_, rfl⟩

theorem tick_total (ops : SpeciesOps) (P : Parameters) (p : Population) (spins : List ℚ)
    (r : TickResult) (h : tick ops P p spins = some r) :
    totalMembers r.pop.species = totalMembers p.species := by
  simp only [tick, Option.bind_eq_some] at h
  obtain ⟨c, _, p3, h3, p4, h4, w, h5, parent, _, h7⟩ := h
  have a0 : totalMembers (tickScan P p).species = totalMembers p.species := by
    simp only [totalMembers_eq_length, tickScan_allMembers, List.length_map]
  have a3 := ((tickReassign_spec ops c (tickScan P p)).1 p3 h3).1.length_eq
  have a4 := ((sort_spec p3).1 p4 h4).1.length_eq
  obtain ⟨g, a5, _⟩ := (removeWorstIndividual_spec p4).1 w h5
  have a5 := a5.length_eq
  have a7 : totalMembers r.pop.species
      = totalMembers (w.1.species.map Species.calculateAverageFitness) + 1 :=
    (tickBirth_spec ops c.1 _ w.2 parent).1 r h7
  simp only [totalMembers_eq_length, allMembers_calculateAverageFitness,
    List.length_cons] at a0 a3 a4 a5 a7 ⊢
  omega

theorem tickCompat_returns (P : Parameters) (p : Population)
    (h : P.DynamicCompatibility = true → P.CompatTreshChangeInterval_Evaluations ≠ 0) :
    ∃ c, tickCompat P p = some c := by
  unfold tickCompat
  by_cases hd : P.DynamicCompatibility = true
  · rw [if_pos hd, if_neg (h hd)]
    split
    · exact ⟨_, rfl⟩
    · exact ⟨_, rfl⟩
  · rw [if_neg hd]
    exact ⟨_, rfl⟩

theorem mem_allMembers {sp : List Species} {g : Genome} :
    g ∈ allMembers sp ↔ ∃ s ∈ sp, g ∈ s.individuals := by
  simp [allMembers, List.mem_flatMap]

theorem sum_averageFitness_pos (sp : List Species)
    (hnn : ∀ s ∈ sp, 0 ≤ s.averageFitness) (hpos : ∃ s ∈ sp, 0 < s.averageFitness) :
    0 < (sp.map fun s => s.averageFitness).sum := by
  induction sp with
  | nil => simp at hpos
  | cons a l ih =>
    simp only [List.map_cons, List.sum_cons]
    have ha := hnn a (by simp)
    have hl : 0 ≤ (l.map fun s => s.averageFitness).sum :=
      List.sum_nonneg (by
        intro x hx
        simp only [List.mem_map] at hx
        obtain ⟨s, hs, rfl⟩ := hx
        exact hnn s (by simp [hs]))
    obtain ⟨s, hs, hsp⟩ := hpos
    rcases List.mem_cons.1 hs with rfl | hs
    · linarith
    · have := ih (fun t ht => hnn t (by simp [ht])) ⟨s, hs, hsp⟩
      linarith

theorem tick_returns (ops : SpeciesOps) (P : Parameters) (p : Population)
    (spins : List ℚ)
    (hc : P.DynamicCompatibility = true → P.CompatTreshChangeInterval_Evaluations ≠ 0)
    (hg : p.genomes.length ≤ totalMembers p.species)
    (hne : ∀ t ∈ p.species, t.individuals ≠ [])
    (hev : 2 ≤ ((allMembers p.species).filter fun g => g.evaluated).length)
    (hfit : ∀ g ∈ allMembers p.species, g.fitness < 2 ^ 1023)
    (hs1 : ∀ r ∈ spins, r ≤ 1) (hs2 : ∃ r ∈ spins, 0 < r)
    (hbaby : ∀ P1 q i, 0 < (ops.reproduceOne P1 q i).1.numInputs ∧
      0 < (ops.reproduceOne P1 q i).1.numOutputs) :
    ∃ res, tick ops P p spins = some res := by
  have hmax : (1 / 100000 : ℚ) < 2 ^ 1023 := by decide!
  -- the state after the scans
  have q2 : ∀ t ∈ (tickScan P p).species, t.individuals ≠ [] := by
    intro t ht
    have : t.individuals ∈ (tickScan P p).species.map (fun s => s.individuals) :=
      List.mem_map.2 ⟨t, ht, rfl⟩
    rw [tickScan_individuals] at this
    obtain ⟨s, hs, he⟩ := List.mem_map.1 this
    rw [← he]
    simpa using hne s hs
  have q3 : ∀ g ∈ allMembers (tickScan P p).species, 0 < g.fitness ∧ g.fitness < 2 ^ 1023 := by
    intro g hg1
    rw [tickScan_allMembers] at hg1
    obtain ⟨g0, hg0, rfl⟩ := List.mem_map.1 hg1
    by_cases h0 : g0.fitness ≤ 0
    · simp only [h0, if_true, Genome.setFitness]
      exact ⟨by norm_num, hmax⟩
    · simp only [h0, if_false]
      exact ⟨not_le.1 h0, hfit g0 hg0⟩
  have q4 : 2 ≤ ((allMembers (tickScan P p).species).filter fun g => g.evaluated).length := by
    rw [tickScan_allMembers, List.filter_map, List.length_map]
    have : ((fun g : Genome => g.evaluated) ∘ fun g : Genome =>
        if g.fitness ≤ 0 then g.setFitness (1 / 100000) else g)
        = fun g => g.evaluated := by
      funext g
      simp only [Function.comp]
      split <;> rfl
    rw [this]
    exact hev
  have q5 : (tickScan P p).genomes.length ≤ totalMembers (tickScan P p).species := by
    have : totalMembers (tickScan P p).species = totalMembers p.species := by
      simp only [totalMembers_eq_length, tickScan_allMembers, List.length_map]
    rw [this]
    exact hg
  obtain ⟨c, hcs⟩ := tickCompat_returns P (tickScan P p) hc
  obtain ⟨p3, h3⟩ := (tickReassign_spec ops c (tickScan P p)).2 q5
  obtain ⟨a1, a2, _⟩ := (tickReassign_spec ops c (tickScan P p)).1 p3 h3
  have r2 := a2 q2
  have r3 : ∀ g ∈ allMembers p3.species, 0 < g.fitness ∧ g.fitness < 2 ^ 1023 :=
    fun g hg1 => q3 g (a1.mem_iff.1 hg1)
  have r4 : 2 ≤ ((allMembers p3.species).filter fun g => g.evaluated).length := by
    rw [(a1.filter _).length_eq]
    exact q4
  have r1 : p3.species ≠ [] := by
    intro h0
    rw [h0] at r4
    simp [allMembers] at r4
  obtain ⟨p4, h4⟩ := (sort_spec p3).2 r1 r2
  obtain ⟨b1, b2, _⟩ := (sort_spec p3).1 p4 h4
  have s3 : ∀ g ∈ allMembers p4.species, 0 < g.fitness ∧ g.fitness < 2 ^ 1023 :=
    fun g hg1 => r3 g (b1.mem_iff.1 hg1)
  have s4 : 2 ≤ ((allMembers p4.species).filter fun g => g.evaluated).length := by
    rw [(b1.filter _).length_eq]
    exact r4
  -- an evaluated member exists, so `RemoveWorstIndividual` finds one
  have hex : ∃ s ∈ p4.species, ∃ g ∈ s.individuals, g.evaluated = true ∧
      doubleDiv g.fitness (s.individuals.length : ℚ) < DBL_MAX := by
    have hpos : 0 < ((allMembers p4.species).filter fun g => g.evaluated).length := by omega
    obtain ⟨g, hgm⟩ := List.exists_mem_of_length_pos hpos
    obtain ⟨hg1, hg2⟩ := List.mem_filter.1 hgm
    obtain ⟨s, hs, hgs⟩ := mem_allMembers.1 hg1
    refine ⟨s, hs, g, hgs, hg2, ?_⟩
    exact doubleDiv_lt_DBL_MAX g.fitness s.individuals.length (s3 g hg1).1 (s3 g hg1).2
      (List.length_pos.2 (b2 s hs))
  obtain ⟨w, gd, h5, hgd, c1⟩ := (removeWorstIndividual_spec p4).2 hex
  obtain ⟨_, _, c2⟩ := (removeWorstIndividual_spec p4).1 w h5
  have t2 := c2 b2
  have t3 : ∀ g ∈ allMembers w.1.species, 0 < g.fitness :=
    fun g hg1 => (s3 g (c1.mem_iff.2 (by simp [hg1]))).1
  have t4 : 1 ≤ ((allMembers w.1.species).filter fun g => g.evaluated).length := by
    have := (c1.filter fun g => g.evaluated).length_eq
    rw [List.filter_cons_of_pos (by simpa using hgd)] at this
    simp only [List.length_cons] at this
    omega
  -- the averages are non-negative and one of them is positive
  have hsum : 0 < ((w.1.species.map Species.calculateAverageFitness).map
      fun s => s.averageFitness).sum := by
    apply sum_averageFitness_pos
    · intro s hs
      obtain ⟨s0, hs0, rfl⟩ := List.mem_map.1 hs
      exact (averageFitness_nonneg s0 fun g hg1 =>
        t3 g (mem_allMembers.2 ⟨s0, hs0, hg1⟩)).1
    · obtain ⟨g, hgm⟩ := List.exists_mem_of_length_pos
        (show 0 < ((allMembers w.1.species).filter fun g => g.evaluated).length by omega)
      obtain ⟨hg1, hg2⟩ := List.mem_filter.1 hgm
      obtain ⟨s0, hs0, hgs⟩ := mem_allMembers.1 hg1
      exact ⟨s0.calculateAverageFitness, List.mem_map.2 ⟨s0, hs0, rfl⟩,
        (averageFitness_nonneg s0 fun g hg1 =>
          t3 g (mem_allMembers.2 ⟨s0, hs0, hg1⟩)).2 ⟨g, hgs, hg2⟩⟩
  obtain ⟨parent, h6, _⟩ := chooseParentSpecies_returns _ spins hsum hs1 hs2
  obtain ⟨res, h7⟩ := (tickBirth_spec ops c.1
    { w.1 with species := w.1.species.map Species.calculateAverageFitness } w.2 parent).2
    (hbaby _ _ _)
  exact ⟨res, by simp only [tick, hcs, h3, h4, h5, h6, h7, Option.bind_some, Option.some_bind]⟩

/-- C3: for every population with no empty species and at least two evaluated
members, whose genome list is no longer than the member count and whose
fitnesses are all below `2^1023`, `Tick` returns and the total number of
members over all species is the same after it as before, provided a zero
threshold interval is not used, the values of `RandFloat()` are at most 1 and
one of them is positive, and `ReproduceOne` (which by its type leaves the
membership alone) returns a baby that passes the two `ASSERT`s.  The count is
kept because a returning `RemoveWorstIndividual` removes exactly one member,
the placement of a genome adds exactly one, and a returning `ReassignSpecies`
keeps the count. -/
theorem tick_preserves_member_count (ops : SpeciesOps) (P : Parameters) (p : Population)
    (spins : List ℚ)
    (hne : ∀ t ∈ p.species, t.individuals ≠ [])
    (hev : 2 ≤ ((allMembers p.species).filter fun g => g.evaluated).length)
    (hg : p.genomes.length ≤ totalMembers p.species)
    (hfit : ∀ g ∈ allMembers p.species, g.fitness < 2 ^ 1023)
    (hc : P.DynamicCompatibility = true → P.CompatTreshChangeInterval_Evaluations ≠ 0)
    (hs1 : ∀ r ∈ spins, r ≤ 1) (hs2 : ∃ r ∈ spins, 0 < r)
    (hbaby : ∀ P1 q i, 0 < (ops.reproduceOne P1 q i).1.numInputs ∧
      0 < (ops.reproduceOne P1 q i).1.numOutputs) :
    (∃ res, tick ops P p spins = some res ∧
      totalMembers res.pop.species = totalMembers p.species) ∧
    (∀ w, removeWorstIndividual p = some w →
      totalMembers w.1.species + 1 = totalMembers p.species) ∧
    (∀ compat g nid,
      totalMembers (insertGenome compat g p.species nid).1 = totalMembers p.species + 1) ∧
    (∀ compat i p1, reassignSpecies compat p i = some p1 →
      totalMembers p1.species = totalMembers p.species) := by
  refine ⟨?_, ?_, ?_, ?_⟩
  · obtain ⟨res, h⟩ := tick_returns ops P p spins hc hg hne hev hfit hs1 hs2 hbaby
    exact ⟨res, h, tick_total ops P p _ res h⟩
  · intro w h
    obtain ⟨g, hp, _⟩ := (removeWorstIndividual_spec p).1 w h
    have := hp.length_eq
    simp only [totalMembers_eq_length, List.length_cons] at this ⊢
    omega
  · intro compat g nid
    have := (insertGenome_spec compat g p.species nid).1.length_eq
    simp only [totalMembers_eq_length, this, List.length_append, List.length_singleton]
  · intro compat i p1 h
    have := ((reassignSpecies_spec compat p i).1 p1 h).1.length_eq
    simp only [totalMembers_eq_length, this]

theorem tick_preserves_member_count_witness :
    ∃ res, tick exOps exParamsPair exPopPair [1] = some res ∧
      totalMembers res.pop.species = totalMembers exPopPair.species :=
  (tick_preserves_member_count exOps exParamsPair exPopPair [1]
    (by decide) (by decide) (by decide)
    (by
      intro g hg
      have : g = exGenome 0 2 ∨ g = exGenome 1 1 := by
        simpa [allMembers, exPopPair] using hg
      rcases this with rfl | rfl <;> decide!)
    (by decide) (by simp) (by simp)
    (fun _ _ _ => ⟨Nat.one_pos, Nat.one_pos⟩)).1

/-! ## What Epoch leaves of the phased-search state -/

theorem epochCompat_frame (P P1 : Parameters) (p : Population) (h : epochCompat P p = some P1) :
    P1 = { P with CompatTreshold := P1.CompatTreshold } := by
  unfold epochCompat at h
  split at h
  · split at h
    · simp at h
    · simp only [Option.some.injEq] at h
      subst h
      repeat' split
      all_goals rfl
  · simp only [Option.some.injEq] at h
    subst h
    rfl

theorem epochScan_frame (P : Parameters) (p p1 : Population) (h : epochScan P p = some p1) :
    p1 = { p with species := p1.species, bestFitnessEver := p1.bestFitnessEver,
                  bestGenomeEver := p1.bestGenomeEver,
                  gensSinceBestFitnessLastChanged := p1.gensSinceBestFitnessLastChanged } := by
  unfold epochScan at h
  simp only [Option.map_eq_some'] at h
  obtain ⟨r, _, rfl⟩ := h
  rfl

theorem epochDeltaCoding_frame (P : Parameters) (p : Population) :
    epochDeltaCoding P p
      = { p with species := (epochDeltaCoding P p).species,
                 gensSinceBestFitnessLastChanged :=
                   (epochDeltaCoding P p).gensSinceBestFitnessLastChanged } := by
  unfold epochDeltaCoding
  split
  · split
    · split <;> rfl
    · rfl
  · rfl

theorem epochReproduceLoop_frame (ops : SpeciesOps) (P : Parameters) (n i : Nat)
    (p : Population) :
    epochReproduceLoop ops P n i p
      = { p with tempSpecies := (epochReproduceLoop ops P n i p).tempSpecies,
                 nextGenomeID := (epochReproduceLoop ops P n i p).nextGenomeID } := by
  induction n generalizing i p with
  | zero => rfl
  | succ n ih =>
    simp only [epochReproduceLoop]
    rw [ih]

theorem epochReproduce_frame (ops : SpeciesOps) (P : Parameters) (p : Population) :
    epochReproduce ops P p
      = { p with species := (epochReproduce ops P p).species,
                 tempSpecies := (epochReproduce ops P p).tempSpecies,
                 nextGenomeID := (epochReproduce ops P p).nextGenomeID } := by
  simp only [epochReproduce]
  rw [epochReproduceLoop_frame]

/-- The phased-search state at the end of `Epoch` is the one the phased-search
step produces from the state `q` that precedes `CalculateMPC`; `q` carries the
phased-search fields and the genome list of the population `Epoch` started
from, and the parameters differ from the initial ones in the compatibility
threshold only. -/
theorem epoch_phased_frame (ops : SpeciesOps) (P : Parameters) (p : Population)
    (r : Parameters × Population) (h : epoch ops P p = some r) :
    ∃ q : Population,
      q.searchMode = p.searchMode ∧ q.baseMPC = p.baseMPC ∧ q.oldMPC = p.oldMPC ∧
      q.gensSinceMPCLastChanged = p.gensSinceMPCLastChanged ∧ q.genomes = p.genomes ∧
      r.1 = { P with CompatTreshold := r.1.CompatTreshold } ∧
      r.2.searchMode = (epochPhased r.1 (calculateMPC q)).searchMode ∧
      r.2.baseMPC = (epochPhased r.1 (calculateMPC q)).baseMPC ∧
      r.2.oldMPC = (epochPhased r.1 (calculateMPC q)).oldMPC ∧
      r.2.gensSinceMPCLastChanged
        = (epochPhased r.1 (calculateMPC q)).gensSinceMPCLastChanged ∧
      r.2.currentMPC = (calculateMPC q).currentMPC ∧
      r.2.generation = p.generation + 1 := by
  simp only [epoch, bind, Option.bind_eq_some, pure, Option.some.injEq] at h
  obtain ⟨p1, h1, p2, h2, p3, h3, p4, h4, p5, h5, P1, h6, sp2, h7, sp3, h8, rfl⟩ := h
  have e1 := sort_frame _ _ h1
  have e2 := updateSpecies_frame _ _ h2
  have e3 := adjustFitness_frame _ _ _ _ h3
  have e4 := countOffspring_frame _ _ _ h4
  have e5 := epochScan_frame _ _ _ h5
  have e6 := epochCompat_frame _ _ _ h6
  have e7 := epochDeltaCoding_frame P1 (epochCurrentBest p5)
  refine ⟨epochDeltaCoding P1 (epochCurrentBest p5), ?_, ?_, ?_, ?_, ?_, e6, ?_, ?_, ?_, ?_,
    ?_, ?_⟩
  · rw [e7]; show p5.searchMode = _; rw [e5, e4, e3, e2, e1]
  · rw [e7]; show p5.baseMPC = _; rw [e5, e4, e3, e2, e1]
  · rw [e7]; show p5.oldMPC = _; rw [e5, e4, e3, e2, e1]
  · rw [e7]; show p5.gensSinceMPCLastChanged = _; rw [e5, e4, e3, e2, e1]
  · rw [e7]; show p5.genomes = _; rw [e5, e4, e3, e2, e1]
  · show (epochReproduce ops P1 _).searchMode = _
    rw [epochReproduce_frame]
  · show (epochReproduce ops P1 _).baseMPC = _
    rw [epochReproduce_frame]
  · show (epochReproduce ops P1 _).oldMPC = _
    rw [epochReproduce_frame]
  · show (epochReproduce ops P1 _).gensSinceMPCLastChanged = _
    rw [epochReproduce_frame]
  · show (epochReproduce ops P1 _).currentMPC = _
    rw [epochReproduce_frame]
    show (epochPhased P1 _).currentMPC = _
    unfold epochPhased
    dsimp only
    repeat' split
    all_goals rfl
  · show (epochReproduce ops P1 _).generation + 1 = _
    rw [epochReproduce_frame]
    show (epochPhased P1 (calculateMPC (epochDeltaCoding P1 (epochCurrentBest p5)))).generation
      + 1 = _
    have hg : ∀ q : Population, (epochPhased P1 q).generation = q.generation := by
      intro q
      unfold epochPhased
      dsimp only
      repeat' split
      all_goals rfl
    rw [hg]
    show (epochDeltaCoding P1 (epochCurrentBest p5)).generation + 1 = _
    rw [e7]
    show p5.generation + 1 = _
    rw [e5, e4, e3, e2, e1]

/-! ## Tick with a single evaluated member -/

theorem chooseLoop_all_zero (sp : List Species) (h : ∀ s ∈ sp, s.averageFitness = 0)
    (spins : List ℚ) : ∀ cur, chooseLoop sp 0 spins cur = none := by
  induction spins with
  | nil => intro cur; rfl
  | cons r rs ih =>
    intro cur
    simp only [chooseLoop]
    split
    · rename_i hcur
      have h0 : (sp.get ⟨cur, hcur⟩).averageFitness = 0 := h _ (List.get_mem _ _ _)
      have hw : chooseWalk sp (r * 0) 0 (sp.get ⟨cur, hcur⟩).averageFitness = some 0 := by
        rw [chooseWalk, h0]
        simp
      rw [hw]
      have hpos : 0 < sp.length := by omega
      simp only [hpos, dite_true]
      rw [if_pos (h _ (List.get_mem _ _ _))]
      exact ih 0
    · rfl

theorem chooseParentSpecies_all_zero (sp : List Species)
    (h : ∀ s ∈ sp, s.averageFitness = 0) (spins : List ℚ) :
    chooseParentSpecies sp spins = none := by
  unfold chooseParentSpecies
  split
  · have : sp.foldl (fun t s => t + s.averageFitness) 0 = 0 := by
      rw [foldl_add_averageFitness]
      have : (sp.map fun s => s.averageFitness) = sp.map fun _ => (0 : ℚ) :=
        List.map_congr_left h
      rw [this]
      simp
    rw [this]
    exact chooseLoop_all_zero sp h spins 0
  · rfl

/-- A population with two members in one species, one of them evaluated:
`Tick` does not return, whatever `ReproduceOne` does and whatever values
`RandFloat()` yields.  `RemoveWorstIndividual` deletes the evaluated member,
every average fitness is then 0, and the `do ... while` loop of
`ChooseParentSpecies` picks species 0 again and again. -/
theorem tick_single_evaluated_never_returns :
    2 ≤ totalMembers exPopOneEvaluated.species ∧
    (∀ s ∈ exPopOneEvaluated.species, s.individuals ≠ []) ∧
    (∃ g ∈ allMembers exPopOneEvaluated.species, g.evaluated = true) ∧
    ∀ (ops : SpeciesOps) (spins : List ℚ),
      tick ops exParamsPair exPopOneEvaluated spins = none := by
  refine ⟨by decide, by decide, ⟨exGenome 0 2, by decide, rfl⟩, ?_⟩
  intro ops spins
  have hc : tickCompat exParamsPair (tickScan exParamsPair exPopOneEvaluated)
      = some (exParamsPair, false) := by decide!
  have h3 : tickReassign ops (exParamsPair, false)
      (tickScan exParamsPair exPopOneEvaluated)
      = some (tickScan exParamsPair exPopOneEvaluated) := rfl
  have hw : ((sort (tickScan exParamsPair exPopOneEvaluated)).bind
      removeWorstIndividual).map (fun w =>
        (w.1.species.map Species.calculateAverageFitness).map fun s => s.averageFitness)
      = some [0] := by decide!
  cases ht : tick ops exParamsPair exPopOneEvaluated spins with
  | none => rfl
  | some res =>
    exfalso
    simp only [tick, hc, Option.some_bind, h3, Option.bind_eq_some] at ht
    obtain ⟨p4, h4, w, h5, parent, h6, _⟩ := ht
    simp only [h4, Option.some_bind, h5, Option.map_some', Option.some.injEq] at hw
    have hz : ∀ s ∈ w.1.species.map Species.calculateAverageFitness,
        s.averageFitness = 0 := by
      intro s hs
      have : s.averageFitness ∈
          (w.1.species.map Species.calculateAverageFitness).map fun s => s.averageFitness :=
        List.mem_map.2 ⟨s, hs, rfl⟩
      rw [hw] at this
      simpa using this
    rw [chooseParentSpecies_all_zero _ hz spins] at h6
    simp at h6

/-! ## The empty-species clean-up of Epoch -/

theorem epochRemoveEmpty_eq (n : Nat) : ∀ (i : Nat) (sp : List Species), sp.length - i ≤ n →
    epochRemoveEmpty i sp
      = sp.take i ++ (sp.drop i).filter fun s => decide (s.individuals ≠ []) := by
  induction n with
  | zero =>
    intro i sp h
    rw [epochRemoveEmpty]
    have hi : ¬ i < sp.length := by omega
    rw [dif_neg hi, List.take_of_length_le (by omega), List.drop_eq_nil_of_le (by omega)]
    simp
  | succ n ih =>
    intro i sp h
    rw [epochRemoveEmpty]
    by_cases hi : i < sp.length
    · rw [dif_pos hi]
      have hdrop : sp.drop i = sp[i] :: sp.drop (i + 1) := List.drop_eq_getElem_cons hi
      by_cases he : (sp.get ⟨i, hi⟩).individuals.length = 0
      · rw [if_pos he]
        have hlen : (sp.eraseIdx i).length = sp.length - 1 := by
          rw [List.length_eraseIdx]; simp [hi]
        rw [ih i (sp.eraseIdx i) (by omega)]
        have he2 : sp[i].individuals = [] := List.length_eq_zero.1 he
        rw [hdrop, List.filter_cons_of_neg (by simp [he2])]
        rw [List.eraseIdx_eq_take_drop_succ]
        have hi2 : i ≤ sp.length := by omega
        rw [List.take_append_of_le_length (by simp [List.length_take]; omega),
          List.take_take, Nat.min_self]
        rw [List.drop_append_of_le_length (by simp [List.length_take]; omega)]
        have : List.drop i (List.take i sp) = [] :=
          List.drop_eq_nil_of_le (by simp [List.length_take])
        rw [this, List.nil_append]
      · rw [if_neg he]
        rw [ih (i + 1) sp (by omega)]
        have he2 : sp[i].individuals ≠ [] := fun h0 => he (by simp [h0])
        have ht : sp.take (i + 1) = sp.take i ++ [sp[i]] := by
          rw [List.take_succ, List.getElem?_eq_getElem hi]
          rfl
        rw [hdrop, List.filter_cons_of_pos (by simp [he2]), ht, List.append_assoc]
        rfl
    · rw [dif_neg hi, List.take_of_length_le (by omega), List.drop_eq_nil_of_le (by omega)]
      simp

theorem epochSetRepresentatives_isSome (sp : List Species) (h : ∀ s ∈ sp, s.individuals ≠ []) :
    ∃ sp1, epochSetRepresentatives sp = some sp1 ∧
      sp1.map (fun s => s.individuals) = sp.map (fun s => s.individuals) ∧
      ∀ s ∈ sp1, s.individuals.head? = some s.representative := by
  induction sp with
  | nil => exact ⟨[], rfl, rfl, by simp⟩
  | cons a l ih =>
    obtain ⟨l1, h1, h2, h3⟩ := ih fun s hs => h s (by simp [hs])
    cases ha : a.individuals with
    | nil => exact absurd ha (h a (by simp))
    | cons g tl =>
      refine ⟨a.setRepresentative g :: l1, ?_, ?_, ?_⟩
      · simp [epochSetRepresentatives, ha, h1]
      · simp [Species.setRepresentative, h2]
      · intro s hs
        rcases List.mem_cons.1 hs with rfl | hs
        · simp [Species.setRepresentative, ha]
        · exact h3 s hs

/-- C20: the empty-species clean-up of `Epoch` returns exactly the input list
without its zero-member species, the others in their original order, for
every input list (empty species at index 0 and runs of empty species
included).  So every surviving species has a member at index 0, and the loop
that makes `m_Individuals[0]` the representative succeeds on the result. -/
theorem epochRemoveEmpty_filters (sp : List Species) :
    epochRemoveEmpty 0 sp = sp.filter (fun s => decide (s.individuals ≠ [])) ∧
    (∀ s ∈ epochRemoveEmpty 0 sp, s.individuals ≠ []) ∧
    ∃ sp1, epochSetRepresentatives (epochRemoveEmpty 0 sp) = some sp1 ∧
      sp1.map (fun s => s.individuals) = (epochRemoveEmpty 0 sp).map (fun s => s.individuals) ∧
      ∀ s ∈ sp1, s.individuals.head? = some s.representative := by
  have h1 : epochRemoveEmpty 0 sp = sp.filter (fun s => decide (s.individuals ≠ [])) := by
    rw [epochRemoveEmpty_eq _ 0 sp (le_refl _)]
    simp
  have h2 : ∀ s ∈ epochRemoveEmpty 0 sp, s.individuals ≠ [] := by
    intro s hs
    rw [h1] at hs
    simpa using (List.mem_filter.1 hs).2
  exact ⟨h1, h2, epochSetRepresentatives_isSome _ h2⟩

/-! ## Delta coding -/

/-- C12: the delta-coding step of `Epoch` is applied exactly if `DeltaCoding` is
on, the stagnation counter (as the increment and the scan left it) is
`> SpeciesDropoffAge + 10` and there are more than two species.  When applied,
species 0 and 1 get `offspring_required = PopulationSize / 2` (integer
division) and `ResetAge`, every other species gets `offspring_required = 0`,
and the counter becomes 0; when not applied, the step changes nothing. -/
theorem epochDeltaCoding_applied_iff (P : Parameters) (p : Population) :
    ((P.DeltaCoding = true ∧ p.gensSinceBestFitnessLastChanged > P.SpeciesDropoffAge + 10 ∧
        p.species.length > 2) →
      ∃ s0 s1 rest, p.species = s0 :: s1 :: rest ∧
        epochDeltaCoding P p =
          { p with
            species :=
              ((s0.setOffspringRqd ((P.PopulationSize / 2 : Nat) : Int)).resetAge) ::
              ((s1.setOffspringRqd ((P.PopulationSize / 2 : Nat) : Int)).resetAge) ::
              rest.map (fun s => s.setOffspringRqd 0),
            gensSinceBestFitnessLastChanged := 0 }) ∧
    (¬ (P.DeltaCoding = true ∧
        p.gensSinceBestFitnessLastChanged > P.SpeciesDropoffAge + 10 ∧
        p.species.length > 2) →
      epochDeltaCoding P p = p) := by
  constructor
  · rintro ⟨h1, h2, h3⟩
    rcases hs : p.species with _ | ⟨s0, _ | ⟨s1, _ | ⟨s2, rest⟩⟩⟩
    · rw [hs] at h3; simp at h3
    · rw [hs] at h3; simp at h3
    · rw [hs] at h3; simp at h3
    · refine ⟨s0, s1, s2 :: rest, rfl, ?_⟩
      simp only [epochDeltaCoding, h1, if_true, h2, hs, deltaCodingRest]
  · intro h
    unfold epochDeltaCoding
    by_cases h1 : P.DeltaCoding = true
    · rw [if_pos h1]
      by_cases h2 : p.gensSinceBestFitnessLastChanged > P.SpeciesDropoffAge + 10
      · rw [if_pos h2]
        have h3 : ¬ p.species.length > 2 := fun h3 => h ⟨h1, h2, h3⟩
        rcases hs : p.species with _ | ⟨s0, _ | ⟨s1, _ | ⟨s2, rest⟩⟩⟩
        · rfl
        · rfl
        · rfl
        · rw [hs] at h3
          simp at h3
      · rw [if_neg h2]
    · rw [if_neg h1]

theorem epochDeltaCoding_applied_iff_witness :
    (exDeltaParams.DeltaCoding = true ∧
      (exPopStagnant 11).gensSinceBestFitnessLastChanged > exDeltaParams.SpeciesDropoffAge + 10 ∧
      (exPopStagnant 11).species.length > 2) ∧
    ((epochDeltaCoding exDeltaParams (exPopStagnant 11)).species.map fun s => s.offspringRqd)
      = [1, 1, 0] ∧
    (epochDeltaCoding exDeltaParams (exPopStagnant 11)).gensSinceBestFitnessLastChanged = 0 := by
  have hc : exDeltaParams.DeltaCoding = true ∧
      (exPopStagnant 11).gensSinceBestFitnessLastChanged > exDeltaParams.SpeciesDropoffAge + 10 ∧
      (exPopStagnant 11).species.length > 2 := by decide
  obtain ⟨s0, s1, rest, hs, he⟩ :=
    (epochDeltaCoding_applied_iff exDeltaParams (exPopStagnant 11)).1 hc
  refine ⟨hc, ?_, ?_⟩
  · rw [he]
    have : (exPopStagnant 11).species.length = 3 := rfl
    rw [hs] at this
    rcases rest with _ | ⟨s2, _ | _⟩
    · simp at this
    · rfl
    · simp at this
  · rw [he]

/-! ## The compatibility threshold in Epoch -/

theorem epochCompat_value (P : Parameters) (p : Population)
    (hd : P.DynamicCompatibility = true) (hi : 0 < P.CompatTreshChangeInterval_Generations) :
    epochCompat P p = some { P with CompatTreshold := (
      if p.generation % P.CompatTreshChangeInterval_Generations = 0 ∧
          p.species.length > P.MaxSpecies then
        max (P.CompatTreshold + P.CompatTresholdModifier) P.MinCompatTreshold
      else if p.generation % P.CompatTreshChangeInterval_Generations = 0 ∧
          p.species.length < P.MinSpecies then
        max (P.CompatTreshold - P.CompatTresholdModifier) P.MinCompatTreshold
      else max P.CompatTreshold P.MinCompatTreshold) } := by
  have hmax : ∀ x y : ℚ, (if x < y then y else x) = max x y := by
    intro x y
    rcases lt_or_le x y with h | h
    · rw [if_pos h, max_eq_right (le_of_lt h)]
    · rw [if_neg (not_lt.2 h), max_eq_left h]
  have hi0 : ¬ P.CompatTreshChangeInterval_Generations = 0 := by omega
  unfold epochCompat
  rw [if_pos hd, if_neg hi0]
  dsimp only
  by_cases hm : p.generation % P.CompatTreshChangeInterval_Generations = 0
  · by_cases h1 : p.species.length > P.MaxSpecies
    · simp only [hm, h1, if_true, true_and]
      rw [← hmax]
      split <;> rfl
    · by_cases h2 : p.species.length < P.MinSpecies
      · simp only [hm, h1, h2, if_true, if_false, true_and]
        rw [← hmax]
        split <;> rfl
      · simp only [hm, h1, h2, if_true, if_false, true_and]
        rw [← hmax]
        split <;> rfl
  · simp only [hm, if_false, false_and]
    rw [← hmax]
    split <;> rfl

theorem updateSpecies_length (p p1 : Population) (h : updateSpecies p = some p1) :
    p1.species.length = p.species.length := by
  rw [updateSpecies] at h
  dsimp only at h
  generalize (if 0 < p.generation then findOldBest p.species 0 (-1, -1) else (-1, -1)) = old at h
  by_cases c1 : 0 < p.generation ∧ (old.1 = -1 ∨ old.2 = -1)
  · rw [if_pos c1] at h
    simp at h
  · rw [if_neg c1] at h
    split at h
    · simp only [Option.map_eq_some'] at h
      obtain ⟨sp1, hm, rfl⟩ := h
      unfold modifyAt at hm
      split at hm
      · simp only [Option.some.injEq] at hm
        subst hm
        simp [updateSpeciesMark_length]
      · simp at hm
    · simp only [Option.some.injEq] at h
      subst h
      simp [updateSpeciesMark_length]

theorem countOffspring_length (P : Parameters) (p p1 : Population)
    (h : countOffspring P p = some p1) : p1.species.length = p.species.length := by
  unfold countOffspring at h
  split at h
  · dsimp only at h
    split at h
    · simp only [Option.some.injEq] at h
      subst h
      simp
    · simp at h
  · simp at h

theorem epochScanSpecies_length (delta : ℚ) (sp sp1 : List Species) (st st1 : ScanState)
    (h : epochScanSpecies delta sp st = some (sp1, st1)) : sp1.length = sp.length := by
  induction sp generalizing st sp1 st1 with
  | nil =>
    simp [epochScanSpecies] at h
    simp [h.1]
  | cons s sp ih =>
    simp only [epochScanSpecies] at h
    cases hl : s.getLeader with
    | none => simp [hl] at h
    | some leader =>
      simp only [hl, Option.map_eq_some'] at h
      obtain ⟨⟨sp2, st2⟩, h2, h3⟩ := h
      simp only [Prod.mk.injEq] at h3
      obtain ⟨h3, _⟩ := h3
      subst h3
      simp [ih _ _ _ h2]

theorem epochScan_length (P : Parameters) (p p1 : Population) (h : epochScan P p = some p1) :
    p1.species.length = p.species.length := by
  unfold epochScan at h
  simp only [Option.map_eq_some'] at h
  obtain ⟨⟨sp1, st1⟩, h1, rfl⟩ := h
  exact epochScanSpecies_length _ _ _ _ _ h1

/-- The parameters `Epoch` returns are those its threshold update computes from
the generation number and the species count of the population it started
from. -/
theorem epoch_compat (ops : SpeciesOps) (P : Parameters) (p : Population)
    (r : Parameters × Population) (h : epoch ops P p = some r) :
    ∃ q : Population, q.generation = p.generation ∧ q.species.length = p.species.length ∧
      epochCompat P q = some r.1 := by
  simp only [epoch, bind, Option.bind_eq_some, pure, Option.some.injEq] at h
  obtain ⟨p1, h1, p2, h2, p3, h3, p4, h4, p5, h5, P1, h6, sp2, h7, sp3, h8, rfl⟩ := h
  have e1 := sort_frame _ _ h1
  have e2 := updateSpecies_frame _ _ h2
  have e3 := adjustFitness_frame _ _ _ _ h3
  have e4 := countOffspring_frame _ _ _ h4
  have e5 := epochScan_frame _ _ _ h5
  refine ⟨epochCurrentBest p5, ?_, ?_, h6⟩
  · show p5.generation = _
    rw [e5, e4, e3, e2, e1]
  · show p5.species.length = _
    rw [epochScan_length _ _ _ h5, countOffspring_length _ _ _ h4, e3]
    simp only [List.length_map]
    rw [updateSpecies_length _ _ h2, e1]
    simp [sortSpecies, List.length_insertionSort]

/-- C14: in `Epoch` with `DynamicCompatibility` on and a positive interval,
`CompatTreshold` becomes `max(old + modifier, min)` if the generation is a
multiple of the interval and there are more than `MaxSpecies` species,
`max(old - modifier, min)` if it is a multiple and there are fewer than
`MinSpecies`, and `max(old, min)` otherwise; no other parameter changes.  With
`DynamicCompatibility` off `Epoch` leaves the parameters as they are. -/
theorem epoch_compat_threshold (ops : SpeciesOps) (P : Parameters) (p : Population)
    (r : Parameters × Population) (h : epoch ops P p = some r) :
    (P.DynamicCompatibility = true → 0 < P.CompatTreshChangeInterval_Generations →
      r.1 = { P with CompatTreshold := (
        if p.generation % P.CompatTreshChangeInterval_Generations = 0 ∧
            p.species.length > P.MaxSpecies then
          max (P.CompatTreshold + P.CompatTresholdModifier) P.MinCompatTreshold
        else if p.generation % P.CompatTreshChangeInterval_Generations = 0 ∧
            p.species.length < P.MinSpecies then
          max (P.CompatTreshold - P.CompatTresholdModifier) P.MinCompatTreshold
        else max P.CompatTreshold P.MinCompatTreshold) }) ∧
    (P.DynamicCompatibility = false → r.1 = P) := by
  obtain ⟨q, hg, hl, hq⟩ := epoch_compat ops P p r h
  constructor
  · intro hd hi
    rw [epochCompat_value P q hd hi, hg, hl] at hq
    simp only [Option.some.injEq] at hq
    exact hq.symm
  · intro hd
    simp only [epochCompat, hd, Bool.false_eq_true, if_false, Option.some.injEq] at hq
    exact hq.symm

theorem epoch_compat_threshold_witness :
    ∃ r, epoch exOps exCompatParams exPopPair = some r ∧
      r.1.CompatTreshold = 3 / 2 := by
  have h1 : (epoch exOps exCompatParams exPopPair).isSome = true := by decide!
  obtain ⟨r, hr⟩ := Option.isSome_iff_exists.1 h1
  refine ⟨r, hr, ?_⟩
  rw [(epoch_compat_threshold exOps exCompatParams exPopPair r hr).1 rfl (by decide)]
  decide!

/-! ## The search mode across Epoch -/

theorem epochPhased_modes (P : Parameters) (q : Population) :
    ((epochPhased P q).searchMode = q.searchMode ∨
      (q.searchMode = SearchMode.COMPLEXIFYING ∧
        (epochPhased P q).searchMode = SearchMode.SIMPLIFYING) ∨
      (q.searchMode = SearchMode.SIMPLIFYING ∧
        (epochPhased P q).searchMode = SearchMode.COMPLEXIFYING)) ∧
    (q.searchMode = SearchMode.BLENDED → epochPhased P q = q) ∧
    (P.PhasedSearching = false → epochPhased P q = q) ∧
    ((epochPhased P q).baseMPC ≠ q.baseMPC →
      q.searchMode = SearchMode.SIMPLIFYING ∧
      (epochPhased P q).searchMode = SearchMode.COMPLEXIFYING) ∧
    (q.searchMode = SearchMode.COMPLEXIFYING → P.PhasedSearching = true →
      q.currentMPC > q.baseMPC + P.SimplifyingPhaseMPCTreshold →
      q.gensSinceBestFitnessLastChanged > P.SimplifyingPhaseStagnationTreshold →
      (epochPhased P q).searchMode = SearchMode.SIMPLIFYING) := by
  by_cases hP : P.PhasedSearching = true
  · cases hm : q.searchMode with
    | BLENDED =>
      have : epochPhased P q = q := by simp [epochPhased, hP, hm]
      rw [this]
      simp [hm, hP]
    | COMPLEXIFYING =>
      by_cases c1 : q.currentMPC > q.baseMPC + P.SimplifyingPhaseMPCTreshold
      · by_cases c2 : q.gensSinceBestFitnessLastChanged
            > P.SimplifyingPhaseStagnationTreshold
        · have : epochPhased P q =
              { q with searchMode := SearchMode.SIMPLIFYING, gensSinceMPCLastChanged := 0,
                       oldMPC := 10000000, species := q.species.map Species.resetAge } := by
            simp [epochPhased, hP, hm, c1, c2]
          rw [this]
          simp [hP]
        · have : epochPhased P q = q := by simp [epochPhased, hP, hm, c1, c2]
          rw [this]
          simp [hm, hP, c2]
      · have : epochPhased P q = q := by simp [epochPhased, hP, hm, c1]
        rw [this]
        simp [hm, hP, c1]
    | SIMPLIFYING =>
      by_cases c1 : q.currentMPC < q.oldMPC
      · by_cases c2 : 0 > P.ComplexityFloorGenerations
        · omega
        · have : epochPhased P q =
              { q with gensSinceMPCLastChanged := 0, oldMPC := q.currentMPC } := by
            simp [epochPhased, hP, hm, c1, c2]
          rw [this]
          simp [hm, hP]
      · by_cases c2 : q.gensSinceMPCLastChanged + 1 > P.ComplexityFloorGenerations
        · have : epochPhased P q =
              { q with gensSinceMPCLastChanged := q.gensSinceMPCLastChanged + 1,
                       searchMode := SearchMode.COMPLEXIFYING, baseMPC := q.currentMPC,
                       species := q.species.map Species.resetAge } := by
            simp [epochPhased, hP, hm, c1, c2]
          rw [this]
          simp [hP]
        · have : epochPhased P q =
              { q with gensSinceMPCLastChanged := q.gensSinceMPCLastChanged + 1 } := by
            simp [epochPhased, hP, hm, c1, c2]
          rw [this]
          simp [hm, hP]
  · have : epochPhased P q = q := by simp [epochPhased, hP]
    rw [this]
    simp [hP]

/-- C11: across one `Epoch` the search mode either stays or goes from
COMPLEXIFYING to SIMPLIFYING or from SIMPLIFYING to COMPLEXIFYING, one
assignment at most (a step that enters SIMPLIFYING ends SIMPLIFYING, whatever
`ComplexityFloorGenerations` is); a BLENDED population stays BLENDED; with
`PhasedSearching` off the mode, `base_mpc`, `old_mpc` and
`gens_since_mpc_last_changed` are unchanged; and `base_mpc` changes only in an
`Epoch` whose mode goes from SIMPLIFYING to COMPLEXIFYING. -/
theorem epoch_search_mode_transitions (ops : SpeciesOps) (P : Parameters) (p : Population)
    (r : Parameters × Population) (h : epoch ops P p = some r) :
    (r.2.searchMode = p.searchMode ∨
      (p.searchMode = SearchMode.COMPLEXIFYING ∧ r.2.searchMode = SearchMode.SIMPLIFYING) ∨
      (p.searchMode = SearchMode.SIMPLIFYING ∧ r.2.searchMode = SearchMode.COMPLEXIFYING)) ∧
    (p.searchMode = SearchMode.BLENDED → r.2.searchMode = SearchMode.BLENDED) ∧
    (P.PhasedSearching = false →
      r.2.searchMode = p.searchMode ∧ r.2.baseMPC = p.baseMPC ∧ r.2.oldMPC = p.oldMPC ∧
      r.2.gensSinceMPCLastChanged = p.gensSinceMPCLastChanged) ∧
    (r.2.baseMPC ≠ p.baseMPC →
      p.searchMode = SearchMode.SIMPLIFYING ∧ r.2.searchMode = SearchMode.COMPLEXIFYING) ∧
    (∀ q : Population, q.searchMode = SearchMode.COMPLEXIFYING → P.PhasedSearching = true →
      q.currentMPC > q.baseMPC + P.SimplifyingPhaseMPCTreshold →
      q.gensSinceBestFitnessLastChanged > P.SimplifyingPhaseStagnationTreshold →
      (epochPhased P q).searchMode = SearchMode.SIMPLIFYING) := by
  obtain ⟨q, hm, hb, ho, hg, _, hP, e1, e2, e3, e4, _, _⟩ := epoch_phased_frame ops P p r h
  have hph : r.1.PhasedSearching = P.PhasedSearching := by rw [hP]
  have c1 : (calculateMPC q).searchMode = p.searchMode := hm
  have c2 : (calculateMPC q).baseMPC = p.baseMPC := hb
  have c3 : (calculateMPC q).oldMPC = p.oldMPC := ho
  have c4 : (calculateMPC q).gensSinceMPCLastChanged = p.gensSinceMPCLastChanged := hg
  obtain ⟨m1, m2, m3, m4, _⟩ := epochPhased_modes r.1 (calculateMPC q)
  rw [← e1, c1] at m1
  rw [← e1, ← e2, c1, c2] at m4
  refine ⟨m1, ?_, ?_, m4, fun q => (epochPhased_modes P q).2.2.2.2⟩
  · intro hbl
    rw [e1, m2 (c1.trans hbl)]
    exact c1.trans hbl
  · intro hoff
    have := m3 (hph.trans hoff)
    rw [e1, e2, e3, e4, this]
    exact ⟨c1, c2, c3, c4⟩

theorem epoch_search_mode_transitions_witness :
    ∃ r, epoch exOps exParamsPair exPopPair = some r ∧
      (exPopPair.searchMode = SearchMode.BLENDED → r.2.searchMode = SearchMode.BLENDED) := by
  have h1 : (epoch exOps exParamsPair exPopPair).isSome = true := by decide!
  obtain ⟨r, hr⟩ := Option.isSome_iff_exists.1 h1
  exact ⟨r, hr, (epoch_search_mode_transitions exOps exParamsPair exPopPair r hr).2.1⟩

/-! ## The threshold update of `Tick` against the one of `Epoch` -/

theorem tickCompat_eq_of_ok (P : Parameters) (pe pt : Population)
    (hint : P.CompatTreshChangeInterval_Generations = P.CompatTreshChangeInterval_Evaluations)
    (hpos : 0 < P.CompatTreshChangeInterval_Evaluations)
    (hc : pe.generation = pt.numEvaluations)
    (hs : pe.species.length = pt.species.length)
    (hok : P.MinCompatTreshold ≤ P.CompatTreshold ∨
      pt.numEvaluations % P.CompatTreshChangeInterval_Evaluations = 0) :
    (tickCompat P pt).map (fun r => r.1) = epochCompat P pe := by
  have hne : P.CompatTreshChangeInterval_Evaluations ≠ 0 := by omega
  unfold tickCompat epochCompat
  rw [hint, hc, hs]
  by_cases hd : P.DynamicCompatibility = true
  · simp only [hd, if_true, hne, if_false]
    by_cases hm : pt.numEvaluations % P.CompatTreshChangeInterval_Evaluations = 0
    · simp only [hm, if_true]
      by_cases h1 : pt.species.length > P.MaxSpecies
      · simp only [h1, if_true, Option.map_some']
      · by_cases h2 : pt.species.length < P.MinSpecies
        · simp only [h1, h2, if_true, if_false, Option.map_some']
        · rw [if_neg h1, if_neg h2, if_neg h1, if_neg h2]
          simp only [Option.map_some']
    · have h3 : ¬ P.CompatTreshold < P.MinCompatTreshold := by
        rcases hok with h | h
        · exact not_lt.2 h
        · exact absurd h hm
      simp [hm, h3]
  · simp [hd]

theorem tickCompat_ne_of_low (P : Parameters) (pe pt : Population)
    (hint : P.CompatTreshChangeInterval_Generations = P.CompatTreshChangeInterval_Evaluations)
    (hpos : 0 < P.CompatTreshChangeInterval_Evaluations)
    (hc : pe.generation = pt.numEvaluations)
    (hd : P.DynamicCompatibility = true)
    (hm : pt.numEvaluations % P.CompatTreshChangeInterval_Evaluations ≠ 0)
    (hlow : P.CompatTreshold < P.MinCompatTreshold) :
    epochCompat P pe = some { P with CompatTreshold := P.MinCompatTreshold } ∧
    tickCompat P pt = some (P, false) := by
  have hne : P.CompatTreshChangeInterval_Evaluations ≠ 0 := by omega
  constructor
  · have hm2 : pe.generation % P.CompatTreshChangeInterval_Generations ≠ 0 := by
      rw [hint, hc]; exact hm
    have hne2 : P.CompatTreshChangeInterval_Generations ≠ 0 := by rw [hint]; exact hne
    unfold epochCompat
    simp only [hd, if_true, hne2, if_false, hm2, hlow]
  · unfold tickCompat
    simp only [hd, if_true, hne, if_false, hm]

/-- C15: the threshold update of `Tick` does not apply the same logic as the
one of `Epoch`: `Epoch` clamps to `MinCompatTreshold` after the interval test,
on every call, `Tick` inside it.  For the same positive interval, the same
counter value and the same number of species: with `DynamicCompatibility` off
both leave the parameters as they are; with it on, the two updates give the
same parameters if the counter is a multiple of the interval or the threshold
is not below `MinCompatTreshold` on entry; with it on, the counter not a
multiple and the threshold below `MinCompatTreshold`, `Epoch` raises the
threshold to `MinCompatTreshold` and `Tick` leaves it where it is, so the two
results differ. -/
theorem tickCompat_vs_epochCompat (P : Parameters) (pe pt : Population)
    (hint : P.CompatTreshChangeInterval_Generations = P.CompatTreshChangeInterval_Evaluations)
    (hpos : 0 < P.CompatTreshChangeInterval_Evaluations)
    (hc : pe.generation = pt.numEvaluations)
    (hs : pe.species.length = pt.species.length) :
    (P.DynamicCompatibility = false →
      epochCompat P pe = some P ∧ tickCompat P pt = some (P, false)) ∧
    ((P.MinCompatTreshold ≤ P.CompatTreshold ∨
        pt.numEvaluations % P.CompatTreshChangeInterval_Evaluations = 0) →
      (tickCompat P pt).map (fun r => r.1) = epochCompat P pe) ∧
    (P.DynamicCompatibility = true →
      pt.numEvaluations % P.CompatTreshChangeInterval_Evaluations ≠ 0 →
      P.CompatTreshold < P.MinCompatTreshold →
      epochCompat P pe = some { P with CompatTreshold := P.MinCompatTreshold } ∧
      tickCompat P pt = some (P, false) ∧
      (tickCompat P pt).map (fun r => r.1.CompatTreshold) = some P.CompatTreshold ∧
      (epochCompat P pe).map (fun Q => Q.CompatTreshold) = some P.MinCompatTreshold ∧
      (tickCompat P pt).map (fun r => r.1.CompatTreshold)
        ≠ (epochCompat P pe).map fun Q => Q.CompatTreshold) := by
  refine ⟨?_, fun hok => tickCompat_eq_of_ok P pe pt hint hpos hc hs hok, ?_⟩
  · intro hd
    constructor
    · simp [epochCompat, hd]
    · simp [tickCompat, hd]
  · intro hd hm hlow
    obtain ⟨he, ht⟩ := tickCompat_ne_of_low P pe pt hint hpos hc hd hm hlow
    refine ⟨he, ht, by rw [ht]; rfl, by rw [he]; rfl, ?_⟩
    rw [ht, he]
    simp only [Option.map_some', ne_eq, Option.some.injEq]
    exact ne_of_lt hlow

theorem tickCompat_vs_epochCompat_witness :
    (tickCompat exClampParams exPopCounterOne).map (fun r => r.1.CompatTreshold) = some 1 ∧
    (epochCompat exClampParams exPopCounterOne).map (fun Q => Q.CompatTreshold) = some 2 ∧
    (tickCompat exCompatParams exPopCounterOne).map (fun r => r.1)
      = epochCompat exCompatParams exPopCounterOne := by
  obtain ⟨_, _, h3, h4, _⟩ := (tickCompat_vs_epochCompat exClampParams exPopCounterOne
    exPopCounterOne rfl (by decide) rfl rfl).2.2 rfl (by decide) (by decide!)
  exact ⟨h3, h4, (tickCompat_vs_epochCompat exCompatParams exPopCounterOne exPopCounterOne
    rfl (by decide) rfl rfl).2.1 (Or.inl (by decide!))⟩

/-! ## Empty species after `Speciate` -/

/-- C19: `Speciate` can leave a species with zero members in the species list.
On a species list that starts with two species without members which the one
genome does not join, the clean-up loop erases the first, steps past the
second (which has moved to the front) and ends: the result holds the second
empty species (id 2) next to the new species of the genome. -/
theorem speciate_leaves_empty_species :
    (speciate exCompatInputs exPopTwoEmpty).map
        (fun q => q.species.map fun s => (s.id, s.numMembers)) = some [(2, 0), (3, 1)] ∧
    ∃ q, speciate exCompatInputs exPopTwoEmpty = some q ∧
      ∃ s ∈ q.species, s.numMembers = 0 := by
  have h : (speciate exCompatInputs exPopTwoEmpty).map
      (fun q => q.species.map fun s => (s.id, s.numMembers)) = some [(2, 0), (3, 1)] := by
    decide!
  refine ⟨h, ?_⟩
  cases hq : speciate exCompatInputs exPopTwoEmpty with
  | none => rw [hq] at h; simp at h
  | some q =>
    rw [hq] at h
    simp only [Option.map_some', Option.some.injEq] at h
    refine ⟨q, rfl, ?_⟩
    match hs : q.species, h with
    | s :: _, h =>
      simp only [List.map_cons, List.cons.injEq, Prod.mk.injEq] at h
      exact ⟨s, List.mem_cons_self _ _, h.1.2⟩

/-! ## The reassignment loop of `Tick` -/

/-- C18: the loop `ReassignSpecies(i)` for `i = 0 .. N-1` does not reassign
every genome exactly once.  With one species holding the members 0, 1, 2 and
every pair compatible, each call moves the genome it picks to the end of the
species, so the three calls pick the genomes 0, 2 and 2: genome 1 is never
reassigned and genome 2 twice; the species ends as 1, 0, 2. -/
theorem reassignAll_skips_a_genome :
    reassignPicked (fun _ _ => true) exPopTriple.genomes.length 0 exPopTriple
      = some [0, 2, 2] ∧
    (reassignAll (fun _ _ => true) exPopTriple.genomes.length 0 exPopTriple).map
        (fun q => q.species.map fun s => s.individuals.map fun g => g.id)
      = some [[1, 0, 2]] := by
  decide!

/-! ## The stagnation counter across consecutive Epochs -/

theorem updateSpeciesMark_individuals (best : ℚ) (sp : List Species) (m : Bool) (nid : Int) :
    (updateSpeciesMark best sp m nid).1.map (fun s => s.individuals)
      = sp.map (fun s => s.individuals) := by
  induction sp generalizing m nid with
  | nil => simp [updateSpeciesMark]
  | cons s sp ih =>
    simp only [updateSpeciesMark]
    split
    · simp only [List.map_cons, ih]
      rfl
    · simp only [List.map_cons, ih]
      rfl

theorem modifyAt_resetAge_individuals (sp sp1 : List Species) (j : Nat)
    (h : modifyAt sp j Species.resetAge = some sp1) :
    sp1.map (fun s => s.individuals) = sp.map (fun s => s.individuals) := by
  unfold modifyAt at h
  split at h
  · rename_i hj
    simp only [Option.some.injEq] at h
    subst h
    apply List.ext_getElem?
    intro i
    simp only [List.getElem?_map, List.getElem?_set]
    by_cases hij : j = i
    · subst hij
      simp [hj, Species.resetAge]
    · simp [hij]
  · simp at h

theorem updateSpecies_allMembers (p p1 : Population) (h : updateSpecies p = some p1) :
    allMembers p1.species = allMembers p.species := by
  apply allMembers_eq_of_individuals
  have hc : (updateSpeciesMark p.bestFitnessEver (p.species.map fun s => s.setBestSpecies false)
      false (-1)).1.map (fun s => s.individuals) = p.species.map (fun s => s.individuals) := by
    rw [updateSpeciesMark_individuals, List.map_map]
    rfl
  rw [updateSpecies] at h
  dsimp only at h
  generalize (if 0 < p.generation then findOldBest p.species 0 (-1, -1) else (-1, -1)) = old at h
  by_cases c1 : 0 < p.generation ∧ (old.1 = -1 ∨ old.2 = -1)
  · rw [if_pos c1] at h
    simp at h
  · rw [if_neg c1] at h
    split at h
    · simp only [Option.map_eq_some'] at h
      obtain ⟨sp1, hm, rfl⟩ := h
      rw [modifyAt_resetAge_individuals _ _ _ hm, hc]
    · simp only [Option.some.injEq] at h
      subst h
      exact hc

theorem allMembers_map_fitness (f : Species → Species) (sp : List Species)
    (hf : ∀ s, (f s).individuals.map (fun g => g.fitness)
      = s.individuals.map fun g => g.fitness) :
    (allMembers (sp.map f)).map (fun g => g.fitness)
      = (allMembers sp).map fun g => g.fitness := by
  induction sp with
  | nil => rfl
  | cons s sp ih =>
    simp only [List.map_cons, allMembers_cons, List.map_append, ih, hf]

theorem countOffspring_fitness (P : Parameters) (p p1 : Population)
    (h : countOffspring P p = some p1) :
    (allMembers p1.species).map (fun g => g.fitness)
      = (allMembers p.species).map fun g => g.fitness := by
  unfold countOffspring at h
  split at h
  · dsimp only at h
    split at h
    · simp only [Option.some.injEq] at h
      subst h
      show (allMembers ((p.species.map (Species.assignOffspring _)).map
        Species.countOffspring)).map _ = _
      rw [allMembers_assignOffspring, List.map_map]
      rfl
    · simp at h
  · simp at h

theorem worstState_good_step (sp : List Species) (i j : Nat) (s : Species) (a : Genome)
    (st : WorstState) (hs : sp[i]? = some s) (ha : s.individuals[j]? = some a)
    (hg : st.Good sp i j) :
    WorstState.Good sp i (j + 1)
      (if doubleDiv a.fitness (s.individuals.length : ℚ) < st.worstFitness ∧ a.evaluated = true then
        { worstIdx := j, worstSpecies := i,
          worstFitness := doubleDiv a.fitness (s.individuals.length : ℚ), genome := a }
       else st) := by
  obtain ⟨g1, g2, g3⟩ := hg
  by_cases hc : doubleDiv a.fitness (s.individuals.length : ℚ) < st.worstFitness ∧ a.evaluated = true
  · rw [if_pos hc]
    refine ⟨?_, ?_, ?_⟩
    · intro i1 j1 t h hpos ht hh hev
      show doubleDiv a.fitness (s.individuals.length : ℚ) ≤ _ ∧
        (_ = doubleDiv a.fitness (s.individuals.length : ℚ) → _ → i < i1 ∨ (i = i1 ∧ j ≤ j1))
      by_cases hcur : i1 = i ∧ j1 = j
      · obtain ⟨e1, e2⟩ := hcur
        subst e1
        subst e2
        rw [hs] at ht
        cases ht
        rw [ha] at hh
        cases hh
        exact ⟨le_refl _, fun _ _ => Or.inr ⟨rfl, le_refl _⟩⟩
      · have hpos2 : i1 < i ∨ (i1 = i ∧ j1 < j) := by omega
        obtain ⟨b1, _⟩ := g1 i1 j1 t h hpos2 ht hh hev
        have hlt : doubleDiv a.fitness (s.individuals.length : ℚ)
            < doubleDiv h.fitness (t.individuals.length : ℚ) := lt_of_lt_of_le hc.1 b1
        exact ⟨le_of_lt hlt, fun e => absurd e (ne_of_gt hlt)⟩
    · intro _
      exact ⟨Or.inr ⟨rfl, Nat.lt_succ_self j⟩, s, a, hs, ha, hc.2, rfl, rfl⟩
    · exact le_of_lt (lt_of_lt_of_le hc.1 g3)
  · rw [if_neg hc]
    refine ⟨?_, ?_, g3⟩
    · intro i1 j1 t h hpos ht hh hev
      by_cases hcur : i1 = i ∧ j1 = j
      · obtain ⟨e1, e2⟩ := hcur
        subst e1
        subst e2
        rw [hs] at ht
        cases ht
        rw [ha] at hh
        cases hh
        have hle : st.worstFitness ≤ doubleDiv a.fitness (s.individuals.length : ℚ) :=
          not_lt.1 (fun hlt => hc ⟨hlt, hev⟩)
        refine ⟨hle, fun _ hlt => ?_⟩
        obtain ⟨hp, _⟩ := g2 hlt
        omega
      · exact g1 i1 j1 t h (by omega) ht hh hev
    · intro hlt
      obtain ⟨hp, hrest⟩ := g2 hlt
      exact ⟨by omega, hrest⟩

theorem removeWorstMembers_good (sp : List Species) (i : Nat) (s : Species)
    (hs : sp[i]? = some s) (l : List Genome) :
    ∀ (j : Nat) (st : WorstState),
      (∀ k g, l[k]? = some g → s.individuals[j + k]? = some g) → st.Good sp i j →
      (removeWorstMembers s.individuals.length i l j st).Good sp i (j + l.length) := by
  induction l with
  | nil =>
    intro j st _ hg
    exact hg
  | cons a l ih =>
    intro j st hsuf hg
    have hsuf2 : ∀ k g, l[k]? = some g → s.individuals[j + 1 + k]? = some g := by
      intro k g hk
      have := hsuf (k + 1) g (by simpa using hk)
      rwa [show j + 1 + k = j + (k + 1) by omega]
    have ha : s.individuals[j]? = some a := by simpa using hsuf 0 a (by simp)
    simp only [removeWorstMembers, List.length_cons]
    rw [show j + (l.length + 1) = j + 1 + l.length by omega]
    exact ih (j + 1) _ hsuf2 (worstState_good_step sp i j s a st hs ha hg)

theorem removeWorstSpecies_good (sp : List Species) (rest : List Species) :
    ∀ (i : Nat) (st : WorstState),
      (∀ k s, rest[k]? = some s → sp[i + k]? = some s) → st.Good sp i 0 →
      (removeWorstSpecies rest i st).Good sp (i + rest.length) 0 := by
  induction rest with
  | nil =>
    intro i st _ hg
    exact hg
  | cons a rest ih =>
    intro i st hsuf hg
    have hsuf2 : ∀ k s, rest[k]? = some s → sp[i + 1 + k]? = some s := by
      intro k s hk
      have := hsuf (k + 1) s (by simpa using hk)
      rwa [show i + 1 + k = i + (k + 1) by omega]
    have ha : sp[i]? = some a := by simpa using hsuf 0 a (by simp)
    have hm := removeWorstMembers_good sp i a ha a.individuals 0 st
      (by intro k g hk; simpa using hk) hg
    simp only [removeWorstSpecies, List.length_cons]
    rw [show i + (rest.length + 1) = i + 1 + rest.length by omega]
    apply ih (i + 1) _ hsuf2
    obtain ⟨m1, m2, m3⟩ := hm
    refine ⟨?_, ?_, m3⟩
    · intro i1 j1 t h hpos ht hh hev
      apply m1 i1 j1 t h ?_ ht hh hev
      rcases hpos with hlt | ⟨_, hlt⟩
      · rcases Nat.lt_succ_iff_lt_or_eq.1 hlt with h1 | h1
        · exact Or.inl h1
        · subst h1
          rw [ha] at ht
          cases ht
          have : j1 < a.individuals.length := (List.getElem?_eq_some_iff.1 hh).1
          exact Or.inr ⟨rfl, by omega⟩
      · omega
    · intro hlt
      obtain ⟨hp, hrest⟩ := m2 hlt
      exact ⟨by omega, hrest⟩

/-- Two inputs on which `RemoveWorstIndividual` does not remove the evaluated
member that minimises fitness divided by member count.  (1) Species of three
members of fitness 1 and of one member whose fitness `d` is the `double`
nearest to 1/3: the exact quotients are 1/3, 1/3, 1/3 and `d < 1/3`, so member 3
is the only minimiser; the `double` division gives `d` four times, the strict
`<` keeps the first, and member 0 is removed, no species erased.  (2) A single
member with the fitness `DBL_MAX`: the search selects nobody (the record keeps
the index `(unsigned)-1` and the empty genome), and the removal at that index
fails. -/
theorem removeWorstIndividual_misses_minimiser :
    ((∀ g ∈ allMembers exPopThirds.species, g.evaluated = true) ∧
      (exPopThirds.species.map fun s => s.individuals.map fun g =>
          g.fitness / (s.individuals.length : ℚ))
        = [[1 / 3, 1 / 3, 1 / 3], [6004799503160661 / 2 ^ 54]] ∧
      (6004799503160661 / 2 ^ 54 : ℚ) < 1 / 3 ∧
      (exPopThirds.species.map fun s => s.individuals.map fun g =>
          doubleDiv g.fitness (s.individuals.length : ℚ))
        = [[6004799503160661 / 2 ^ 54, 6004799503160661 / 2 ^ 54,
            6004799503160661 / 2 ^ 54], [6004799503160661 / 2 ^ 54]] ∧
      (removeWorstIndividual exPopThirds).map
          (fun w => (w.2.id, w.1.species.map fun s => s.individuals.map fun g => g.id))
        = some (0, [[1, 2], [3]])) ∧
    ((∃ s ∈ exPopHuge.species, ∃ g ∈ s.individuals, g.evaluated = true) ∧
      removeWorstSpecies exPopHuge.species 0 {} = {} ∧
      removeWorstIndividual exPopHuge = none) := by
  decide!

/-- C16: for every population with an evaluated member whose adjusted fitness
is below `DBL_MAX`, the adjusted fitness being the fitness divided by the
member count of the species as the division of `double`s computes it (the
quotient rounded to the nearest `double`), `RemoveWorstIndividual` removes
exactly one member, at index `rel` of species `si`: an evaluated member that
minimises the adjusted fitness, and the first such in species-major order.  It
returns that member, erases the species if and only if the member was its only
one, and otherwise only erases the member from it: every other member and the
order of species and members stay as they were. -/
theorem removeWorstIndividual_removes_first_worst (p : Population)
    (hex : ∃ s ∈ p.species, ∃ g ∈ s.individuals, g.evaluated = true ∧
      doubleDiv g.fitness (s.individuals.length : ℚ) < DBL_MAX) :
    ∃ si rel s g, p.species[si]? = some s ∧ s.individuals[rel]? = some g ∧
      g.evaluated = true ∧
      (∀ i t j h, p.species[i]? = some t → t.individuals[j]? = some h → h.evaluated = true →
        doubleDiv g.fitness (s.individuals.length : ℚ) ≤ doubleDiv h.fitness (t.individuals.length : ℚ) ∧
        (doubleDiv h.fitness (t.individuals.length : ℚ) = doubleDiv g.fitness (s.individuals.length : ℚ) →
          si < i ∨ (si = i ∧ rel ≤ j))) ∧
      removeWorstIndividual p
        = some ({ p with species := (
                    if s.individuals.length = 1 then p.species.eraseIdx si
                    else p.species.set si
                      { s with individuals := s.individuals.eraseIdx rel }) },
                g) := by
  have hinit : WorstState.Good p.species 0 0 {} :=
    ⟨fun i1 j1 _ _ hpos => by omega, fun h => absurd h (lt_irrefl _), le_refl _⟩
  have hfin := removeWorstSpecies_good p.species p.species 0 {}
    (by intro k s hk; simpa using hk) hinit
  generalize hst : removeWorstSpecies p.species 0 {} = st at hfin
  obtain ⟨f1, f2, f3⟩ := hfin
  have hscan : ∀ i1 j1 t, p.species[i1]? = some t →
      (i1 < 0 + p.species.length ∨ (i1 = 0 + p.species.length ∧ j1 < 0)) := by
    intro i1 j1 t ht
    have : i1 < p.species.length := (List.getElem?_eq_some_iff.1 ht).1
    exact Or.inl (by omega)
  obtain ⟨s0, hs0, g0, hg0, hev0, hlt0⟩ := hex
  obtain ⟨i0, hi0⟩ := List.getElem?_of_mem hs0
  obtain ⟨j0, hj0⟩ := List.getElem?_of_mem hg0
  have hw : st.worstFitness < DBL_MAX :=
    lt_of_le_of_lt (f1 i0 j0 s0 g0 (hscan i0 j0 s0 hi0) hi0 hj0 hev0).1 hlt0
  obtain ⟨_, s, g, hs, hg, hev, hgen, hwf⟩ := f2 hw
  refine ⟨st.worstSpecies, st.worstIdx, s, g, hs, hg, hev, ?_, ?_⟩
  · intro i t j h ht hh hevh
    obtain ⟨a, b⟩ := f1 i j t h (hscan i j t ht) ht hh hevh
    rw [hwf] at a
    exact ⟨a, fun e => b (e.trans hwf.symm) hw⟩
  · obtain ⟨hsi, hsg⟩ := List.getElem?_eq_some_iff.1 hs
    obtain ⟨hrel, _⟩ := List.getElem?_eq_some_iff.1 hg
    have hlen : (s.individuals.eraseIdx st.worstIdx).length = s.individuals.length - 1 := by
      rw [List.length_eraseIdx]
      simp [hrel]
    simp only [removeWorstIndividual, hst, removeMember, hsi, dite_true,
      Species.removeIndividual, List.get_eq_getElem, hsg, hrel, if_true, hlen]
    by_cases h1 : s.individuals.length = 1
    · have : s.individuals.length - 1 = 0 := by omega
      simp [h1, hgen]
    · have : ¬ s.individuals.length - 1 = 0 := by omega
      simp [h1, this, hgen]

theorem removeWorstIndividual_removes_first_worst_witness :
    (removeWorstIndividual exPopTie).map
        (fun w => (w.2.id, w.1.species.map fun s => s.individuals.map fun g => g.id))
      = some (1, [[0], [2]]) ∧
    ∃ si rel s g, exPopTie.species[si]? = some s ∧ s.individuals[rel]? = some g ∧
      g.evaluated = true ∧
      (∀ i t j h, exPopTie.species[i]? = some t → t.individuals[j]? = some h →
        h.evaluated = true →
        doubleDiv g.fitness (s.individuals.length : ℚ) ≤ doubleDiv h.fitness (t.individuals.length : ℚ) ∧
        (doubleDiv h.fitness (t.individuals.length : ℚ) = doubleDiv g.fitness (s.individuals.length : ℚ) →
          si < i ∨ (si = i ∧ rel ≤ j))) ∧
      removeWorstIndividual exPopTie
        = some ({ exPopTie with species := (
                    if s.individuals.length = 1 then exPopTie.species.eraseIdx si
                    else exPopTie.species.set si
                      { s with individuals := s.individuals.eraseIdx rel }) },
                g) :=
  ⟨by decide!, removeWorstIndividual_removes_first_worst exPopTie (by decide!)⟩

/-! ## The indices `ChooseParentSpecies` reads and returns -/

theorem chooseWalk_prefix (sp : List Species) (marble : ℚ) (n : Nat) :
    ∀ (cur : Nat) (spin : ℚ), sp.length - cur ≤ n → cur < sp.length →
      spin = ((sp.take (cur + 1)).map fun s => s.averageFitness).sum →
      (∀ k, k < cur → ((sp.take (k + 1)).map fun s => s.averageFitness).sum < marble) →
      marble ≤ (sp.map fun s => s.averageFitness).sum →
      ∃ c, chooseWalk sp marble cur spin = some c ∧ c < sp.length ∧
        marble ≤ ((sp.take (c + 1)).map fun s => s.averageFitness).sum ∧
        ∀ k, k < c → ((sp.take (k + 1)).map fun s => s.averageFitness).sum < marble := by
  induction n with
  | zero =>
    intro cur spin h1 h2
    omega
  | succ n ih =>
    intro cur spin h1 h2 hspin hbefore hb
    rw [chooseWalk]
    by_cases hlt : spin < marble
    · rw [if_pos hlt]
      have hnext : cur + 1 < sp.length := by
        by_contra hcon
        rw [List.take_of_length_le (by omega)] at hspin
        rw [hspin] at hlt
        exact absurd hlt (not_lt.2 hb)
      rw [dif_pos hnext]
      have htake : sp.take (cur + 1 + 1) = sp.take (cur + 1) ++ [sp[cur + 1]] := by
        rw [List.take_succ, List.getElem?_eq_getElem hnext]
        rfl
      apply ih (cur + 1) _ (by omega) hnext
      · rw [htake, hspin]
        simp only [List.map_append, List.sum_append, List.map_cons, List.map_nil,
          List.sum_cons, List.sum_nil, add_zero, List.get_eq_getElem]
      · intro k hk
        rcases Nat.lt_succ_iff_lt_or_eq.1 hk with h | h
        · exact hbefore k h
        · subst h
          rw [← hspin]
          exact hlt
      · exact hb
    · rw [if_neg hlt]
      exact ⟨cur, rfl, h2, by rw [← hspin]; exact not_lt.1 hlt, hbefore⟩

theorem chooseLoopOutcome_spec (sp : List Species) (hpos : 0 < sp.length)
    (hsum : 0 < (sp.map fun s => s.averageFitness).sum) (spins : List ℚ)
    (h1 : ∀ r ∈ spins, r ≤ 1) :
    (chooseLoopOutcome sp ((sp.map fun s => s.averageFitness).sum) spins 0
        = ChooseOutcome.moreSpins ∧
      chooseLoop sp ((sp.map fun s => s.averageFitness).sum) spins 0 = none ∧
      ∀ r ∈ spins, r ≤ 0) ∨
    (∃ c r, chooseLoopOutcome sp ((sp.map fun s => s.averageFitness).sum) spins 0
        = ChooseOutcome.chosen c r ∧
      chooseLoop sp ((sp.map fun s => s.averageFitness).sum) spins 0 = some c ∧
      r ∈ spins ∧ (∃ s, sp[c]? = some s ∧ s.averageFitness ≠ 0) ∧
      r * (sp.map fun s => s.averageFitness).sum
        ≤ ((sp.take (c + 1)).map fun s => s.averageFitness).sum ∧
      ∀ k, k < c → ((sp.take (k + 1)).map fun s => s.averageFitness).sum
        < r * (sp.map fun s => s.averageFitness).sum) := by
  induction spins with
  | nil =>
    left
    exact ⟨rfl, rfl, by simp⟩
  | cons r rs ih =>
    have hr1 : r ≤ 1 := h1 r (by simp)
    have hm : r * (sp.map fun s => s.averageFitness).sum
        ≤ (sp.map fun s => s.averageFitness).sum := by nlinarith
    have h0 : (sp.get ⟨0, hpos⟩).averageFitness
        = ((sp.take (0 + 1)).map fun s => s.averageFitness).sum := by
      cases sp with
      | nil => simp at hpos
      | cons a l => simp
    obtain ⟨c, w1, w2, w3, w4⟩ := chooseWalk_prefix sp
      (r * (sp.map fun s => s.averageFitness).sum) _ 0
      (sp.get ⟨0, hpos⟩).averageFitness (le_refl _) hpos h0 (fun k hk => by omega) hm
    simp only [chooseLoopOutcome, chooseLoop, hpos, dite_true, w1, w2]
    by_cases hz : (sp.get ⟨c, w2⟩).averageFitness = 0
    · rw [if_pos hz, if_pos hz]
      have hc0 : c = 0 := by
        rcases Nat.eq_zero_or_pos c with e | hp
        · exact e
        · exfalso
          have hb := w4 (c - 1) (by omega)
          have htake : sp.take (c + 1) = sp.take c ++ [sp[c]] := by
            rw [List.take_succ, List.getElem?_eq_getElem w2]
            rfl
          rw [htake] at w3
          rw [show c - 1 + 1 = c by omega] at hb
          simp only [List.get_eq_getElem] at hz
          simp only [List.map_append, List.sum_append, List.map_cons, List.map_nil,
            List.sum_cons, List.sum_nil, hz, add_zero] at w3
          linarith
      subst hc0
      have hr0 : r ≤ 0 := by
        rw [← h0, hz] at w3
        by_contra hcon
        have := mul_pos (not_le.1 hcon) hsum
        linarith
      rcases ih (fun x hx => h1 x (by simp [hx])) with ⟨a, b, d⟩ | ⟨c1, r1, a, b, d, e⟩
      · left
        refine ⟨a, b, ?_⟩
        intro x hx
        rcases List.mem_cons.1 hx with rfl | hx
        · exact hr0
        · exact d x hx
      · right
        exact ⟨c1, r1, a, b, List.mem_cons_of_mem _ d, e⟩
    · rw [if_neg hz, if_neg hz]
      right
      exact ⟨c, r, rfl, rfl, List.mem_cons_self _ _,
        ⟨sp[c], List.getElem?_eq_getElem w2, by simpa using hz⟩, w3, w4⟩

/-- C17: for every non-empty species list whose average fitnesses have a
positive sum and every sequence of `RandFloat()` values that are at most 1
(the lower bounds on the averages and on the values are not needed),
`ChooseParentSpecies` never reads an index outside the species list, on the
first pass or on a retry; an index it returns is the least index whose prefix
sum of average fitnesses is `>= spin * total` for the accepted value `spin`,
and the species there has a non-zero average fitness.  The loop asks for
another value only after values that are not positive, so it returns as soon
as a value is positive. -/
theorem chooseParentSpecies_reads_in_range (sp : List Species) (spins : List ℚ)
    (hne : sp ≠ []) (hsum : 0 < (sp.map fun s => s.averageFitness).sum)
    (h1 : ∀ r ∈ spins, r ≤ 1) :
    chooseLoopOutcome sp (sp.foldl (fun t s => t + s.averageFitness) 0) spins 0
      ≠ ChooseOutcome.outOfRange ∧
    (∀ c, chooseParentSpecies sp spins = some c →
      ∃ r ∈ spins,
        chooseLoopOutcome sp (sp.foldl (fun t s => t + s.averageFitness) 0) spins 0
          = ChooseOutcome.chosen c r ∧
        (∃ s, sp[c]? = some s ∧ s.averageFitness ≠ 0) ∧
        r * (sp.map fun s => s.averageFitness).sum
          ≤ ((sp.take (c + 1)).map fun s => s.averageFitness).sum ∧
        ∀ k, k < c → ((sp.take (k + 1)).map fun s => s.averageFitness).sum
          < r * (sp.map fun s => s.averageFitness).sum) ∧
    (chooseParentSpecies sp spins = none → ∀ r ∈ spins, r ≤ 0) ∧
    ((∃ r ∈ spins, 0 < r) → ∃ c, chooseParentSpecies sp spins = some c) := by
  have hpos : 0 < sp.length := List.length_pos.2 hne
  have htot : sp.foldl (fun t s => t + s.averageFitness) 0
      = (sp.map fun s => s.averageFitness).sum := by
    rw [foldl_add_averageFitness, zero_add]
  have hcp : chooseParentSpecies sp spins
      = chooseLoop sp ((sp.map fun s => s.averageFitness).sum) spins 0 := by
    simp only [chooseParentSpecies, hpos, if_true, htot]
  rw [htot, hcp]
  have key := chooseLoopOutcome_spec sp hpos hsum spins h1
  have hnone : chooseLoop sp ((sp.map fun s => s.averageFitness).sum) spins 0 = none →
      ∀ r ∈ spins, r ≤ 0 := by
    intro hn
    rcases key with ⟨_, _, d⟩ | ⟨c1, r1, _, b, _⟩
    · exact d
    · rw [hn] at b
      simp at b
  refine ⟨?_, ?_, hnone, ?_⟩
  · rcases key with ⟨a, _, _⟩ | ⟨c1, r1, a, _⟩
    · rw [a]
      simp
    · rw [a]
      simp
  · intro c hc
    rcases key with ⟨_, b, _⟩ | ⟨c1, r1, a, b, d, e⟩
    · rw [hc] at b
      simp at b
    · rw [hc] at b
      simp only [Option.some.injEq] at b
      subst b
      exact ⟨r1, d, a, e⟩
  · rintro ⟨r, hr, hrp⟩
    cases hcl : chooseLoop sp ((sp.map fun s => s.averageFitness).sum) spins 0 with
    | none => exact absurd (hnone hcl r hr) (not_le.2 hrp)
    | some c => exact ⟨c, rfl⟩

theorem chooseParentSpecies_reads_in_range_witness :
    chooseParentSpecies exSpeciesAverages [0, 3 / 4] = some 2 ∧
    chooseLoopOutcome exSpeciesAverages
        (exSpeciesAverages.foldl (fun t s => t + s.averageFitness) 0) [0, 3 / 4] 0
      = ChooseOutcome.chosen 2 (3 / 4) ∧
    chooseLoopOutcome exSpeciesAverages
        (exSpeciesAverages.foldl (fun t s => t + s.averageFitness) 0) [0, 3 / 4] 0
      ≠ ChooseOutcome.outOfRange :=
  ⟨by decide!, by decide!,
    (chooseParentSpecies_reads_in_range exSpeciesAverages [0, 3 / 4] (by decide)
      (by decide!) (by decide!)).1⟩

/-! ## `Sort` -/

theorem sortSpecies_perm (sp : List Species) : (sortSpecies sp).Perm sp :=
  List.perm_insertionSort _ _

theorem sortSpecies_sorted (sp : List Species) :
    (sortSpecies sp).Pairwise fun a b => a.bestFitness ≥ b.bestFitness := by
  haveI : IsTotal Species (fun a b => a.bestFitness ≥ b.bestFitness) :=
    ⟨fun a b => le_total b.bestFitness a.bestFitness⟩
  haveI : IsTrans Species (fun a b => a.bestFitness ≥ b.bestFitness) :=
    ⟨fun a b c hab hbc => le_trans hbc hab⟩
  exact List.sorted_insertionSort _ sp

theorem sortIndividuals_spec (s : Species) :
    s.sortIndividuals.individuals.Perm s.individuals ∧
    { s.sortIndividuals with individuals := s.individuals } = s :=
  ⟨List.perm_insertionSort _ _, rfl⟩

theorem sort_eq_none_iff (p : Population) :
    sort p = none ↔ (p.species = [] ∨ ∃ s ∈ p.species, s.individuals = []) := by
  unfold sort
  constructor
  · intro h
    by_cases h0 : 0 < p.species.length
    · rw [if_pos h0] at h
      right
      by_cases h1 : ∀ s ∈ p.species, 0 < s.numMembers
      · rw [if_pos h1] at h
        simp at h
      · push_neg at h1
        obtain ⟨s, hs, hn⟩ := h1
        refine ⟨s, hs, ?_⟩
        have : s.individuals.length = 0 := by
          simpa [Species.numMembers] using hn
        exact List.length_eq_zero.1 this
    · left
      exact List.length_eq_zero.1 (by omega)
  · rintro (h | ⟨s, hs, he⟩)
    · simp [h]
    · by_cases h0 : 0 < p.species.length
      · rw [if_pos h0]
        have h1 : ¬ ∀ s ∈ p.species, 0 < s.numMembers := by
          intro hall
          have := hall s hs
          simp [Species.numMembers, he] at this
        rw [if_neg h1]
      · rw [if_neg h0]

/-- C25: for a non-empty species list in which every species has at least one
member, `Sort` returns; whenever it returns, the species list afterwards is a
permutation of the list before (each species with its members put in order by
`SortIndividuals`, nothing else about it changed) and is ordered by best
fitness, non-increasing: `species[i].best_fitness >= species[j].best_fitness`
for all `i < j`.  `Sort` aborts if any species has zero members (and also on an
empty species list). -/
theorem sort_orders_species (p : Population) :
    (p.species ≠ [] → (∀ s ∈ p.species, s.individuals ≠ []) → ∃ p1, sort p = some p1) ∧
    (∀ p1, sort p = some p1 →
      p1.species.Perm (p.species.map Species.sortIndividuals) ∧
      (∀ s ∈ p.species, s.sortIndividuals.individuals.Perm s.individuals ∧
        { s.sortIndividuals with individuals := s.individuals } = s) ∧
      (p1.species.map fun s => s.id).Perm (p.species.map fun s => s.id) ∧
      (∀ (i j : Nat) (s t : Species), i < j → p1.species[i]? = some s →
        p1.species[j]? = some t →
        s.bestFitness ≥ t.bestFitness)) ∧
    ((∃ s ∈ p.species, s.individuals = []) → sort p = none) ∧
    (p.species = [] → sort p = none) := by
  refine ⟨?_, ?_, fun h => (sort_eq_none_iff p).2 (Or.inr h),
    fun h => (sort_eq_none_iff p).2 (Or.inl h)⟩
  · intro hne hall
    cases hs : sort p with
    | some p1 => exact ⟨p1, rfl⟩
    | none =>
      rcases (sort_eq_none_iff p).1 hs with h | ⟨s, hs1, he⟩
      · exact absurd h hne
      · exact absurd he (hall s hs1)
  · intro p1 h
    have e := sort_frame p p1 h
    have hsp : p1.species = sortSpecies (p.species.map Species.sortIndividuals) := by
      rw [e]
    refine ⟨?_, fun s _ => sortIndividuals_spec s, ?_, ?_⟩
    · rw [hsp]
      exact sortSpecies_perm _
    · rw [hsp]
      have := (sortSpecies_perm (p.species.map Species.sortIndividuals)).map fun s => s.id
      refine this.trans ?_
      rw [List.map_map]
      exact List.Perm.of_eq rfl
    · intro i j s t hij hs ht
      have hpw := sortSpecies_sorted (p.species.map Species.sortIndividuals)
      rw [← hsp] at hpw
      obtain ⟨hi, rfl⟩ := List.getElem?_eq_some_iff.1 hs
      obtain ⟨hj, rfl⟩ := List.getElem?_eq_some_iff.1 ht
      exact List.pairwise_iff_getElem.1 hpw i j hi hj hij

/-! ## The current best genome -/

theorem foldl_species_members {σ : Type} (f : σ → Genome → σ) (sp : List Species) (st : σ) :
    sp.foldl (fun st s => s.individuals.foldl f st) st = (allMembers sp).foldl f st := by
  induction sp generalizing st with
  | nil => rfl
  | cons s sp ih => simp only [List.foldl_cons, allMembers_cons, List.foldl_append, ih]

theorem sum_nonpos_of_forall (l : List ℚ) (h : ∀ x ∈ l, x ≤ 0) : l.sum ≤ 0 := by
  induction l with
  | nil => simp
  | cons a l ih =>
    simp only [List.sum_cons]
    have ha := h a (by simp)
    have hl := ih (fun x hx => h x (List.mem_cons_of_mem _ hx))
    linarith

theorem updateSpecies_none_of_unflagged (q : Population) (hg : 0 < q.generation)
    (hno : ∀ s ∈ q.species, s.bestSpecies = false) : updateSpecies q = none := by
  rw [updateSpecies]
  dsimp only
  rcases findOldBest_spec q.species 0 (-1, -1) with ⟨h1, _⟩ | ⟨k, _, s, hs, hb, _⟩
  · simp [hg, h1]
  · rw [hno s hs] at hb
    simp at hb

theorem updateSpecies_flag_iff (p p1 : Population) (h : updateSpecies p = some p1) :
    (∃ s ∈ p1.species, s.bestSpecies = true) ↔
      ∃ s ∈ p.species, s.bestFitness ≥ p.bestFitnessEver := by
  constructor
  · rintro ⟨s, hs, hb⟩
    obtain ⟨i, hi⟩ := List.getElem?_of_mem hs
    obtain ⟨-, s0, h0, -, hiff⟩ := updateSpecies_spec p p1 h i s hi
    exact ⟨s0, List.getElem?_mem h0, (hiff.1 hb).1⟩
  · rintro ⟨s0, hs0, hge⟩
    obtain ⟨i0, hi0⟩ := List.getElem?_of_mem hs0
    have hex : ∃ i, ∃ t : Species, p.species[i]? = some t ∧
        t.bestFitness ≥ p.bestFitnessEver :=
      ⟨i0, s0, hi0, hge⟩
    classical
    obtain ⟨t, ht, htge⟩ := Nat.find_spec hex
    have hmin : ∀ k, k < Nat.find hex → ∀ u, p.species[k]? = some u →
        u.bestFitness < p.bestFitnessEver := by
      intro k hk u hu
      by_contra hcon
      exact Nat.find_min hex hk ⟨u, hu, not_lt.1 hcon⟩
    have hlen := updateSpecies_length p p1 h
    have hlt : Nat.find hex < p1.species.length := by
      rw [hlen]
      exact (List.getElem?_eq_some_iff.1 ht).1
    have hs1 : p1.species[Nat.find hex]? = some (p1.species[Nat.find hex]) :=
      List.getElem?_eq_getElem hlt
    obtain ⟨-, s1, h1, -, hiff⟩ := updateSpecies_spec p p1 h _ _ hs1
    rw [ht] at h1
    simp only [Option.some.injEq] at h1
    subst h1
    exact ⟨_, List.getElem?_mem hs1, hiff.2 ⟨htge, hmin⟩⟩

/-- C28: `UpdateSpecies` can return with no species flagged as best species,
after which its own `ASSERT(t_oldbestid != -1)` fails at the next call.  It
flags a species exactly if some species has a best fitness
`>= best_fitness_ever`; when every species is below `best_fitness_ever` no flag
is set, and `UpdateSpecies` on that species list with `generation > 0` aborts.
Under a record of 3, two species with best fitness 1 and 2 are both left
unflagged, and the call of the next generation aborts. -/
theorem updateSpecies_leaves_no_flag :
    (∀ p p1 : Population, updateSpecies p = some p1 →
      ((∃ s ∈ p1.species, s.bestSpecies = true) ↔
        ∃ s ∈ p.species, s.bestFitness ≥ p.bestFitnessEver) ∧
      ((∀ s ∈ p.species, s.bestFitness < p.bestFitnessEver) →
        (∀ s ∈ p1.species, s.bestSpecies = false) ∧
        ∀ q : Population, q.species = p1.species → 0 < q.generation →
          updateSpecies q = none)) ∧
    exPopRecordAbove.species ≠ [] ∧
    (updateSpecies exPopRecordAbove).map (fun q => q.species.map fun s => s.bestSpecies)
      = some [false, false] ∧
    ((updateSpecies exPopRecordAbove).bind fun q => updateSpecies { q with generation := 1 })
      = none := by
  refine ⟨?_, by decide!, by decide!, by decide!⟩
  intro p p1 h
  have hiff := updateSpecies_flag_iff p p1 h
  refine ⟨hiff, fun hall => ?_⟩
  have hno : ∀ s ∈ p1.species, s.bestSpecies = false := by
    intro s hs
    by_contra hcon
    have hb : s.bestSpecies = true := by
      cases hv : s.bestSpecies with
      | true => rfl
      | false => exact absurd hv hcon
    obtain ⟨s0, hs0, hge⟩ := hiff.1 ⟨s, hs, hb⟩
    exact absurd hge (not_le.2 (hall s0 hs0))
  refine ⟨hno, fun q hq hg => ?_⟩
  exact updateSpecies_none_of_unflagged q hg (by rw [hq]; exact hno)

/-! ## `GetGenomeByIndex` against `AccessGenomeByIndex` -/

/-- C29: `GetGenomeByIndex(i)` does not always return the `i`-th member in
species-major order.  With the species (0, 1) and (2) and index 0,
`AccessGenomeByIndex` refers to genome 0, the member at index 0, while
`GetGenomeByIndex` returns genome 2: after the hit `break` leaves the inner
loop only, the counter still equals the index, and the first member of the
next species is taken as a hit as well. -/
theorem getGenomeByIndex_returns_other_member :
    0 < totalMembers exPopTie.species ∧
    (allMembers exPopTie.species)[0]? = some (exGenome 0 4) ∧
    accessGenomeByIndex exPopTie 0 = some (exGenome 0 4) ∧
    getGenomeByIndex exDeltaParams exPopTie 0 = some (exGenome 2 (1 / 2)) ∧
    getGenomeByIndex exDeltaParams exPopTie 0 ≠ accessGenomeByIndex exPopTie 0 := by
  decide!

/-! ## The stagnation counter after the scan -/

theorem epochScanMember_best (delta : ℚ) (st : ScanState) (g : Genome) :
    (epochScanMember delta st g).best = max st.best g.fitness := by
  unfold epochScanMember
  by_cases h : st.best < g.fitness
  · rw [if_pos h]
    exact (max_eq_right (le_of_lt h)).symm
  · rw [if_neg h]
    exact (max_eq_left (not_lt.1 h)).symm

theorem foldl_max_ge (l : List ℚ) (b : ℚ) : b ≤ l.foldl max b := by
  induction l generalizing b with
  | nil => exact le_refl _
  | cons a l ih => exact le_trans (le_max_left b a) (ih (max b a))

theorem foldl_max_eq_of_le (l : List ℚ) (b : ℚ) (h : ∀ x ∈ l, x ≤ b) : l.foldl max b = b := by
  induction l with
  | nil => rfl
  | cons a l ih =>
    simp only [List.foldl_cons]
    rw [max_eq_left (h a (by simp))]
    exact ih (fun x hx => h x (List.mem_cons_of_mem _ hx))

/-- The population `exPopPair` goes through `Epoch`; with a species of zero
members added to its species list (at the front or at the end) `Epoch` aborts. -/
theorem epoch_aborts_with_injected_empty_species :
    (epoch exOps exParamsPair exPopPair).isSome = true ∧
    epoch exOps exParamsPair
      { exPopPair with species := exPopPair.species ++ [exEmptySpecies 2 0] } = none ∧
    epoch exOps exParamsPair
      { exPopPair with species := exEmptySpecies 2 0 :: exPopPair.species } = none := by
  decide!

/-- C21: if a species with zero members is in the species list when `Epoch` is
called, `Epoch` aborts: its first step is `Sort`, whose
`ASSERT(m_Species[i].NumMembers() > 0)` fails, so the removal of empty species
at the end of `Epoch` is never reached. -/
theorem epoch_aborts_on_empty_species (ops : SpeciesOps) (P : Parameters) (p : Population)
    (h : ∃ s ∈ p.species, s.individuals = []) :
    sort p = none ∧ epoch ops P p = none := by
  have hs : sort p = none := (sort_eq_none_iff p).2 (Or.inr h)
  refine ⟨hs, ?_⟩
  simp [epoch, hs]

theorem epoch_aborts_on_empty_species_witness :
    sort { exPopPair with species := exPopPair.species ++ [exEmptySpecies 2 0] } = none ∧
    epoch exOps exParamsPair
      { exPopPair with species := exPopPair.species ++ [exEmptySpecies 2 0] } = none :=
  epoch_aborts_on_empty_species exOps exParamsPair
    { exPopPair with species := exPopPair.species ++ [exEmptySpecies 2 0] }
    ⟨exEmptySpecies 2 0, by simp, rfl⟩

/-! ## `ComputeSparseness` -/

theorem sparsenessDistances_eq {β : Type} (distanceTo : β → β → ℚ) (behaviorOf : Genome → β)
    (sp : List Species) (archive : List β) (g : Genome) :
    sparsenessDistances distanceTo behaviorOf sp archive g
      = ((allMembers sp).map fun m => distanceTo (behaviorOf g) (behaviorOf m))
        ++ archive.map fun b => distanceTo (behaviorOf g) b := by
  unfold sparsenessDistances
  congr 1
  induction sp with
  | nil => rfl
  | cons s sp ih => simp only [List.flatMap_cons, allMembers_cons, List.map_append, ih]

theorem sparsenessDistances_length {β : Type} (distanceTo : β → β → ℚ)
    (behaviorOf : Genome → β) (sp : List Species) (archive : List β) (g : Genome) :
    (sparsenessDistances distanceTo behaviorOf sp archive g).length
      = totalMembers sp + archive.length := by
  rw [sparsenessDistances_eq, List.length_append, List.length_map, List.length_map,
    totalMembers_eq_length]

theorem sparsenessSum_spec (d : List ℚ) (n : Nat) :
    ∀ (i : Nat) (acc : ℚ), i + n ≤ d.length →
      sparsenessSum d n i acc = some (acc + ((d.drop i).take n).sum) := by
  induction n with
  | zero =>
    intro i acc _
    simp [sparsenessSum]
  | succ n ih =>
    intro i acc h
    have hi : i < d.length := by omega
    simp only [sparsenessSum, List.getElem?_eq_getElem hi]
    rw [ih (i + 1) _ (by omega), List.drop_eq_getElem_cons hi]
    simp only [List.take_succ_cons, List.sum_cons, add_assoc]

theorem insertionSort_le_sorted (l : List ℚ) :
    (l.insertionSort fun a b => a ≤ b).Sorted fun a b => a ≤ b :=
  List.sorted_insertionSort _ l

theorem insertionSort_le_eq_of_perm (l1 l2 : List ℚ) (h : l1.Perm l2) :
    l1.insertionSort (fun a b => a ≤ b) = l2.insertionSort fun a b => a ≤ b := by
  apply List.eq_of_perm_of_sorted ?_ (insertionSort_le_sorted l1) (insertionSort_le_sorted l2)
  exact (List.perm_insertionSort _ l1).trans (h.trans (List.perm_insertionSort _ l2).symm)

/-- C22: for `NoveltySearch_K >= 1` and a population plus archive holding at
least `K + 1` behaviours in total, `ComputeSparseness(g)` reads list indices in
range only and returns the sum of the entries at positions `1..K` of the
ascending-sorted list of the distances from the behaviour of `g` to every
member's behaviour and every archive entry, divided by `K`; the result is the
same for every order of the species, the members and the archive entries. -/
theorem computeSparseness_mean_of_nearest {β : Type} (distanceTo : β → β → ℚ)
    (behaviorOf : Genome → β) (K : Nat) (sp : List Species) (archive : List β) (g : Genome)
    (hK : 1 ≤ K) (hlen : K + 1 ≤ totalMembers sp + archive.length) :
    (∃ sorted : List ℚ,
      sorted.Sorted (fun a b => a ≤ b) ∧
      sorted.Perm (((allMembers sp).map fun m => distanceTo (behaviorOf g) (behaviorOf m))
        ++ archive.map fun b => distanceTo (behaviorOf g) b) ∧
      (∀ i, 1 ≤ i → i ≤ K → i < sorted.length) ∧
      computeSparseness distanceTo behaviorOf K sp archive g
        = some (((sorted.drop 1).take K).sum / (K : ℚ))) ∧
    (∀ (sp1 : List Species) (archive1 : List β),
      (allMembers sp1).Perm (allMembers sp) → archive1.Perm archive →
      computeSparseness distanceTo behaviorOf K sp1 archive1 g
        = computeSparseness distanceTo behaviorOf K sp archive g) := by
  have hK0 : K ≠ 0 := by omega
  constructor
  · refine ⟨(sparsenessDistances distanceTo behaviorOf sp archive g).insertionSort
      fun a b => a ≤ b, insertionSort_le_sorted _, ?_, ?_, ?_⟩
    · rw [← sparsenessDistances_eq]
      exact List.perm_insertionSort _ _
    · intro i _ hi
      rw [List.length_insertionSort, sparsenessDistances_length]
      omega
    · simp only [computeSparseness, hK0, if_false]
      rw [sparsenessSum_spec _ K 1 0 (by
        rw [List.length_insertionSort, sparsenessDistances_length]
        omega)]
      simp
  · intro sp1 archive1 h1 h2
    have hp : (sparsenessDistances distanceTo behaviorOf sp1 archive1 g).Perm
        (sparsenessDistances distanceTo behaviorOf sp archive g) := by
      rw [sparsenessDistances_eq, sparsenessDistances_eq]
      exact (h1.map _).append (h2.map _)
    simp only [computeSparseness]
    rw [insertionSort_le_eq_of_perm _ _ hp]

theorem computeSparseness_mean_of_nearest_witness :
    computeSparseness exDistance exBehaviorOf 2 exPopTie.species [3] (exGenome 1 1)
      = some (5 / 4) ∧
    computeSparseness exDistance exBehaviorOf 2 exPopTie.species.reverse [3] (exGenome 1 1)
      = computeSparseness exDistance exBehaviorOf 2 exPopTie.species [3] (exGenome 1 1) :=
  ⟨by decide!,
    (computeSparseness_mean_of_nearest exDistance exBehaviorOf 2 exPopTie.species [3]
      (exGenome 1 1) (by decide) (by decide)).2 exPopTie.species.reverse [3]
      (allMembers_perm_of_perm _ _ (List.reverse_perm _)) (List.Perm.refl _)⟩

/-! ## The archive in `NoveltySearchTick` -/

/-- C23: in a `NoveltySearchTick` where `Acquire` does not signal immediate
success: if the baby's sparseness is `> NoveltySearch_P_min`, the archive
becomes the old archive with the baby's behaviour appended,
`gens_since_last_archiving` becomes 0 and `quick_add_counter` grows by one;
otherwise the archive is unchanged, `gens_since_last_archiving` grows by one and
`quick_add_counter` becomes 0.  In every case, the early return on success
included, the old archive is an initial segment of the new one: no entry is
removed or modified. -/
theorem noveltyArchiveStep_spec {β : Type} (NP : NoveltyParameters) (sparseness : ℚ) (b : β)
    (st : NoveltyState β) :
    (sparseness > NP.NoveltySearch_P_min →
      noveltyArchiveStep NP false sparseness b st
        = { archive := st.archive ++ [b], gensSinceLastArchiving := 0,
            quickAddCounter := st.quickAddCounter + 1 }) ∧
    (¬ sparseness > NP.NoveltySearch_P_min →
      noveltyArchiveStep NP false sparseness b st
        = { archive := st.archive, gensSinceLastArchiving := st.gensSinceLastArchiving + 1,
            quickAddCounter := 0 }) ∧
    noveltyArchiveStep NP true sparseness b st = st ∧
    (∀ success, ∃ added, (noveltyArchiveStep NP success sparseness b st).archive
      = st.archive ++ added ∧ (added = [] ∨ added = [b])) := by
  refine ⟨?_, ?_, ?_, ?_⟩
  · intro h
    simp [noveltyArchiveStep, h]
  · intro h
    simp [noveltyArchiveStep, h]
  · simp [noveltyArchiveStep]
  · intro success
    cases success with
    | true => exact ⟨[], by simp [noveltyArchiveStep], Or.inl rfl⟩
    | false =>
      by_cases h : sparseness > NP.NoveltySearch_P_min
      · exact ⟨[b], by simp [noveltyArchiveStep, h], Or.inr rfl⟩
      · exact ⟨[], by simp [noveltyArchiveStep, h], Or.inl rfl⟩

/-! ## Save, load, save -/

theorem fromFile_params {ι : Type} (ops : SpeciesOps) (defaults P : Parameters)
    (f : SavedPopulation ι) (r : Parameters × ι × Population)
    (h : Population.fromFile ops defaults P f = some r) :
    r.1 = defaults ∧ r.2.1 = f.innovations := by
  unfold Population.fromFile at h
  dsimp only at h
  split at h
  · simp at h
  · simp only [Option.map_eq_some'] at h
    obtain ⟨q, _, rfl⟩ := h
    exact ⟨rfl, rfl⟩

theorem printf35_one_ne_two : printf35 1 ≠ printf35 2 := by
  unfold printf35
  norm_num

/-- Whatever the default parameters are, saving the population `exPopPair`
under the thresholds 1 and 2 gives two files of which at most one comes back
from save, load, save: the second save shows the default threshold in both
cases.  And with the threshold left alone, the genome blocks of `exPopRegroup`
(genomes 0, 1, 2) come back in the order 0, 2, 1, regrouped by `Speciate`.  Both
loads return. -/
theorem save_load_save_differs :
    (¬ ∃ defaults : Parameters,
      (Population.fromFile exOps defaults (exParamsTreshold 1)
          (Population.save (exParamsTreshold 1) () exPopPair)).map
            (fun r => (Population.save r.1 r.2.1 r.2.2).compatibility)
        = some (Population.save (exParamsTreshold 1) () exPopPair).compatibility ∧
      (Population.fromFile exOps defaults (exParamsTreshold 2)
          (Population.save (exParamsTreshold 2) () exPopPair)).map
            (fun r => (Population.save r.1 r.2.1 r.2.2).compatibility)
        = some (Population.save (exParamsTreshold 2) () exPopPair).compatibility) ∧
    (Population.fromFile exOps {} (exParamsTreshold 1)
      (Population.save (exParamsTreshold 1) () exPopPair)).isSome = true ∧
    (Population.save exDeltaParams () exPopRegroup).blocks.map (fun g => g.id) = [0, 1, 2] ∧
    (Population.fromFile exOpsNear exDeltaParams exDeltaParams
        (Population.save exDeltaParams () exPopRegroup)).map
          (fun r => (Population.save r.1 r.2.1 r.2.2).blocks.map fun g => g.id)
      = some [0, 2, 1] := by
  refine ⟨?_, by decide!, by decide!, by decide!⟩
  rintro ⟨defaults, h1, h2⟩
  simp only [Option.map_eq_some'] at h1 h2
  obtain ⟨r1, e1, c1⟩ := h1
  obtain ⟨r2, e2, c2⟩ := h2
  have d1 := (fromFile_params _ _ _ _ _ e1).1
  have d2 := (fromFile_params _ _ _ _ _ e2).1
  have a1 : printf35 defaults.CompatTreshold = printf35 1 := by
    rw [← d1]
    exact c1
  have a2 : printf35 defaults.CompatTreshold = printf35 2 := by
    rw [← d2]
    exact c2
  exact printf35_one_ne_two (a1.symm.trans a2)

theorem speciateCleanup_id (n : Nat) : ∀ (i : Nat) (sp : List Species), sp.length - i ≤ n →
    (∀ s ∈ sp, s.individuals ≠ []) → speciateCleanup i sp = some sp := by
  induction n with
  | zero =>
    intro i sp hn _
    rw [speciateCleanup]
    have : ¬ i < sp.length := by omega
    simp [this]
  | succ n ih =>
    intro i sp hn hall
    rw [speciateCleanup]
    by_cases h : i < sp.length
    · simp only [h, dite_true]
      have he : ¬ (sp.get ⟨i, h⟩).numMembers = 0 := by
        intro hz
        have hmem : sp.get ⟨i, h⟩ ∈ sp := List.get_mem sp i h
        exact hall _ hmem (List.length_eq_zero.1 hz)
      simp only [he, if_false]
      exact ih (i + 1) sp (by omega) hall
    · simp [h]

theorem speciateFind_nonempty (compat : Genome → Genome → Bool) (g : Genome)
    (sp sp1 : List Species) (h : speciateFind compat g sp = some sp1)
    (hall : ∀ s ∈ sp, s.individuals ≠ []) : ∀ s ∈ sp1, s.individuals ≠ [] := by
  induction sp generalizing sp1 with
  | nil => simp [speciateFind] at h
  | cons a sp ih =>
    simp only [speciateFind] at h
    split at h
    · simp only [Option.some.injEq] at h
      subst h
      intro s hs
      rcases List.mem_cons.1 hs with rfl | hs
      · simp [Species.addIndividual]
      · exact hall s (List.mem_cons_of_mem _ hs)
    · simp only [Option.map_eq_some'] at h
      obtain ⟨r, hr, rfl⟩ := h
      intro s hs
      rcases List.mem_cons.1 hs with rfl | hs
      · exact hall _ (List.mem_cons_self _ _)
      · exact ih r hr (fun t ht => hall t (List.mem_cons_of_mem _ ht)) s hs

theorem speciateStep_nonempty (compat : Genome → Genome → Bool) (st : List Species × Int)
    (g : Genome) (hall : ∀ s ∈ st.1, s.individuals ≠ []) :
    ∀ s ∈ (speciateStep compat st g).1, s.individuals ≠ [] := by
  unfold speciateStep
  cases hf : speciateFind compat g st.1 with
  | some sp1 => exact speciateFind_nonempty compat g st.1 sp1 hf hall
  | none =>
    intro s hs
    simp only [List.mem_append, List.mem_singleton] at hs
    rcases hs with hs | rfl
    · exact hall s hs
    · simp [Species.create]

theorem speciateLoop_nonempty (compat : Genome → Genome → Bool) (gs : List Genome)
    (st : List Species × Int) (hall : ∀ s ∈ st.1, s.individuals ≠ []) :
    ∀ s ∈ (speciateLoop compat gs st).1, s.individuals ≠ [] := by
  induction gs generalizing st with
  | nil => simpa [speciateLoop] using hall
  | cons g gs ih =>
    simp only [speciateLoop]
    exact ih _ (speciateStep_nonempty compat st g hall)

theorem speciate_from_empty (compat : Genome → Genome → Bool) (p : Population)
    (hsp : p.species = []) (hne : p.genomes ≠ []) :
    ∃ p1, speciate compat p = some p1 ∧ p1.genomes = p.genomes ∧
      (allMembers p1.species).Perm p.genomes ∧
      (∀ s ∈ p1.species, s.individuals ≠ []) ∧ p1.species ≠ [] := by
  have hpos : 0 < p.genomes.length := List.length_pos.2 hne
  have hperm := speciateLoop_perm compat p.genomes (p.species, p.nextSpeciesID)
  have hall := speciateLoop_nonempty compat p.genomes (p.species, p.nextSpeciesID)
    (by simp [hsp])
  have hid := speciateCleanup_id _ 0 (speciateLoop compat p.genomes
    (p.species, p.nextSpeciesID)).1 (le_refl _) hall
  refine ⟨{ p with species := (speciateLoop compat p.genomes (p.species, p.nextSpeciesID)).1,
                   nextSpeciesID :=
                     (speciateLoop compat p.genomes (p.species, p.nextSpeciesID)).2 },
    ?_, rfl, ?_, hall, ?_⟩
  · simp [speciate, hpos, hid]
  · simpa [hsp, allMembers] using hperm
  · intro h0
    have hl := hperm.length_eq
    simp only [] at h0
    rw [h0] at hl
    simp [allMembers] at hl
    omega

theorem constructorFinish_from_empty (ops : SpeciesOps) (P : Parameters) (p : Population)
    (hsp : p.species = []) (hne : p.genomes ≠ []) :
    ∃ q, constructorFinish ops P p = some q ∧ q.genomes = p.genomes ∧
      (allMembers q.species).Perm p.genomes := by
  obtain ⟨p1, h1, g1, m1, n1, e1⟩ := speciate_from_empty (ops.isCompatibleWith P) p hsp hne
  obtain ⟨s0, rest, hs0⟩ := List.exists_cons_of_ne_nil e1
  have hs0ne : s0.individuals ≠ [] := n1 s0 (by rw [hs0]; exact List.mem_cons_self _ _)
  obtain ⟨leader, lrest, hl⟩ := List.exists_cons_of_ne_nil hs0ne
  obtain ⟨p2, h2⟩ := (sort_spec { p1 with bestGenome := leader }).2 e1 n1
  have hp2 := ((sort_spec { p1 with bestGenome := leader }).1 p2 h2).1
  have e2 := sort_frame _ _ h2
  refine ⟨{ calculateMPC p2 with
              baseMPC := (calculateMPC p2).currentMPC, oldMPC := (calculateMPC p2).currentMPC,
              searchMode := (if P.PhasedSearching then SearchMode.COMPLEXIFYING
                             else SearchMode.BLENDED) }, ?_, ?_, ?_⟩
  · simp only [constructorFinish, bind, Option.bind_eq_some, pure, Option.some.injEq]
    exact ⟨p1, h1, s0, by rw [hs0]; rfl, leader, by simp [Species.getLeader, hl], p2, h2, rfl⟩
  · show p2.genomes = _
    rw [e2]
    exact g1
  · show (allMembers p2.species).Perm _
    exact hp2.trans m1

/-- C24: saving a population whose genome list is not empty and as long as its
species have members, constructing a population from the saved file and saving
that population again gives the same genome count header, the same innovation
database block and the same genome blocks up to their order, which `Speciate`
and `Sort` of the constructor decide; the compatibility threshold line shows
the default `CompatTreshold`, because the constructor ends with
`GlobalParameters.Reset()`.  The second output is identical to the first
exactly if the default threshold prints like the saved one and the genome
blocks come back in the same order. -/
theorem save_load_save_spec {ι : Type} (ops : SpeciesOps) (defaults P0 P : Parameters)
    (innov : ι) (p : Population)
    (hcount : p.genomes.length = totalMembers p.species) (hne : p.genomes ≠ []) :
    ∃ r, Population.fromFile ops defaults P0 (Population.save P innov p) = some r ∧
      (Population.save r.1 r.2.1 r.2.2).genomes = (Population.save P innov p).genomes ∧
      (Population.save r.1 r.2.1 r.2.2).innovations
        = (Population.save P innov p).innovations ∧
      (Population.save r.1 r.2.1 r.2.2).compatibility = printf35 defaults.CompatTreshold ∧
      (Population.save r.1 r.2.1 r.2.2).blocks.Perm (Population.save P innov p).blocks ∧
      (Population.save r.1 r.2.1 r.2.2 = Population.save P innov p ↔
        (printf35 defaults.CompatTreshold = printf35 P.CompatTreshold ∧
          allMembers r.2.2.species = allMembers p.species)) := by
  have hlen : (allMembers p.species).length = p.genomes.length := by
    rw [hcount, totalMembers_eq_length]
  have htake : (allMembers p.species).take p.genomes.length = allMembers p.species := by
    rw [← hlen]
    exact List.take_length _
  have hmem : allMembers p.species ≠ [] := by
    intro h0
    rw [h0] at hlen
    exact hne (List.length_eq_zero.1 hlen.symm)
  obtain ⟨q, hq, hg, hperm⟩ := constructorFinish_from_empty ops
    { P0 with PopulationSize := p.genomes.length, CompatTreshold := printf35 P.CompatTreshold }
    (constructorInit (allMembers p.species) (loadNextGenomeID (allMembers p.species)))
    rfl hmem
  have hfrom : Population.fromFile ops defaults P0 (Population.save P innov p)
      = some (defaults, innov, q) := by
    simp only [Population.fromFile, Population.save, hlen, lt_irrefl, if_false, htake, hq,
      Option.map_some']
  refine ⟨(defaults, innov, q), hfrom, ?_, rfl, rfl, hperm, ?_⟩
  · show q.genomes.length = p.genomes.length
    rw [hg]
    exact hlen
  · have hgen : q.genomes.length = p.genomes.length := by
      rw [hg]
      exact hlen
    simp only [Population.save, SavedPopulation.mk.injEq, hgen, true_and, and_true]

theorem save_load_save_spec_witness :
    ∃ r, Population.fromFile exOps (exParamsTreshold 1) (exParamsTreshold 1)
        (Population.save (exParamsTreshold 1) () exPopPair) = some r ∧
      Population.save r.1 r.2.1 r.2.2 = Population.save (exParamsTreshold 1) () exPopPair := by
  obtain ⟨r, h, _, _, _, _, hiff⟩ := save_load_save_spec exOps (exParamsTreshold 1)
    (exParamsTreshold 1) (exParamsTreshold 1) () exPopPair (by decide) (by decide)
  have hc : (Population.fromFile exOps (exParamsTreshold 1) (exParamsTreshold 1)
      (Population.save (exParamsTreshold 1) () exPopPair)).map
        (fun r => allMembers r.2.2.species) = some (allMembers exPopPair.species) := by
    decide!
  rw [h] at hc
  simp only [Option.map_some', Option.some.injEq] at hc
  exact ⟨r, h, hiff.2 ⟨rfl, hc⟩⟩

/-! ## `CalculateMPC` -/

theorem foldl_maxMinMember (l : List Genome) (st : ℚ × ℚ) :
    l.foldl maxMinMember st
      = ((l.map fun g => g.fitness).foldl max st.1, (l.map fun g => g.fitness).foldl min st.2) := by
  induction l generalizing st with
  | nil => rfl
  | cons a l ih =>
    simp only [List.foldl_cons, List.map_cons]
    rw [ih]
    have h1 : (maxMinMember st a).1 = max st.1 a.fitness := by
      unfold maxMinMember
      by_cases h : st.1 < a.fitness
      · simp only [if_pos h]
        exact (max_eq_right (le_of_lt h)).symm
      · simp only [if_neg h]
        exact (max_eq_left (not_lt.1 h)).symm
    have h2 : (maxMinMember st a).2 = min st.2 a.fitness := by
      unfold maxMinMember
      by_cases h : st.2 > a.fitness
      · simp only [if_pos h]
        exact (min_eq_right (le_of_lt h)).symm
      · simp only [if_neg h]
        exact (min_eq_left (not_lt.1 h)).symm
    rw [h1, h2]

theorem DBL_MIN_pos : 0 < DBL_MIN := by
  unfold DBL_MIN
  positivity

/-- C32: `GetMaxMinGenomeFitness` does not set `a_Max` to the greatest fitness
when no member has a positive fitness.  `a_Max` starts as `DBL_MIN`, the
smallest positive normal `double`, and is raised only by a greater fitness: it
ends as the greatest of `DBL_MIN` and the fitnesses, so for members that are
all zero or negative it stays `DBL_MIN`, above every member.  For the members
-1 and -2 the call leaves `a_Max = DBL_MIN` and `a_Min = -2`. -/
theorem getMaxMinGenomeFitness_max_stays_DBL_MIN :
    (∀ p : Population,
      (getMaxMinGenomeFitness p).1
        = ((allMembers p.species).map fun g => g.fitness).foldl max DBL_MIN ∧
      (getMaxMinGenomeFitness p).2
        = ((allMembers p.species).map fun g => g.fitness).foldl min DBL_MAX) ∧
    (∀ p : Population, (∀ g ∈ allMembers p.species, g.fitness ≤ 0) →
      (getMaxMinGenomeFitness p).1 = DBL_MIN ∧
      ∀ g ∈ allMembers p.species, g.fitness < (getMaxMinGenomeFitness p).1) ∧
    allMembers exPopNegativePair.species ≠ [] ∧
    getMaxMinGenomeFitness exPopNegativePair = (DBL_MIN, -2) ∧
    (∀ g ∈ allMembers exPopNegativePair.species,
      g.fitness < (getMaxMinGenomeFitness exPopNegativePair).1) := by
  have hgen : ∀ p : Population,
      getMaxMinGenomeFitness p
        = (((allMembers p.species).map fun g => g.fitness).foldl max DBL_MIN,
           ((allMembers p.species).map fun g => g.fitness).foldl min DBL_MAX) := by
    intro p
    unfold getMaxMinGenomeFitness
    rw [foldl_species_members, foldl_maxMinMember]
  refine ⟨fun p => ⟨by rw [hgen], by rw [hgen]⟩, ?_, by decide!, by decide!, by decide!⟩
  intro p hall
  have h1 : (getMaxMinGenomeFitness p).1 = DBL_MIN := by
    rw [hgen]
    apply foldl_max_eq_of_le
    intro x hx
    simp only [List.mem_map] at hx
    obtain ⟨g, hg, rfl⟩ := hx
    exact le_trans (hall g hg) (le_of_lt DBL_MIN_pos)
  refine ⟨h1, fun g hg => ?_⟩
  rw [h1]
  exact lt_of_le_of_lt (hall g hg) DBL_MIN_pos

/-! ## The first Epoch in the simplifying phase -/

theorem constructorFinish_best (ops : SpeciesOps) (P : Parameters) (p p1 : Population)
    (h : constructorFinish ops P p = some p1) : p1.bestFitnessEver = p.bestFitnessEver := by
  simp only [constructorFinish, bind, Option.bind_eq_some, pure, Option.some.injEq] at h
  obtain ⟨q1, h1, s0, _, leader, _, q2, h2, rfl⟩ := h
  have e2 := sort_frame _ _ h2
  have a2 : q2.bestFitnessEver = q1.bestFitnessEver := by rw [e2]
  show (calculateMPC q2).bestFitnessEver = _
  show q2.bestFitnessEver = _
  rw [a2]
  unfold speciate at h1
  split at h1
  · simp only [Option.map_eq_some'] at h1
    obtain ⟨sp, _, rfl⟩ := h1
    rfl
  · simp at h1

theorem create_best (ops : SpeciesOps) (P : Parameters) (randomize : Nat → Genome → Genome)
    (seed : Genome) (b : Bool) (p : Population)
    (h : Population.create ops P randomize seed b = some p) : p.bestFitnessEver = 0 := by
  unfold Population.create at h
  rw [constructorFinish_best ops P _ p h]
  rfl

theorem foldl_epochScanMember_best (delta : ℚ) (l : List Genome) (st : ScanState) :
    (l.foldl (epochScanMember delta) st).best = (l.map fun g => g.fitness).foldl max st.best := by
  induction l generalizing st with
  | nil => rfl
  | cons g l ih =>
    simp only [List.foldl_cons, List.map_cons]
    rw [ih, epochScanMember_best]

theorem foldl_max_mem (l : List ℚ) (b : ℚ) :
    (∀ x ∈ l, x ≤ l.foldl max b) ∧ (l.foldl max b = b ∨ l.foldl max b ∈ l) := by
  induction l generalizing b with
  | nil => exact ⟨by simp, Or.inl rfl⟩
  | cons a l ih =>
    obtain ⟨i1, i2⟩ := ih (max b a)
    simp only [List.foldl_cons]
    constructor
    · intro x hx
      rcases List.mem_cons.1 hx with rfl | hx
      · exact le_trans (le_max_right b x) (foldl_max_ge l _)
      · exact i1 x hx
    · rcases i2 with h | h
      · rcases max_choice b a with hm | hm
        · exact Or.inl (h.trans hm)
        · exact Or.inr (by rw [h, hm]; exact List.mem_cons_self _ _)
      · exact Or.inr (List.mem_cons_of_mem _ h)

/-- The record after a completed `Epoch` is the greatest of the record before
it and the raw fitnesses of the members at the call, when `AdjustFitness`
leaves the raw fitnesses alone. -/
theorem epoch_best_spec (ops : SpeciesOps) (P : Parameters) (p : Population)
    (r : Parameters × Population) (h : epoch ops P p = some r)
    (hadj : ∀ P s, (ops.adjustFitness P s).individuals.map (fun g => g.fitness)
      = s.individuals.map fun g => g.fitness) :
    p.bestFitnessEver ≤ r.2.bestFitnessEver ∧
    (∀ g ∈ allMembers p.species, g.fitness ≤ r.2.bestFitnessEver) ∧
    (r.2.bestFitnessEver = p.bestFitnessEver ∨
      ∃ g ∈ allMembers p.species, g.fitness = r.2.bestFitnessEver) := by
  have hle := epoch_best_le ops P p r h
  simp only [epoch, bind, Option.bind_eq_some, pure, Option.some.injEq] at h
  obtain ⟨p1, h1, p2, h2, p3, h3, p4, h4, p5, h5, P1, h6, sp2, h7, sp3, h8, rfl⟩ := h
  have e1 := sort_frame _ _ h1
  have e2 := updateSpecies_frame _ _ h2
  have e3 := adjustFitness_frame _ _ _ _ h3
  have e4 := countOffspring_frame _ _ _ h4
  have hb : p4.bestFitnessEver = p.bestFitnessEver := by rw [e4, e3, e2, e1]
  have s1 : ((allMembers p1.species).map fun g => g.fitness).Perm
      ((allMembers p.species).map fun g => g.fitness) :=
    (((sort_spec p).1 p1 h1).1).map _
  have s2 : allMembers p2.species = allMembers p1.species := updateSpecies_allMembers _ _ h2
  have s3 : (allMembers p3.species).map (fun g => g.fitness)
      = (allMembers p2.species).map fun g => g.fitness := by
    rw [e3]
    exact allMembers_map_fitness _ _ (hadj P)
  have s4 := countOffspring_fitness _ _ _ h4
  have hmem : ∀ x, x ∈ (allMembers p4.species).map (fun g => g.fitness) ↔
      x ∈ (allMembers p.species).map fun g => g.fitness := by
    intro x
    rw [s4, s3, s2]
    exact s1.mem_iff
  have hrec : p5.bestFitnessEver
      = ((allMembers p4.species).map fun g => g.fitness).foldl max p.bestFitnessEver := by
    unfold epochScan at h5
    simp only [Option.map_eq_some'] at h5
    obtain ⟨⟨sp1, st1⟩, h51, rfl⟩ := h5
    have := (epochScanSpecies_fold _ _ _ _ _ h51).1
    subst this
    show (((allMembers p4.species).map Genome.setEvaluated).foldl
      (epochScanMember P.StagnationDelta) _).best = _
    rw [foldl_epochScanMember_best, List.map_map, ← hb]
    rfl
  have hfin : (epochReproduce ops P1 (epochPhased P1 (calculateMPC
      (epochDeltaCoding P1 (epochCurrentBest p5))))).bestFitnessEver = p5.bestFitnessEver := by
    rw [epochReproduce_best, epochPhased_best]
    show (epochDeltaCoding P1 (epochCurrentBest p5)).bestFitnessEver = _
    rw [epochDeltaCoding_best]
    rfl
  obtain ⟨m1, m2⟩ := foldl_max_mem ((allMembers p4.species).map fun g => g.fitness)
    p.bestFitnessEver
  rw [← hrec, ← hfin] at m1 m2
  refine ⟨hle, ?_, ?_⟩
  · intro g hg
    exact m1 _ ((hmem _).2 (List.mem_map_of_mem _ hg))
  · rcases m2 with m2 | m2
    · exact Or.inl m2
    · obtain ⟨g, hg, hfit⟩ := List.mem_map.1 ((hmem _).1 m2)
      exact Or.inr ⟨g, hg, hfit⟩

/-- An `Epoch` called when no member has a positive raw fitness does not
complete, when `AdjustFitness` gives no positive adjusted fitness in a species
without a positive raw fitness: the total adjusted fitness is not positive and
`ASSERT(t_total_adjusted_fitness > 0)` in `CountOffspring` fails. -/
theorem epoch_aborts_of_nonpos (ops : SpeciesOps) (P : Parameters) (p : Population)
    (hsign : ∀ P s, (∀ g ∈ s.individuals, g.fitness ≤ 0) →
      ∀ g ∈ (ops.adjustFitness P s).individuals, g.adjFitness ≤ 0)
    (hf : ∀ g ∈ allMembers p.species, g.fitness ≤ 0) :
    epoch ops P p = none := by
  cases h : epoch ops P p with
  | none => rfl
  | some r =>
    exfalso
    simp only [epoch, bind, Option.bind_eq_some, pure, Option.some.injEq] at h
    obtain ⟨p1, h1, p2, h2, p3, h3, p4, h4, _⟩ := h
    have e3 := adjustFitness_frame _ _ _ _ h3
    have s1 := ((sort_spec p).1 p1 h1).1
    have s2 : allMembers p2.species = allMembers p1.species := updateSpecies_allMembers _ _ h2
    have hf2 : ∀ s ∈ p2.species, ∀ g ∈ s.individuals, g.fitness ≤ 0 := by
      intro s hs g hg
      have : g ∈ allMembers p2.species := mem_allMembers.2 ⟨s, hs, hg⟩
      rw [s2] at this
      exact hf g (s1.mem_iff.1 this)
    have hadj3 : ∀ g ∈ allMembers p3.species, g.adjFitness ≤ 0 := by
      intro g hg
      obtain ⟨s, hs, hgs⟩ := mem_allMembers.1 hg
      rw [e3] at hs
      obtain ⟨s0, hs0, rfl⟩ := List.mem_map.1 hs
      exact hsign P s0 (hf2 s0 hs0) g hgs
    have htot : totalAdjustedFitness p3.species ≤ 0 := by
      rw [totalAdjustedFitness_eq_sum]
      apply sum_nonpos_of_forall
      intro x hx
      obtain ⟨g, hg, rfl⟩ := List.mem_map.1 hx
      exact hadj3 g hg
    unfold countOffspring at h4
    split at h4
    · dsimp only at h4
      rw [if_neg (not_lt.2 htot)] at h4
      simp at h4
    · simp at h4

/-- A fresh population evaluated with the fitnesses `-1` and `-2`: whatever the
species operations are, an `Epoch` that completes leaves a record that is not
negative, so not the greatest fitness `-1` (and there are species operations
with which it completes, the record then being 0); with the adjusted fitness
`fitness / size` the total adjusted fitness is `-3/2` and `Epoch` does not
complete, `ASSERT(t_total_adjusted_fitness > 0)` failing in `CountOffspring`. -/
theorem fresh_population_negative_fitness_no_negative_record :
    (exFreshNegative.map fun p => (allMembers p.species).map fun g => g.fitness)
      = some [-1, -2] ∧
    (exFreshNegative.map fun p => p.bestFitnessEver) = some 0 ∧
    (∀ (ops : SpeciesOps) (P : Parameters) (p : Population) (r : Parameters × Population),
      exFreshNegative = some p → epoch ops P p = some r →
      0 ≤ r.2.bestFitnessEver ∧ r.2.bestFitnessEver ≠ -1) ∧
    (∃ ops : SpeciesOps, (exFreshNegative.bind fun p =>
      (epoch ops exParamsPair p).map fun r => r.2.bestFitnessEver) = some 0) ∧
    (exFreshNegative.bind fun p =>
        ((sort p).bind updateSpecies).bind (adjustFitness exOpsQuota exParamsPair)).map
      (fun q => totalAdjustedFitness q.species) = some (-3 / 2) ∧
    (exFreshNegative.bind fun p => epoch exOpsQuota exParamsPair p) = none := by
  refine ⟨by decide!, by decide!, ?_, ⟨exOps, by decide!⟩, by decide!, by decide!⟩
  intro ops P p r hp h
  have h0 : p.bestFitnessEver = 0 := by
    have : (exFreshNegative.map fun p => p.bestFitnessEver) = some 0 := by decide!
    rw [hp] at this
    simpa using this
  have hle := epoch_best_le ops P p r h
  rw [h0] at hle
  exact ⟨hle, fun e => by rw [e] at hle; norm_num at hle⟩

/-- C7: for every freshly constructed population and every sequence of `Epoch`
calls that all complete, with `AdjustFitness` leaving the raw fitnesses as they
are and whatever happens between two calls (the evaluation) leaving
`best_fitness_ever` alone, the value of `GetBestFitnessEver` after the last
`Epoch` is the greatest of 0, the value the constructor sets, and the raw
fitnesses held by the members at the time of those calls: it is at least 0, at
least every such fitness, and either 0 or one of them.  It is never negative.
If moreover `AdjustFitness` gives no positive adjusted fitness in a species
without a positive raw fitness, an `Epoch` called when no member has a positive
raw fitness does not complete; so at every one of the calls some member had a
positive fitness, and the value is positive and equal to the greatest raw
fitness held by any member at the time of any of the calls. -/
theorem fresh_population_record_is_max (ops : SpeciesOps) (P0 : Parameters)
    (randomize : Nat → Genome → Genome) (seed : Genome) (b : Bool) (p0 : Population)
    (pre post : Nat → Parameters × Population) (n : Nat)
    (hfresh : Population.create ops P0 randomize seed b = some p0)
    (h0 : (pre 0).2.bestFitnessEver = p0.bestFitnessEver)
    (hrun : ∀ k ≤ n, epoch ops (pre k).1 (pre k).2 = some (post k))
    (hlink : ∀ k < n, (pre (k + 1)).2.bestFitnessEver = (post k).2.bestFitnessEver)
    (hadj : ∀ P s, (ops.adjustFitness P s).individuals.map (fun g => g.fitness)
      = s.individuals.map fun g => g.fitness) :
    0 ≤ (post n).2.bestFitnessEver ∧
    (∀ k ≤ n, ∀ g ∈ allMembers (pre k).2.species,
      g.fitness ≤ (post n).2.bestFitnessEver) ∧
    ((post n).2.bestFitnessEver = 0 ∨
      ∃ k ≤ n, ∃ g ∈ allMembers (pre k).2.species,
        g.fitness = (post n).2.bestFitnessEver) ∧
    ((∀ P s, (∀ g ∈ s.individuals, g.fitness ≤ 0) →
        ∀ g ∈ (ops.adjustFitness P s).individuals, g.adjFitness ≤ 0) →
      (∀ P p, (∀ g ∈ allMembers p.species, g.fitness ≤ 0) → epoch ops P p = none) ∧
      (∀ k ≤ n, ∃ g ∈ allMembers (pre k).2.species, 0 < g.fitness) ∧
      0 < (post n).2.bestFitnessEver ∧
      ∃ k ≤ n, ∃ g ∈ allMembers (pre k).2.species,
        g.fitness = (post n).2.bestFitnessEver) := by
  have hz : (pre 0).2.bestFitnessEver = 0 := by
    rw [h0]
    exact create_best ops P0 randomize seed b p0 hfresh
  have key : ∀ m, m ≤ n →
      0 ≤ (post m).2.bestFitnessEver ∧
      (∀ k ≤ m, ∀ g ∈ allMembers (pre k).2.species,
        g.fitness ≤ (post m).2.bestFitnessEver) ∧
      ((post m).2.bestFitnessEver = 0 ∨
        ∃ k ≤ m, ∃ g ∈ allMembers (pre k).2.species,
          g.fitness = (post m).2.bestFitnessEver) := by
    intro m
    induction m with
    | zero =>
      intro hm
      obtain ⟨a1, a2, a3⟩ := epoch_best_spec ops _ _ _ (hrun 0 hm) hadj
      rw [hz] at a1 a3
      refine ⟨a1, ?_, ?_⟩
      · intro k hk g hg
        have : k = 0 := by omega
        subst this
        exact a2 g hg
      · rcases a3 with a3 | ⟨g, hg, hfit⟩
        · exact Or.inl a3
        · exact Or.inr ⟨0, le_refl _, g, hg, hfit⟩
    | succ m ih =>
      intro hm
      obtain ⟨i1, i2, i3⟩ := ih (by omega)
      obtain ⟨a1, a2, a3⟩ := epoch_best_spec ops _ _ _ (hrun (m + 1) hm) hadj
      rw [hlink m (by omega)] at a1 a3
      refine ⟨le_trans i1 a1, ?_, ?_⟩
      · intro k hk g hg
        rcases Nat.lt_or_ge k (m + 1) with hlt | hge
        · exact le_trans (i2 k (by omega) g hg) a1
        · have : k = m + 1 := by omega
          subst this
          exact a2 g hg
      · rcases a3 with a3 | ⟨g, hg, hfit⟩
        · rcases i3 with i3 | ⟨k, hk, g, hg, hfit⟩
          · exact Or.inl (a3.trans i3)
          · exact Or.inr ⟨k, by omega, g, hg, hfit.trans a3.symm⟩
        · exact Or.inr ⟨m + 1, le_refl _, g, hg, hfit⟩
  obtain ⟨k1, k2, k3⟩ := key n (le_refl _)
  refine ⟨k1, k2, k3, ?_⟩
  intro hsign
  have hab : ∀ P p, (∀ g ∈ allMembers p.species, g.fitness ≤ 0) → epoch ops P p = none :=
    fun P p hf => epoch_aborts_of_nonpos ops P p hsign hf
  have hpos : ∀ k ≤ n, ∃ g ∈ allMembers (pre k).2.species, 0 < g.fitness := by
    intro k hk
    by_contra hcon
    have hf : ∀ g ∈ allMembers (pre k).2.species, g.fitness ≤ 0 := by
      intro g hg
      by_contra hgt
      exact hcon ⟨g, hg, not_le.1 hgt⟩
    have h1 := hrun k hk
    rw [hab _ _ hf] at h1
    simp at h1
  have hR : 0 < (post n).2.bestFitnessEver := by
    obtain ⟨g, hg, hgp⟩ := hpos n (le_refl _)
    exact lt_of_lt_of_le hgp (k2 n (le_refl _) g hg)
  refine ⟨hab, hpos, hR, ?_⟩
  rcases k3 with k3 | k3
  · exact absurd k3 (ne_of_gt hR)
  · exact k3

theorem fresh_population_record_is_max_witness :
    (epoch exOpsQuota exParamsPair exFreshPositive).map (fun r => r.2.bestFitnessEver)
      = some 2 ∧
    ((allMembers exFreshPositive.species).map fun g => g.fitness) = [1, 2] ∧
    ∀ r, epoch exOpsQuota exParamsPair exFreshPositive = some r →
      0 < r.2.bestFitnessEver ∧
      ∃ k ≤ 0, ∃ g ∈ allMembers exFreshPositive.species,
        g.fitness = r.2.bestFitnessEver := by
  refine ⟨by decide!, by decide!, ?_⟩
  intro r hr
  have h := (fresh_population_record_is_max exOpsQuota exParamsPair (fun _ g => g) {} false
    exFresh (fun _ => (exParamsPair, exFreshPositive)) (fun _ => r) 0
    (by decide!) (by decide!) (fun _ _ => hr) (fun k hk => absurd hk (Nat.not_lt_zero k))
    (by
      intro P s
      simp [exOpsQuota, List.map_map, Function.comp])).2.2.2
    (by
      intro P s hs g hg
      simp only [exOpsQuota, List.mem_map] at hg
      obtain ⟨g0, hg0, rfl⟩ := hg
      exact div_nonpos_of_nonpos_of_nonneg (hs g0 hg0) (Nat.cast_nonneg _))
  exact ⟨h.2.2.1, h.2.2.2⟩

end NEAT
